import Mathlib

/-!
Kanban board controller (`app/static/js/pipeline.js`)

A shallow embedding of the drag-and-drop controller of the sales pipeline board, followed
by the template placeholders of `app/static/js/scripts.js` (namespace `Scripts`), the
form validation and the stage cards of `app/static/js/create_edit_pipeline.js` (namespace
`CreateEditPipeline`), the stage cards of `app/static/js/pipeline_form.js` (namespace
`PipelineFormScript`) and the colours of `app/static/js/stage_transitions.js` (namespace
`StageTransitions`).

The DOM the controller works on is modelled by the data it reads and writes:

* the static node list `stageContainers` is a `List Container`; a container is
  referred to by its position in that list (the list never changes length),
* a deal card is a child of a stage container and is referred to by its `key`
  (element identity), the children of a container being its deal cards in
  document order,
* `classList` is modelled by the two classes the controller touches
  (`dragging` on cards, `drag-over` on containers),
* the promise chain of `fetch` is modelled by a log of issued requests, each of
  which can be settled once, and `setTimeout` by a log of scheduled callbacks.
-/

namespace Pipeline

/-! ## Data model -/

/-- A `.deal-card` element. -/
structure Card where
  /-- element identity -/
  key : Nat
  /-- the `data-deal-id` attribute -/
  dealId : String
  /-- whether `classList` contains `dragging` -/
  dragging : Bool
deriving DecidableEq, Repr

/-- The element before a stage container (`previousElementSibling`); `badge` is the
text of its `.badge` descendant, `none` when it has none. -/
structure Header where
  badge : Option String
deriving DecidableEq, Repr

/-- A `.stage-body` element. -/
structure Container where
  /-- the element `id` -/
  id : String
  /-- whether `classList` contains `drag-over` -/
  dragOver : Bool
  /-- the `.deal-card` children, in document order -/
  cards : List Card
  /-- the `previousElementSibling`, `none` when it is `null` -/
  header : Option Header
deriving DecidableEq, Repr

/-- The drag data store handed to the drag events of one gesture. -/
structure DataTransfer where
  effectAllowed : String
  dropEffect : String
  /-- the `text/plain` entry -/
  data : String
deriving DecidableEq, Repr

/-- A notification element created by `showToast`. -/
structure Toast where
  className : String
  innerHTML : String
  /-- whether `classList` contains `show` -/
  shown : Bool
  /-- whether the element is still a child of `document.body` -/
  attached : Bool
deriving DecidableEq, Repr

/-- The callbacks handed to `setTimeout`. -/
inductive Callback where
  /-- `this.classList.add('dragging')` of `handleDragStart` -/
  | addDragging (card : Nat)
  /-- `hideToast(toast)` of `showToast` -/
  | hideToast (toast : Nat)
  /-- removal of the toast from its parent, of `hideToast` -/
  | removeToast (toast : Nat)
deriving DecidableEq, Repr

/-- A scheduled `setTimeout` call. -/
structure Timer where
  delay : Nat
  callback : Callback
  /-- whether the callback has run -/
  done : Bool
deriving DecidableEq, Repr

/-- A `fetch` call of `updateDealStage`. -/
structure Request where
  url : String
  method : String
  /-- `deal_id` of the JSON body -/
  deal_id : String
  /-- `stage_id` of the JSON body -/
  stage_id : String
  /-- the loading toast captured by the handlers of this request -/
  loadingToast : Nat
  /-- whether the promise chain of this request has run its handler -/
  settled : Bool
deriving DecidableEq, Repr

/-- What `response.json()` yields. -/
inductive Body where
  /-- a JSON object with `success` and, possibly, `message` -/
  | json (success : Bool) (message : Option String)
  /-- `response.json()` rejects with an error of the given message -/
  | invalid (error : String)
deriving DecidableEq, Repr

/-- How a request ends. -/
inductive Settlement where
  /-- `fetch` rejects with an error of the given message -/
  | rejected (error : String)
  /-- `fetch` resolves with a response of the given HTTP status -/
  | response (status : Nat) (body : Body)
deriving DecidableEq, Repr

/-- The state the controller reads and writes. -/
structure State where
  /-- `stageContainers` -/
  containers : List Container
  /-- `draggedDeal`, `none` for `null` -/
  draggedDeal : Option Nat
  /-- `originalStage`, `none` for `null` -/
  originalStage : Option Nat
  dataTransfer : DataTransfer
  /-- the `fetch` calls made so far -/
  requests : List Request
  /-- the toasts created so far -/
  toasts : List Toast
  /-- the `setTimeout` calls made so far -/
  timers : List Timer
deriving DecidableEq, Repr

/-! ## DOM helpers -/

/-- All deal cards of the board, in document order. -/
def allCards (cs : List Container) : List Card :=
  (cs.map Container.cards).flatten

/-- The card element with the given identity. -/
def findCard (cs : List Container) (x : Nat) : Option Card :=
  (allCards cs).find? (fun k => k.key == x)

/-- The position of the stage container that holds the card: `card.parentNode`. -/
def parentNode : List Container → Nat → Option Nat
  | [], _ => none
  | c :: cs, x =>
    if c.cards.any (fun k => k.key == x) then some 0
    else (parentNode cs x).map (fun i => i + 1)

/-- Detach the card from its parent. -/
def removeCard (cs : List Container) (x : Nat) : List Container :=
  cs.map (fun c => { c with cards := c.cards.filter (fun k => k.key != x) })

/-- The DOM `target.appendChild(card)`: the card leaves its parent and becomes the
last child of container `b`. -/
def appendChild (cs : List Container) (b : Nat) (x : Nat) : List Container :=
  match findCard cs x with
  | none => cs
  | some card =>
    (removeCard cs x).modify (fun c => { c with cards := c.cards ++ [card] }) b

/-- `String.prototype.replace(pat, '')` on the characters of a string: the first
occurrence of `pat` is removed. -/
def removeFirst (pat : List Char) : List Char → List Char
  | [] => []
  | c :: cs =>
    if pat.isPrefixOf (c :: cs) then (c :: cs).drop pat.length
    else c :: removeFirst pat cs

/-- The expression `container.id.replace('stage-', '')`. -/
def stageIdOf (id : String) : String :=
  ⟨removeFirst "stage-".data id.data⟩

/-! ## Toasts -/

/-- `showToast(message, type)`; returns the new state and the toast created. -/
def showToast (s : State) (message : String) (type : String) : State × Nat :=
  let toast := s.toasts.length
  let s1 := { s with toasts := s.toasts ++
    [{ className := "toast toast-" ++ type, innerHTML := message, shown := true,
       attached := true }] }
  if type = "success" ∨ type = "info" then
    ({ s1 with timers := s1.timers ++ [⟨3000, .hideToast toast, false⟩] }, toast)
  else (s1, toast)

/-- `hideToast(toast)`. -/
def hideToast (s : State) (toast : Nat) : State :=
  { s with
    toasts := s.toasts.modify (fun t => { t with shown := false }) toast
    timers := s.timers ++ [⟨300, .removeToast toast, false⟩] }

/-! ## Drag handlers -/

/-- `handleDragStart`, with `this` the card `x`; the listener is attached to the deal cards
only, so nothing happens for an `x` that is no card of the board. -/
def handleDragStart (s : State) (x : Nat) : State :=
  match findCard s.containers x with
  | none => s
  | some card =>
    { s with
      draggedDeal := some x
      originalStage := parentNode s.containers x
      timers := s.timers ++ [⟨0, .addDragging x, false⟩]
      dataTransfer :=
        { s.dataTransfer with effectAllowed := "move", data := card.dealId } }

/-- `handleDragEnd`, with `this` the card `x`. -/
def handleDragEnd (s : State) (x : Nat) : State :=
  { s with
    containers := s.containers.map (fun c =>
      { c with
        dragOver := false
        cards := c.cards.map (fun k =>
          if k.key = x then { k with dragging := false } else k) })
    draggedDeal := none
    originalStage := none }

/-- `handleDragOver`, with `this` the container `c`. -/
def handleDragOver (s : State) (_c : Nat) : State :=
  { s with dataTransfer := { s.dataTransfer with dropEffect := "move" } }

/-- `handleDragEnter`, with `this` the container `c`. -/
def handleDragEnter (s : State) (c : Nat) : State :=
  { s with containers := s.containers.modify (fun k => { k with dragOver := true }) c }

/-- The statement `this.classList.remove('drag-over')`, with `this` the container `c`. -/
def removeDragOver (s : State) (c : Nat) : State :=
  { s with containers := s.containers.modify (fun k => { k with dragOver := false }) c }

/-- `handleDragLeave`, with `this` the container `c`. -/
def handleDragLeave (s : State) (c : Nat) : State :=
  removeDragOver s c

/-- The synchronous part of `updateDealStage(dealId, stageId)`: the loading toast and the
`fetch` call. -/
def updateDealStage (s : State) (dealId stageId : String) : State :=
  let r := showToast s "Moving deal..." "info"
  { r.1 with requests := r.1.requests ++
    [{ url := "/change_deal_stage_ajax", method := "POST", deal_id := dealId,
       stage_id := stageId, loadingToast := r.2, settled := false }] }

/-- `handleDrop`, with `this` the container at position `b`; the listener is attached to the
stage containers only, so nothing happens for a `b` that is no position of
`stageContainers`. The payload `e.dataTransfer.getData('text/plain')` is read from the drag
data store of the state. -/
def handleDrop (s : State) (b : Nat) : State :=
  match s.containers[b]? with
  | none => s
  | some target =>
    let s1 := removeDragOver s b
    match s1.draggedDeal with
    | none => s1
    | some x =>
      let dealId := s1.dataTransfer.data
      let targetStageId := stageIdOf target.id
      if s1.originalStage = some b then s1
      else
        updateDealStage { s1 with containers := appendChild s1.containers b x }
          dealId targetStageId

/-! ## Response handlers -/

/-- The statement `badge.textContent = dealCount` for container `c`, whose header has a
badge. -/
def writeBadge (c : Container) : Container :=
  { c with header := some { badge := some (toString c.cards.length) } }

/-- The loop of `updateStageCounts` over the containers; the flag tells whether the loop
threw (`stageHeader` is `null`), in which case the containers before the throwing one have
been written and the others have not. -/
def updateStageCountsLoop : List Container → List Container × Bool
  | [] => ([], false)
  | c :: rest =>
    match c.header with
    | none => (c :: rest, true)
    | some h =>
      let c1 : Container :=
        match h.badge with
        | none => c
        | some _ => writeBadge c
      let r := updateStageCountsLoop rest
      (c1 :: r.1, r.2)

/-- `updateStageCounts()`. -/
def updateStageCounts (s : State) : State × Bool :=
  let r := updateStageCountsLoop s.containers
  ({ s with containers := r.1 }, r.2)

/-- The statement `if (originalStage && draggedDeal) originalStage.appendChild(draggedDeal)`. -/
def revert (s : State) : State :=
  match s.originalStage, s.draggedDeal with
  | some a, some x => { s with containers := appendChild s.containers a x }
  | _, _ => s

/-- The `.catch(error => ...)` handler, for an error of message `msg`. -/
def onError (s : State) (loadingToast : Nat) (msg : String) : State :=
  let s1 := hideToast s loadingToast
  let s2 := (showToast s1 ("Error: " ++ msg) "error").1
  revert s2

/-- The string `'' + data.message`. -/
def messageText : Option String → String
  | some m => m
  | none => "undefined"

/-- The message of the `TypeError` raised by `stageHeader.querySelector` on `null`. -/
def nullHeaderMessage : String :=
  "Cannot read properties of null (reading 'querySelector')"

/-- The `.then(data => ...)` handler; an exception of `updateStageCounts` rejects the
promise, which runs the `.catch` handler. -/
def onData (s : State) (loadingToast : Nat) (success : Bool) (message : Option String) :
    State :=
  let s1 := hideToast s loadingToast
  if success then
    let s2 := (showToast s1 "Deal moved successfully!" "success").1
    let r := updateStageCounts s2
    if r.2 then onError r.1 loadingToast nullHeaderMessage else r.1
  else
    let s2 := (showToast s1 ("Error: " ++ messageText message) "error").1
    revert s2

/-- The promise chain of request `i` runs with the given settlement. -/
def settle (s : State) (i : Nat) (o : Settlement) : State :=
  match s.requests[i]? with
  | none => s
  | some r =>
    if r.settled then s
    else
      let s1 := { s with requests := s.requests.modify (fun q => { q with settled := true }) i }
      match o with
      | .rejected m => onError s1 r.loadingToast m
      | .response _ (.invalid m) => onError s1 r.loadingToast m
      | .response _ (.json success message) => onData s1 r.loadingToast success message

/-- A scheduled callback runs. -/
def runCallback (s : State) : Callback → State
  | .addDragging x =>
    { s with containers := s.containers.map (fun c =>
        { c with cards := c.cards.map (fun k =>
            if k.key = x then { k with dragging := true } else k) }) }
  | .hideToast t => hideToast s t
  | .removeToast t =>
    { s with toasts := s.toasts.modify (fun k => { k with attached := false }) t }

/-- Timer `i` fires. -/
def fireTimer (s : State) (i : Nat) : State :=
  match s.timers[i]? with
  | none => s
  | some t =>
    if t.done then s
    else
      runCallback { s with timers := s.timers.modify (fun q => { q with done := true }) i }
        t.callback

/-! ## Event sequences -/

/-- The events the page can deliver to the controller. -/
inductive Event where
  | dragStart (card : Nat)
  | dragEnd (card : Nat)
  | dragOver (container : Nat)
  | dragEnter (container : Nat)
  | dragLeave (container : Nat)
  | drop (container : Nat)
  | settle (request : Nat) (o : Settlement)
  | timer (i : Nat)
deriving DecidableEq, Repr

/-- One event is handled. -/
def step (s : State) : Event → State
  | .dragStart x => handleDragStart s x
  | .dragEnd x => handleDragEnd s x
  | .dragOver c => handleDragOver s c
  | .dragEnter c => handleDragEnter s c
  | .dragLeave c => handleDragLeave s c
  | .drop c => handleDrop s c
  | .settle i o => settle s i o
  | .timer i => fireTimer s i

/-- A sequence of events is handled, in order. -/
def run (s : State) (es : List Event) : State :=
  es.foldl step s

/-- Element identity: no two cards of the board share a key. -/
def WellFormed (cs : List Container) : Prop :=
  ((allCards cs).map Card.key).Nodup

instance (cs : List Container) : Decidable (WellFormed cs) := by
  unfold WellFormed; infer_instance

/-! ## A concrete board -/

/-- The board of the example scenario: `stage-10` holds three cards, among them the deal
`"42"`, and `stage-20` holds one. -/
def exampleBoard : State where
  containers :=
    [ { id := "stage-10", dragOver := false,
        cards := [⟨1, "41", false⟩, ⟨2, "42", false⟩, ⟨3, "43", false⟩],
        header := some ⟨some "3"⟩ },
      { id := "stage-20", dragOver := false,
        cards := [⟨4, "44", false⟩],
        header := some ⟨some "1"⟩ } ]
  draggedDeal := none
  originalStage := none
  dataTransfer := ⟨"", "", ""⟩
  requests := []
  toasts := []
  timers := []

/-- The request `updateDealStage` issues for a deal and a stage, with the loading toast
created for it. -/
def stageChangeRequest (dealId stageId : String) (loadingToast : Nat) : Request :=
  { url := "/change_deal_stage_ajax", method := "POST", deal_id := dealId,
    stage_id := stageId, loadingToast := loadingToast, settled := false }

/-- Events that are not drag events: a settled request or a fired timer. -/
def Event.isAsync : Event → Bool
  | .settle _ _ => true
  | .timer _ => true
  | _ => false

/-- The keys of the cards of each container: which card is in which container, in which
order. -/
def containment (cs : List Container) : List (List Nat) :=
  cs.map (fun c => c.cards.map Card.key)

/-- Whether the event is the handling of a response whose body says `success: true`. -/
def Event.isSuccess : Event → Bool
  | .settle _ (.response _ (.json true _)) => true
  | _ => false

/-- Whether the event is a `drop`. -/
def Event.isDrop : Event → Bool
  | .drop _ => true
  | _ => false

/-- The headers of the containers, with the texts of their badges. -/
def headers (cs : List Container) : List (Option Header) :=
  cs.map Container.header

/-- The cards of the board as elements: identity and `data-deal-id`, in document order. -/
def identities (cs : List Container) : List (Nat × String) :=
  (allCards cs).map (fun k => (k.key, k.dealId))

/-- The cards are distinct elements and `originalStage`, when set, is one of the stage
containers. -/
def SessionValid (s : State) : Prop :=
  WellFormed s.containers ∧ ∀ a, s.originalStage = some a → a < s.containers.length

/-- The number of requests for the deal `d` that have been issued and not settled. -/
def pendingFor (rs : List Request) (d : String) : Nat :=
  rs.countP (fun r => !r.settled && r.deal_id == d)

/-- The toast of a failure path, as `showToast` creates it. -/
def errorToast (m : String) : Toast :=
  { className := "toast toast-error", innerHTML := "Error: " ++ m, shown := true,
    attached := true }

/-- Two boards have as many containers and hold the same card elements. -/
def SameCards (cs1 cs : List Container) : Prop :=
  cs1.length = cs.length ∧ (identities cs1).Perm (identities cs)

end Pipeline

/-! ## Template placeholders (`app/static/js/scripts.js`) -/

namespace Scripts

/-- The character `\x7b`. -/
def lbrace : Char := Char.ofNat 123

/-- The character `\x7d`. -/
def rbrace : Char := Char.ofNat 125

/-- The character `$`. -/
def dollar : Char := Char.ofNat 36

/-- The replacement text of one match of `String.prototype.replace` for a pattern without
capture groups (`GetSubstitution`): `$$` stands for `$`, `$&` for the matched text, the
dollar followed by a backtick for the text before the match, the dollar followed by an
apostrophe for the text after it, every other character for itself. -/
def getSubstitution (matched before after : List Char) : List Char → List Char
  | [] => []
  | [c] => [c]
  | c :: d :: rest =>
    if c = dollar then
      if d = dollar then dollar :: getSubstitution matched before after rest
      else if d = Char.ofNat 38 then matched ++ getSubstitution matched before after rest
      else if d = Char.ofNat 96 then before ++ getSubstitution matched before after rest
      else if d = Char.ofNat 39 then after ++ getSubstitution matched before after rest
      else c :: getSubstitution matched before after (d :: rest)
    else c :: getSubstitution matched before after (d :: rest)

/-- The scan of `text.replace(/pat/g, rep)` for a pattern `pat` of literal characters, not
empty: `before` is the text already scanned and `skip` the number of characters of the
current match still to pass. -/
def replaceAllFrom (pat rep : List Char) : List Char → Nat → List Char → List Char
  | _, _, [] => []
  | before, skip + 1, c :: cs => replaceAllFrom pat rep (before ++ [c]) skip cs
  | before, 0, c :: cs =>
    if pat.isPrefixOf (c :: cs) then
      getSubstitution pat before ((c :: cs).drop pat.length) rep ++
        replaceAllFrom pat rep (before ++ [c]) (pat.length - 1) cs
    else c :: replaceAllFrom pat rep (before ++ [c]) 0 cs

/-- The expression `text.replace(/pat/g, rep)`. -/
def jsReplaceAll (text pat rep : String) : String :=
  ⟨replaceAllFrom pat.data rep.data [] 0 text.data⟩

/-- The object `data` handed to `processTemplate`; a field is `none` when it is missing. -/
structure LeadData where
  firstName : Option String
  lastName : Option String
  email : Option String
  phone : Option String
  agentName : Option String
  dealershipName : Option String
  dealershipPhone : Option String
  dealershipAddress : Option String
  appointmentDate : Option String
  appointmentTime : Option String
  vehicle : Option String
deriving DecidableEq, Repr

/-- The expression `value || ''` for a value that is a string or missing. -/
def orEmpty : Option String → String
  | some v => v
  | none => ""

/-- `processTemplate(templateText, data)`. -/
def processTemplate (templateText : String) (data : LeadData) : String :=
  jsReplaceAll (jsReplaceAll (jsReplaceAll (jsReplaceAll (jsReplaceAll (jsReplaceAll
    (jsReplaceAll (jsReplaceAll (jsReplaceAll (jsReplaceAll (jsReplaceAll templateText
      "\x7bfirst_name\x7d" (orEmpty data.firstName))
      "\x7blast_name\x7d" (orEmpty data.lastName))
      "\x7bemail\x7d" (orEmpty data.email))
      "\x7bphone\x7d" (orEmpty data.phone))
      "\x7bagent_name\x7d" (orEmpty data.agentName))
      "\x7bdealership_name\x7d" (orEmpty data.dealershipName))
      "\x7bdealership_phone\x7d" (orEmpty data.dealershipPhone))
      "\x7bdealership_address\x7d" (orEmpty data.dealershipAddress))
      "\x7bappointment_date\x7d" (orEmpty data.appointmentDate))
      "\x7bappointment_time\x7d" (orEmpty data.appointmentTime))
      "\x7bvehicle\x7d" (orEmpty data.vehicle)

/-- The eleven placeholders listed by the `show-placeholders` handler. -/
inductive Placeholder where
  | first_name | last_name | email | phone | agent_name | dealership_name
  | dealership_phone | dealership_address | appointment_date | appointment_time | vehicle
deriving DecidableEq, Repr

/-- The name of a placeholder, as written between the braces. -/
def Placeholder.name : Placeholder → String
  | .first_name => "first_name"
  | .last_name => "last_name"
  | .email => "email"
  | .phone => "phone"
  | .agent_name => "agent_name"
  | .dealership_name => "dealership_name"
  | .dealership_phone => "dealership_phone"
  | .dealership_address => "dealership_address"
  | .appointment_date => "appointment_date"
  | .appointment_time => "appointment_time"
  | .vehicle => "vehicle"

/-- The token of a placeholder: its name between braces. -/
def Placeholder.token (p : Placeholder) : String :=
  ⟨lbrace :: (p.name.data ++ [rbrace])⟩

/-- The field of `data` that `processTemplate` substitutes for a placeholder. -/
def LeadData.field (d : LeadData) : Placeholder → Option String
  | .first_name => d.firstName
  | .last_name => d.lastName
  | .email => d.email
  | .phone => d.phone
  | .agent_name => d.agentName
  | .dealership_name => d.dealershipName
  | .dealership_phone => d.dealershipPhone
  | .dealership_address => d.dealershipAddress
  | .appointment_date => d.appointmentDate
  | .appointment_time => d.appointmentTime
  | .vehicle => d.vehicle

/-- A piece of a template: literal text or a placeholder token. -/
inductive Segment where
  | text (s : String)
  | placeholder (p : Placeholder)
deriving DecidableEq, Repr

/-- The text of a template given by its pieces. -/
def templateOf : List Segment → String
  | [] => ""
  | .text s :: rest => s ++ templateOf rest
  | .placeholder p :: rest => p.token ++ templateOf rest

/-- The text the template stands for: every literal text as it is, every token replaced by
the value of its field in `data`, and by the empty string when the field is missing. This
is the expected result, written without the helpers of `processTemplate`. -/
def filled (data : LeadData) : List Segment → String
  | [] => ""
  | .text s :: rest => s ++ filled data rest
  | .placeholder p :: rest => (data.field p).getD "" ++ filled data rest

/-- One placeholder of a template replaced by a text. -/
def substSegment (p : Placeholder) (v : String) : Segment → Segment
  | .text s => .text s
  | .placeholder q => if q = p then .text v else .placeholder q

/-- A lead with all fields but the phone and the appointment. -/
def exampleLead : LeadData where
  firstName := some "Ann"
  lastName := some "Lee"
  email := some "ann@example.org"
  phone := none
  agentName := some "Bo"
  dealershipName := some "Cars"
  dealershipPhone := some "555"
  dealershipAddress := some "1 Main St"
  appointmentDate := none
  appointmentTime := some ""
  vehicle := some "Civic"

end Scripts

/-! ## Pipeline form validation (`app/static/js/create_edit_pipeline.js`) -/

namespace CreateEditPipeline

/-- A text input: its `value` and whether its `classList` contains `is-invalid`. -/
structure TextInput where
  value : String
  isInvalid : Bool
deriving DecidableEq, Repr

/-- A visible stage card (`.stage-card:not(.d-none):not(#stageTemplate)`): its
`input[name^="stage_name_"]` and the `checked` state of its
`input[value="won"][name^="stage_type_"]`, `none` when the card has no such radio. -/
structure StageCard where
  stageName : TextInput
  wonRadio : Option Bool
deriving DecidableEq, Repr

/-- The form: the `#pipeline_name` input, the visible stage cards in document order, and
the messages shown by `alert` so far. -/
structure PipelineForm where
  pipelineName : TextInput
  stages : List StageCard
  alerts : List String
deriving DecidableEq, Repr

/-- The characters removed by `String.prototype.trim`: white space and line
terminators. -/
def isWhiteSpace (c : Char) : Bool :=
  let n := c.toNat
  n = 9 || n = 10 || n = 11 || n = 12 || n = 13 || n = 32 || n = 160 || n = 5760 ||
  (8192 ≤ n && n ≤ 8202) || n = 8232 || n = 8233 || n = 8239 || n = 8287 || n = 12288 ||
  n = 65279

/-- `String.prototype.trim`. -/
def trim (s : String) : String :=
  ⟨((s.data.dropWhile isWhiteSpace).reverse.dropWhile isWhiteSpace).reverse⟩

/-- The check of a name input: `is-invalid` is added when the trimmed value is empty and
removed otherwise. -/
def checkInput (i : TextInput) : TextInput :=
  if trim i.value = "" then { i with isInvalid := true } else { i with isInvalid := false }

/-- The loop `stages.forEach` of `validatePipelineForm`, with `isValid` threaded through. -/
def validateStages : List StageCard → Bool → List StageCard × Bool
  | [], isValid => ([], isValid)
  | stage :: rest, isValid =>
    let r := validateStages rest (if trim stage.stageName.value = "" then false else isValid)
    ({ stage with stageName := checkInput stage.stageName } :: r.1, r.2)

/-- The callback of `some`: `wonRadio && wonRadio.checked`. -/
def wonChecked (stage : StageCard) : Bool :=
  match stage.wonRadio with
  | some checked => checked
  | none => false

/-- `validatePipelineForm()`; returns the form after the call and the value returned. -/
def validatePipelineForm (f : PipelineForm) : PipelineForm × Bool :=
  let isValid0 := if trim f.pipelineName.value = "" then false else true
  let r := validateStages f.stages isValid0
  let f1 : PipelineForm :=
    { f with pipelineName := checkInput f.pipelineName, stages := r.1 }
  let isValid1 := r.2
  let f2 : PipelineForm :=
    if f.stages.length = 0 then
      { f1 with alerts := f1.alerts ++ ["You must add at least one stage to the pipeline."] }
    else f1
  let isValid2 := if f.stages.length = 0 then false else isValid1
  let hasWonStage := f.stages.any wonChecked
  if hasWonStage then (f2, isValid2)
  else
    ({ f2 with alerts := f2.alerts ++
        ["You must designate at least one stage as a \"Won\" stage."] }, false)

/-- A form with two named stages, the second one marked as won. -/
def exampleForm : PipelineForm where
  pipelineName := ⟨" Sales ", true⟩
  stages := [⟨⟨"Lead", false⟩, some false⟩, ⟨⟨"Closed", true⟩, some true⟩]
  alerts := []

end CreateEditPipeline

/-! ## Stage cards of the pipeline editor (`app/static/js/create_edit_pipeline.js`) -/

namespace CreateEditPipeline

/-- An `input`, `select` or `textarea` element of a stage card. -/
structure Control where
  /-- the tag name: `input`, `select` or `textarea` -/
  tag : String
  name : String
  id : String
  value : String
deriving DecidableEq, Repr

/-- A `.stage-card` element: its `id`, whether its `classList` contains `d-none`, the text
of its `.stage-number` (`none` when it has none), its form controls and the `htmlFor` of its
labels, in document order. -/
structure StageElement where
  id : String
  dNone : Bool
  stageNumber : Option String
  controls : List Control
  labels : List String
deriving DecidableEq, Repr

/-- The stage cards of the document, in document order, and the messages shown by `alert`
so far. -/
structure Document where
  stageCards : List StageElement
  alerts : List String
deriving DecidableEq, Repr

/-- The character `\`. -/
def backslash : Char := Char.ofNat 92

/-- Whether the regular expression `_(\\d+)$` matches at the start of the characters: an
underscore, a backslash and one or more letters `d`, up to the end of the string. -/
def matchesTail : List Char → Bool
  | u :: bs :: d :: ds => u = '_' && bs = backslash && (d :: ds).all (fun c => c = 'd')
  | _ => false

/-- The scan of `text.replace(/_(\\d+)$/, '_' + index)`: the first match is replaced. -/
def renumberChars (index : List Char) : List Char → List Char
  | [] => []
  | c :: cs =>
    if matchesTail (c :: cs) then '_' :: index else c :: renumberChars index cs

/-- The expression `text.replace(/_(\\d+)$/, '_' + index)`. -/
def renumber (text : String) (index : Nat) : String :=
  ⟨renumberChars (toString index).data text.data⟩

/-- The assignment `indexInput.value = index` for the first `input` whose name starts with
`stage_index_`. -/
def setIndexInput (index : Nat) : List Control → List Control
  | [] => []
  | c :: rest =>
    if c.tag = "input" ∧ "stage_index_".data.isPrefixOf c.name.data = true then
      { c with value := toString index } :: rest
    else c :: setIndexInput index rest

/-- `updateStageIds(stageElement, index)`. -/
def updateStageIds (stageElement : StageElement) (index : Nat) : StageElement :=
  let inputs := stageElement.controls.map (fun input =>
    { input with
      name := if input.name = "" then input.name else renumber input.name index
      id := if input.id = "" then input.id else renumber input.id index })
  let labels := stageElement.labels.map (fun htmlFor =>
    if htmlFor = "" then htmlFor else renumber htmlFor index)
  { stageElement with controls := setIndexInput index inputs, labels := labels }

/-- Whether a stage card matches `.stage-card:not(.d-none):not(#stageTemplate)`. -/
def isStage (stage : StageElement) : Bool :=
  !stage.dNone && stage.id != "stageTemplate"

/-- The loop `stages.forEach((stage, index) => ...)` over the cards that match the selector,
`index` being the position among them. -/
def forEachStage (f : StageElement → Nat → StageElement) :
    List StageElement → Nat → List StageElement
  | [], _ => []
  | stage :: rest, index =>
    if isStage stage then f stage index :: forEachStage f rest (index + 1)
    else stage :: forEachStage f rest index

/-- `updateStageNumbers()`. -/
def updateStageNumbers (cards : List StageElement) : List StageElement :=
  forEachStage (fun stage index =>
    match stage.stageNumber with
    | none => stage
    | some _ => { stage with stageNumber := some ("Stage " ++ toString (index + 1)) }) cards 0

/-- `updateAllStageIds()`. -/
def updateAllStageIds (cards : List StageElement) : List StageElement :=
  forEachStage updateStageIds cards 0

/-- `removeStage(stageCard)`, for the stage card at position `stageCard` of the document and
the answer the user gives to `confirm`. -/
def removeStage (doc : Document) (stageCard : Nat) (confirmed : Bool) : Document :=
  let stageCount := (doc.stageCards.filter isStage).length
  if stageCount ≤ 1 then
    { doc with alerts := doc.alerts ++ ["You must have at least one stage in the pipeline."] }
  else if confirmed then
    { doc with
      stageCards := updateAllStageIds (updateStageNumbers (doc.stageCards.eraseIdx stageCard)) }
  else doc

/-- The classes and ids of the stage cards: which cards the document holds. -/
def cardShape (cards : List StageElement) : List (String × Bool) :=
  cards.map (fun stage => (stage.id, stage.dNone))

/-- A stage card with a name input, its label and the hidden index input. -/
def exampleStage (k : String) : StageElement where
  id := ""
  dNone := false
  stageNumber := some ("Stage " ++ k)
  controls := [⟨"input", "stage_name_" ++ k, "stage_name_" ++ k, "Lead"⟩,
    ⟨"select", "stage_type_" ++ k, "stage_type_" ++ k, "normal"⟩,
    ⟨"input", "stage_index_" ++ k, "stage_index_" ++ k, k⟩]
  labels := ["stage_name_" ++ k, "stage_type_" ++ k]

/-- A document with the hidden template and two stages. -/
def exampleDocument : Document where
  stageCards := [{ exampleStage "0" with id := "stageTemplate", dNone := true },
    exampleStage "0", exampleStage "1"]
  alerts := []

end CreateEditPipeline

/-! ## Stage cards of the pipeline form (`app/static/js/pipeline_form.js`) -/

namespace PipelineFormScript

/-- A checkbox `stage_is_won[]` or `stage_is_lost[]`. -/
structure Checkbox where
  checked : Bool
  value : String
deriving DecidableEq, Repr

/-- A `.stage-card` element: whether its `classList` contains `d-none`, the text of its
`.card-header h6` and its won and lost checkboxes, each `none` when the card has none. -/
structure StageCard where
  dNone : Bool
  title : Option String
  wonCheckbox : Option Checkbox
  lostCheckbox : Option Checkbox
deriving DecidableEq, Repr

/-- The stage cards of the document, in document order, and the messages shown by `alert`
so far. -/
structure Document where
  stageCards : List StageCard
  alerts : List String
deriving DecidableEq, Repr

/-- Whether a stage card matches `.stage-card:not(.d-none)`. -/
def isStage (stage : StageCard) : Bool :=
  !stage.dNone

/-- The loop `stages.forEach((stage, index) => ...)` of `updateStageIndices` over the cards
that match the selector, `index` being the position among them. -/
def updateStageIndicesFrom : List StageCard → Nat → List StageCard
  | [], _ => []
  | stage :: rest, index =>
    if isStage stage then
      { stage with
        title := stage.title.map (fun _ => "Stage " ++ toString (index + 1))
        wonCheckbox := stage.wonCheckbox.map (fun cb => { cb with value := toString index })
        lostCheckbox := stage.lostCheckbox.map (fun cb => { cb with value := toString index }) }
        :: updateStageIndicesFrom rest (index + 1)
    else stage :: updateStageIndicesFrom rest index

/-- `updateStageIndices()`. -/
def updateStageIndices (cards : List StageCard) : List StageCard :=
  updateStageIndicesFrom cards 0

/-- `removeStage(stageCard)`, for the stage card at position `stageCard` of the document and
the answer the user gives to `confirm`. -/
def removeStage (doc : Document) (stageCard : Nat) (confirmed : Bool) : Document :=
  let stageCount := (doc.stageCards.filter isStage).length
  if stageCount ≤ 1 then
    { doc with alerts := doc.alerts ++ ["You must have at least one stage in the pipeline."] }
  else if confirmed then
    { doc with stageCards := updateStageIndices (doc.stageCards.eraseIdx stageCard) }
  else doc

/-- The assignment `cb.checked = false`, for a card that has the checkbox. -/
def uncheck (cb : Option Checkbox) : Option Checkbox :=
  cb.map (fun c => { c with checked := false })

/-- The loop over the checked won checkboxes, `i` being the position of the changed one and
`j` the position of the first card of the list: every other one is unchecked. -/
def uncheckOtherWon (i : Nat) : List StageCard → Nat → List StageCard
  | [], _ => []
  | stage :: rest, j =>
    (if j = i then stage else { stage with wonCheckbox := uncheck stage.wonCheckbox })
      :: uncheckOtherWon i rest (j + 1)

/-- The loop over the checked lost checkboxes: every one but that of card `i` is
unchecked. -/
def uncheckOtherLost (i : Nat) : List StageCard → Nat → List StageCard
  | [], _ => []
  | stage :: rest, j =>
    (if j = i then stage else { stage with lostCheckbox := uncheck stage.lostCheckbox })
      :: uncheckOtherLost i rest (j + 1)

/-- `handleWonStageChange(checkbox)`, for the won checkbox of the card at position `i`. -/
def handleWonStageChange (doc : Document) (i : Nat) : Document :=
  match (doc.stageCards[i]?).bind StageCard.wonCheckbox with
  | none => doc
  | some checkbox =>
    if checkbox.checked then
      { doc with
        stageCards := (uncheckOtherWon i doc.stageCards 0).modify
          (fun stage => { stage with lostCheckbox := uncheck stage.lostCheckbox }) i }
    else doc

/-- `handleLostStageChange(checkbox)`, for the lost checkbox of the card at position `i`. -/
def handleLostStageChange (doc : Document) (i : Nat) : Document :=
  match (doc.stageCards[i]?).bind StageCard.lostCheckbox with
  | none => doc
  | some checkbox =>
    if checkbox.checked then
      { doc with
        stageCards := (uncheckOtherLost i doc.stageCards 0).modify
          (fun stage => { stage with wonCheckbox := uncheck stage.wonCheckbox }) i }
    else doc

/-- The user toggles the won checkbox of the card at position `i`: the browser flips
`checked` and the `change` listener calls `handleWonStageChange`. -/
def toggleWon (doc : Document) (i : Nat) : Document :=
  handleWonStageChange
    { doc with stageCards := doc.stageCards.modify (fun stage =>
        { stage with wonCheckbox :=
            stage.wonCheckbox.map (fun c => { c with checked := !c.checked }) }) i } i

/-- The user toggles the lost checkbox of the card at position `i`. -/
def toggleLost (doc : Document) (i : Nat) : Document :=
  handleLostStageChange
    { doc with stageCards := doc.stageCards.modify (fun stage =>
        { stage with lostCheckbox :=
            stage.lostCheckbox.map (fun c => { c with checked := !c.checked }) }) i } i

/-- Whether the won checkbox of a card is checked. -/
def isWon (stage : StageCard) : Bool :=
  match stage.wonCheckbox with
  | some c => c.checked
  | none => false

/-- Whether the lost checkbox of a card is checked. -/
def isLost (stage : StageCard) : Bool :=
  match stage.lostCheckbox with
  | some c => c.checked
  | none => false

/-- At most one won and at most one lost checkbox are checked and no card has both
checked. -/
def Exclusive (cards : List StageCard) : Prop :=
  cards.countP isWon ≤ 1 ∧ cards.countP isLost ≤ 1 ∧
    ∀ stage ∈ cards, ¬ (isWon stage = true ∧ isLost stage = true)

instance (cards : List StageCard) : Decidable (Exclusive cards) := by
  unfold Exclusive; infer_instance

/-- The classes of the stage cards: which cards the document holds. -/
def cardShape (cards : List StageCard) : List Bool :=
  cards.map StageCard.dNone

/-- Three stage cards, the second marked as won and the third as lost. -/
def exampleDocument : Document where
  stageCards := [⟨false, some "Stage 1", some ⟨false, "0"⟩, some ⟨false, "0"⟩⟩,
    ⟨false, some "Stage 2", some ⟨true, "1"⟩, some ⟨false, "1"⟩⟩,
    ⟨false, some "Stage 3", some ⟨false, "2"⟩, some ⟨true, "2"⟩⟩]
  alerts := []

end PipelineFormScript

/-! ## Colours of the stage charts (`app/static/js/stage_transitions.js`)

A JavaScript number that is an integer is modelled by an `Int`. A number holds 53 binary
digits: sums and differences are exact as long as their magnitude stays below `2 ^ 53`, and
beyond that the loop of `stringToColor` takes the exact result rounded to the nearest
number (`roundNumber`). -/

namespace StageTransitions

/-- The conversion `ToInt32` applied by the bitwise operators to an integer. -/
def toInt32 (x : Int) : Int :=
  (x + 2147483648) % 4294967296 - 2147483648

/-- The expression `x << k`, for `k < 32`. -/
def shiftLeft (x : Int) (k : Nat) : Int :=
  toInt32 (toInt32 x * 2 ^ k)

/-- The expression `x >> k`, for `k < 32`. -/
def shiftRight (x : Int) (k : Nat) : Int :=
  toInt32 x / 2 ^ k

/-- The expression `x & 0xFF`. -/
def and255 (x : Int) : Int :=
  toInt32 x % 256

/-- The UTF-16 code units of a string: what `charCodeAt` reads. -/
def codeUnits (s : String) : List Nat :=
  s.data.flatMap (fun c =>
    if c.toNat < 65536 then [c.toNat]
    else [55296 + (c.toNat - 65536) / 1024, 56320 + (c.toNat - 65536) % 1024])

/-- The distance between neighbouring numbers at a magnitude `m` of at least `2 ^ 53`: a
number holds 53 binary digits, so the distance is 2 to the number of binary digits of `m`
beyond 53. -/
def ulp (m : Nat) : Nat :=
  2 ^ ((Nat.toDigits 2 m).length - 53)

/-- The value of `a + b` or `a - b` whose exact result is the integer `x`: the number nearest
to `x`, a tie going to the number with the even significand (IEEE 754 binary64, round to
nearest, ties to even). An integer of magnitude below `2 ^ 53` is a number itself. The
overflow to `Infinity` starts at `2 ^ 1024`, far above any value the loop of
`stringToColor` reaches, which grows by less than `2 ^ 32` for each code unit. -/
def roundNumber (x : Int) : Int :=
  if x.natAbs < 2 ^ 53 then x
  else if ulp x.natAbs < 2 * (x.natAbs % ulp x.natAbs) ∨
      (ulp x.natAbs = 2 * (x.natAbs % ulp x.natAbs) ∧ x.natAbs / ulp x.natAbs % 2 = 1) then
    x.sign * ((x.natAbs / ulp x.natAbs + 1) * ulp x.natAbs : Nat)
  else x.sign * ((x.natAbs / ulp x.natAbs) * ulp x.natAbs : Nat)

/-- The first loop of `stringToColor` over the code units that are left, from the value
`hash` has reached: `hash = str.charCodeAt(i) + ((hash << 5) - hash)`, the subtraction and
the addition each giving the rounded result. -/
def hashLoop : List Nat → Int → Int
  | [], hash => hash
  | c :: rest, hash =>
    hashLoop rest (roundNumber ((c : Int) + roundNumber (shiftLeft hash 5 - hash)))

/-- The expression `value.toString(16)` for an integer that is not negative. -/
def toString16 (value : Int) : List Char :=
  Nat.toDigits 16 value.toNat

/-- The expression `text.substr(-2)`. -/
def substrLast2 (text : List Char) : List Char :=
  text.drop (text.length - 2)

/-- One round of the second loop of `stringToColor`: the two characters added for `i`. -/
def colorComponent (hash : Int) (i : Nat) : List Char :=
  substrLast2 ("00".data ++ toString16 (and255 (shiftRight hash (i * 8))))

/-- `stringToColor(str)`. -/
def stringToColor (str : String) : String :=
  ⟨'#' :: (colorComponent (hashLoop (codeUnits str) 0) 0 ++
    (colorComponent (hashLoop (codeUnits str) 0) 1 ++
      colorComponent (hashLoop (codeUnits str) 0) 2))⟩

/-- The polynomial hash of the claim: from 0, `H := 31 * H + charCode` for each code unit
in order. -/
def polyHash (units : List Nat) : Nat :=
  units.foldl (fun H c => 31 * H + c) 0

/-- The two lowercase hexadecimal digits of a byte. -/
def hex2 (v : Nat) : List Char :=
  [Nat.digitChar (v / 16), Nat.digitChar (v % 16)]

/-- The text "Nqaeg" followed by `n` NUL characters and the letter a. -/
def paddedName (n : Nat) : String :=
  ⟨"Nqaeg".data ++ (List.replicate n (Char.ofNat 0) ++ ['a'])⟩

/-- The value of a hexadecimal digit, `none` for any other character. -/
def hexDigitValue (c : Char) : Option Nat :=
  if 48 ≤ c.toNat ∧ c.toNat ≤ 57 then some (c.toNat - 48)
  else if 97 ≤ c.toNat ∧ c.toNat ≤ 102 then some (c.toNat - 87)
  else if 65 ≤ c.toNat ∧ c.toNat ≤ 70 then some (c.toNat - 55)
  else none

/-- The digits read by `parseInt(text, 16)`, after white space, sign and `0x` have been
passed: the value of the longest run of hexadecimal digits, `none` (for `NaN`) when there
is none. -/
def parseDigits (digits : List Char) : Option Nat :=
  match digits.takeWhile (fun c => (hexDigitValue c).isSome) with
  | [] => none
  | run => some (run.foldl (fun acc c => 16 * acc + (hexDigitValue c).getD 0) 0)

/-- The optional `0x` or `0X` of `parseInt(text, 16)`. -/
def stripPrefix0x : List Char → List Char
  | a :: b :: rest => if a = '0' ∧ (b = 'x' ∨ b = 'X') then rest else a :: b :: rest
  | text => text

/-- `parseInt(text, 16)`, `none` for `NaN`. -/
def parseInt16 (text : List Char) : Option Int :=
  match text.dropWhile CreateEditPipeline.isWhiteSpace with
  | [] => none
  | c :: rest =>
    if c = '-' then (parseDigits (stripPrefix0x rest)).map (fun n => - (n : Int))
    else if c = '+' then (parseDigits (stripPrefix0x rest)).map (fun n => (n : Int))
    else (parseDigits (stripPrefix0x (c :: rest))).map (fun n => (n : Int))

/-- The expression `Math.max(0, Math.min(255, channel + percent))`, `none` for `NaN`. -/
def clampChannel (channel : Option Int) (percent : Int) : Option Int :=
  channel.map (fun v => max 0 (min 255 (v + percent)))

/-- The expression `hex.substring(from, to)` for `from ≤ to`. -/
def substring (hex : List Char) (start stop : Nat) : List Char :=
  (hex.take stop).drop start

/-- `adjustColorBrightness(hex, percent)`, for an integer `percent`. A channel that is
`NaN` counts as 0 under `<<`, and makes the sum `NaN` when it is the blue one. -/
def adjustColorBrightness (hex : String) (percent : Int) : String :=
  let r := clampChannel (parseInt16 (substring hex.data 1 3)) percent
  let g := clampChannel (parseInt16 (substring hex.data 3 5)) percent
  let b := clampChannel (parseInt16 (substring hex.data 5 7)) percent
  let digits : List Char :=
    match b with
    | none => "NaN".data
    | some blue =>
      toString16 (shiftLeft 1 24 + shiftLeft (r.getD 0) 16 + shiftLeft (g.getD 0) 8 + blue)
  ⟨'#' :: digits.drop 1⟩

/-- The clamped channel of the claim, `min(255, max(0, c + d))`. -/
def clamped (c : Nat) (d : Int) : Nat :=
  (min 255 (max 0 ((c : Int) + d))).toNat

end StageTransitions

namespace Pipeline

/-! ## Basic facts about the helpers -/

theorem removeFirst_append (pat l : List Char) : removeFirst pat (pat ++ l) = l := by
  cases h : pat ++ l with
  | nil =>
    have hl : l = [] := (List.append_eq_nil.1 h).2
    simp [removeFirst, hl]
  | cons c cs =>
    have hp : pat.isPrefixOf (c :: cs) = true := by
      rw [← h]; simp
    rw [removeFirst, if_pos hp, ← h]; simp

theorem stageIdOf_stage (t : String) : stageIdOf ("stage-" ++ t) = t := by
  unfold stageIdOf
  rw [String.data_append, removeFirst_append]

theorem parentNode_some {cs : List Container} {x a : Nat} (h : parentNode cs x = some a) :
    ∃ c, cs[a]? = some c ∧ ∃ k ∈ c.cards, k.key = x := by
  induction cs generalizing a with
  | nil => simp [parentNode] at h
  | cons c cs ih =>
    unfold parentNode at h
    split at h
    · rename_i hc
      obtain rfl : 0 = a := by simpa using h
      refine ⟨c, by simp, ?_⟩
      simpa using hc
    · cases hp : parentNode cs x with
      | none => simp [hp] at h
      | some i =>
        simp [hp] at h
        subst h
        obtain ⟨c1, h1, h2⟩ := ih hp
        exact ⟨c1, by simpa using h1, h2⟩

theorem mem_allCards {cs : List Container} {k : Card} :
    k ∈ allCards cs ↔ ∃ c ∈ cs, k ∈ c.cards := by
  simp [allCards]

theorem findCard_of_parentNode {cs : List Container} {x a : Nat}
    (h : parentNode cs x = some a) : ∃ card, findCard cs x = some card ∧ card.key = x := by
  obtain ⟨c, hc, k, hk, hkx⟩ := parentNode_some h
  cases hf : findCard cs x with
  | none =>
    unfold findCard at hf
    rw [List.find?_eq_none] at hf
    have := hf k (mem_allCards.2 ⟨c, List.getElem?_mem hc, hk⟩)
    simp [hkx] at this
  | some card =>
    refine ⟨card, rfl, ?_⟩
    have := List.find?_some hf
    simpa using this

/-! ## Revert after a failure -/

/-- C1: on the example board, card 2 (deal "42") is dragged from `stage-10` (position 0) and
dropped on `stage-20` (position 1); `handleDragEnd` runs, then the response
`success: false, message: "not allowed"` is handled. The error toast is shown, but the
card is still a child of `stage-20` and not of `stage-10`: the session was cleared before
the handler read it. -/
theorem revert_on_rejection_lost_after_dragEnd :
    parentNode (run exampleBoard
      [.dragStart 2, .drop 1, .dragEnd 2,
       .settle 0 (.response 200 (.json false (some "not allowed")))]).containers 2
      = some 1 ∧
    containment (run exampleBoard
      [.dragStart 2, .drop 1, .dragEnd 2,
       .settle 0 (.response 200 (.json false (some "not allowed")))]).containers
      = [[1, 3], [4, 2]] ∧
    (run exampleBoard
      [.dragStart 2, .drop 1, .dragEnd 2,
       .settle 0 (.response 200 (.json false (some "not allowed")))]).toasts[1]?
      = some ⟨"toast toast-error", "Error: not allowed", true, true⟩ := by
  decide

/-- C2: on the example board, card 2 is dragged from position 0 and dropped on position 1;
`handleDragEnd` runs, then the request is rejected with the message "Failed to fetch". The
error toast is shown, but the card is still a child of the target container. -/
theorem revert_on_network_failure_lost_after_dragEnd :
    parentNode (run exampleBoard
      [.dragStart 2, .drop 1, .dragEnd 2,
       .settle 0 (.rejected "Failed to fetch")]).containers 2 = some 1 ∧
    containment (run exampleBoard
      [.dragStart 2, .drop 1, .dragEnd 2,
       .settle 0 (.rejected "Failed to fetch")]).containers = [[1, 3], [4, 2]] ∧
    (run exampleBoard
      [.dragStart 2, .drop 1, .dragEnd 2,
       .settle 0 (.rejected "Failed to fetch")]).toasts[1]?
      = some ⟨"toast toast-error", "Error: Failed to fetch", true, true⟩ := by
  decide

/-! ## The cases of `handleDrop` -/

theorem handleDrop_no_session {s : State} {b : Nat} (h : s.draggedDeal = none) :
    handleDrop s b = removeDragOver s b := by
  unfold handleDrop
  cases hb : s.containers[b]? with
  | none =>
    have hlen : s.containers.length ≤ b := by
      simpa [List.getElem?_eq_none_iff] using hb
    simp [removeDragOver, List.modify_eq_self hlen]
  | some target =>
    have h1 : (removeDragOver s b).draggedDeal = none := h
    simp [h1]

theorem handleDrop_self {s : State} {b : Nat} (h : s.originalStage = some b) :
    handleDrop s b = removeDragOver s b := by
  cases hd : s.draggedDeal with
  | none => exact handleDrop_no_session hd
  | some x =>
    unfold handleDrop
    cases hb : s.containers[b]? with
    | none =>
      have hlen : s.containers.length ≤ b := by
        simpa [List.getElem?_eq_none_iff] using hb
      simp [removeDragOver, List.modify_eq_self hlen]
    | some target =>
      have h1 : (removeDragOver s b).draggedDeal = some x := hd
      have h2 : (removeDragOver s b).originalStage = some b := h
      simp [h1, h2]

theorem handleDrop_move {s : State} {b x : Nat} {target : Container}
    (hb : s.containers[b]? = some target) (hd : s.draggedDeal = some x)
    (ho : s.originalStage ≠ some b) :
    handleDrop s b =
      updateDealStage
        { removeDragOver s b with
          containers := appendChild (removeDragOver s b).containers b x }
        s.dataTransfer.data (stageIdOf target.id) := by
  unfold handleDrop
  have h1 : (removeDragOver s b).draggedDeal = some x := hd
  have h2 : ¬ (removeDragOver s b).originalStage = some b := ho
  simp only [hb, h1, h2, if_false]
  rfl

/-! ## Requests -/

theorem handleDragStart_of_findCard {s : State} {x : Nat} {card : Card}
    (h : findCard s.containers x = some card) :
    handleDragStart s x =
      { s with
        draggedDeal := some x
        originalStage := parentNode s.containers x
        timers := s.timers ++ [⟨0, .addDragging x, false⟩]
        dataTransfer :=
          { s.dataTransfer with effectAllowed := "move", data := card.dealId } } := by
  simp [handleDragStart, h]

theorem handleDragStart_requests (s : State) (x : Nat) :
    (handleDragStart s x).requests = s.requests := by
  unfold handleDragStart; split <;> rfl

/-- C3: when card `x` of container `a` is dragged and dropped on another container `b`, that
`handleDrop` adds exactly one request to those issued before, with `deal_id` the
`data-deal-id` of `x` and `stage_id` the id of `b` with its first `stage-` removed, which
for an id of the form `stage-t` is `t`; the other drag handlers issue no request. -/
theorem exactly_one_request (s : State) (x a b : Nat) (card : Card) (target : Container)
    (hx : findCard s.containers x = some card)
    (ha : parentNode s.containers x = some a)
    (hb : s.containers[b]? = some target) (hab : a ≠ b) :
    (handleDragStart s x).requests = s.requests ∧
    (handleDrop (handleDragStart s x) b).requests =
      s.requests ++ [stageChangeRequest card.dealId (stageIdOf target.id) s.toasts.length] ∧
    (∀ t : String, target.id = "stage-" ++ t →
      (handleDrop (handleDragStart s x) b).requests =
        s.requests ++ [stageChangeRequest card.dealId t s.toasts.length]) ∧
    (∀ (u : State) (y : Nat), (handleDragStart u y).requests = u.requests) ∧
    (∀ (u : State) (c : Nat), (handleDragEnter u c).requests = u.requests) ∧
    (∀ (u : State) (c : Nat), (handleDragLeave u c).requests = u.requests) ∧
    (∀ (u : State) (c : Nat), (handleDragOver u c).requests = u.requests) ∧
    (∀ (u : State) (y : Nat), (handleDragEnd u y).requests = u.requests) := by
  have hdrop : (handleDrop (handleDragStart s x) b).requests =
      s.requests ++ [stageChangeRequest card.dealId (stageIdOf target.id) s.toasts.length] := by
    rw [handleDragStart_of_findCard hx]
    have hb1 : ({ s with
        draggedDeal := some x
        originalStage := parentNode s.containers x
        timers := s.timers ++ [⟨0, .addDragging x, false⟩]
        dataTransfer :=
          { s.dataTransfer with effectAllowed := "move", data := card.dealId } } :
          State).containers[b]? = some target := hb
    rw [handleDrop_move hb1 rfl (by simpa [ha] using hab)]
    simp [updateDealStage, showToast, stageChangeRequest, removeDragOver]
  refine ⟨handleDragStart_requests s x, hdrop, ?_, handleDragStart_requests,
    fun _ _ => rfl, fun _ _ => rfl, fun _ _ => rfl, fun _ _ => rfl⟩
  intro t ht
  rw [hdrop, ht, stageIdOf_stage]

/-- The gesture of C3 on the example board: card 2 (deal "42") goes from position 0 to
`stage-20`. -/
theorem exactly_one_request_witness :
    (handleDragStart exampleBoard 2).requests = exampleBoard.requests ∧
    (handleDrop (handleDragStart exampleBoard 2) 1).requests =
      exampleBoard.requests ++ [stageChangeRequest "42" (stageIdOf "stage-20") 0] ∧
    (∀ t : String, "stage-20" = "stage-" ++ t →
      (handleDrop (handleDragStart exampleBoard 2) 1).requests =
        exampleBoard.requests ++ [stageChangeRequest "42" t 0]) ∧
    (∀ (u : State) (y : Nat), (handleDragStart u y).requests = u.requests) ∧
    (∀ (u : State) (c : Nat), (handleDragEnter u c).requests = u.requests) ∧
    (∀ (u : State) (c : Nat), (handleDragLeave u c).requests = u.requests) ∧
    (∀ (u : State) (c : Nat), (handleDragOver u c).requests = u.requests) ∧
    (∀ (u : State) (y : Nat), (handleDragEnd u y).requests = u.requests) :=
  exactly_one_request exampleBoard 2 0 1 ⟨2, "42", false⟩
    ⟨"stage-20", false, [⟨4, "44", false⟩], some ⟨some "1"⟩⟩
    (by decide) (by decide) (by decide) (by decide)

/-! ## Drops that move nothing -/

/-- C4: when card `x` is dragged and dropped on its own parent container, no request is
issued, no toast is created and every container holds the same cards in the same order. -/
theorem self_drop_noop (s : State) (x a : Nat) (ha : parentNode s.containers x = some a) :
    (handleDrop (handleDragStart s x) a).requests = s.requests ∧
    (handleDrop (handleDragStart s x) a).toasts = s.toasts ∧
    (handleDrop (handleDragStart s x) a).containers.map Container.cards =
      s.containers.map Container.cards := by
  obtain ⟨card, hx, _⟩ := findCard_of_parentNode ha
  obtain ⟨c, hc, _⟩ := parentNode_some ha
  rw [handleDragStart_of_findCard hx, handleDrop_self ha]
  refine ⟨rfl, rfl, ?_⟩
  simp only [removeDragOver]
  apply List.ext_getElem?
  intro i
  simp only [List.getElem?_map, List.getElem?_modify]
  cases s.containers[i]? with
  | none => rfl
  | some k => by_cases hi : a = i <;> simp [hi]

/-- Card 2 of the example board is dropped on its own container. -/
theorem self_drop_noop_witness :
    (handleDrop (handleDragStart exampleBoard 2) 0).requests = exampleBoard.requests ∧
    (handleDrop (handleDragStart exampleBoard 2) 0).toasts = exampleBoard.toasts ∧
    (handleDrop (handleDragStart exampleBoard 2) 0).containers.map Container.cards =
      exampleBoard.containers.map Container.cards :=
  self_drop_noop exampleBoard 2 0 (by decide)

/-- C10: when `draggedDeal` is `null`, `handleDrop` on container `b` changes the state only
by removing `drag-over` from `b`: the requests, the cards of every container, the toasts
and the session are what they were, the session still without a dragged deal. -/
theorem drop_without_session (s : State) (b : Nat) (h : s.draggedDeal = none) :
    handleDrop s b =
      { s with
        containers := s.containers.modify (fun k => { k with dragOver := false }) b } ∧
    (handleDrop s b).requests = s.requests ∧
    (handleDrop s b).containers.map Container.cards = s.containers.map Container.cards ∧
    (handleDrop s b).toasts = s.toasts ∧
    (handleDrop s b).draggedDeal = none ∧
    (handleDrop s b).originalStage = s.originalStage := by
  have key : handleDrop s b =
      { s with
        containers := s.containers.modify (fun k => { k with dragOver := false }) b } :=
    handleDrop_no_session h
  refine ⟨key, ?_, ?_, ?_, ?_, ?_⟩
  · rw [key]
  · rw [key]
    apply List.ext_getElem?
    intro i
    simp only [List.getElem?_map, List.getElem?_modify]
    cases s.containers[i]? with
    | none => rfl
    | some k => by_cases hi : b = i <;> simp [hi]
  · rw [key]
  · rw [key]; exact h
  · rw [key]

/-- A drop on `stage-20` of the example board while nothing is dragged. -/
theorem drop_without_session_witness :
    handleDrop exampleBoard 1 =
      { exampleBoard with
        containers :=
          exampleBoard.containers.modify (fun k => { k with dragOver := false }) 1 } ∧
    (handleDrop exampleBoard 1).requests = exampleBoard.requests ∧
    (handleDrop exampleBoard 1).containers.map Container.cards =
      exampleBoard.containers.map Container.cards ∧
    (handleDrop exampleBoard 1).toasts = exampleBoard.toasts ∧
    (handleDrop exampleBoard 1).draggedDeal = none ∧
    (handleDrop exampleBoard 1).originalStage = exampleBoard.originalStage :=
  drop_without_session exampleBoard 1 rfl

/-! ## The session -/

theorem showToast_session (s : State) (m ty : String) :
    (showToast s m ty).1.draggedDeal = s.draggedDeal ∧
    (showToast s m ty).1.originalStage = s.originalStage := by
  unfold showToast; split <;> exact ⟨rfl, rfl⟩

theorem revert_session (s : State) :
    (revert s).draggedDeal = s.draggedDeal ∧ (revert s).originalStage = s.originalStage := by
  unfold revert; split <;> exact ⟨rfl, rfl⟩

theorem onError_session (s : State) (t : Nat) (m : String) :
    (onError s t m).draggedDeal = s.draggedDeal ∧
    (onError s t m).originalStage = s.originalStage := by
  unfold onError
  simp only [(revert_session _).1, (revert_session _).2, (showToast_session _ _ _).1,
    (showToast_session _ _ _).2]
  exact ⟨rfl, rfl⟩

theorem onData_session (s : State) (t : Nat) (ok : Bool) (m : Option String) :
    (onData s t ok m).draggedDeal = s.draggedDeal ∧
    (onData s t ok m).originalStage = s.originalStage := by
  unfold onData
  cases ok with
  | false =>
    simp only [Bool.false_eq_true, if_false, (revert_session _).1, (revert_session _).2,
      (showToast_session _ _ _).1, (showToast_session _ _ _).2]
    exact ⟨rfl, rfl⟩
  | true =>
    simp only [if_true]
    split
    · simp only [(onError_session _ _ _).1, (onError_session _ _ _).2, updateStageCounts,
        (showToast_session _ _ _).1, (showToast_session _ _ _).2]
      exact ⟨rfl, rfl⟩
    · simp only [updateStageCounts, (showToast_session _ _ _).1, (showToast_session _ _ _).2]
      exact ⟨rfl, rfl⟩

theorem settle_session (s : State) (i : Nat) (o : Settlement) :
    (settle s i o).draggedDeal = s.draggedDeal ∧
    (settle s i o).originalStage = s.originalStage := by
  unfold settle
  split
  · exact ⟨rfl, rfl⟩
  · split
    · exact ⟨rfl, rfl⟩
    · split
      · exact onError_session _ _ _
      · exact onError_session _ _ _
      · exact onData_session _ _ _ _

theorem fireTimer_session (s : State) (i : Nat) :
    (fireTimer s i).draggedDeal = s.draggedDeal ∧
    (fireTimer s i).originalStage = s.originalStage := by
  unfold fireTimer
  split
  · exact ⟨rfl, rfl⟩
  · split
    · exact ⟨rfl, rfl⟩
    · unfold runCallback
      split <;> exact ⟨rfl, rfl⟩

theorem run_async_session (after : List Event) (h : ∀ e ∈ after, e.isAsync = true)
    (s : State) :
    (run s after).draggedDeal = s.draggedDeal ∧
    (run s after).originalStage = s.originalStage := by
  induction after generalizing s with
  | nil => exact ⟨rfl, rfl⟩
  | cons e es ih =>
    have hes : ∀ e ∈ es, e.isAsync = true := fun e1 h1 => h e1 (List.mem_cons_of_mem _ h1)
    have he : e.isAsync = true := h e (List.mem_cons_self _ _)
    have hstep : (step s e).draggedDeal = s.draggedDeal ∧
        (step s e).originalStage = s.originalStage := by
      cases e with
      | settle i o => exact settle_session s i o
      | timer i => exact fireTimer_session s i
      | dragStart _ => simp [Event.isAsync] at he
      | dragEnd _ => simp [Event.isAsync] at he
      | dragOver _ => simp [Event.isAsync] at he
      | dragEnter _ => simp [Event.isAsync] at he
      | dragLeave _ => simp [Event.isAsync] at he
      | drop _ => simp [Event.isAsync] at he
    have := ih hes (step s e)
    simp only [run, List.foldl_cons] at this ⊢
    exact ⟨this.1.trans hstep.1, this.2.trans hstep.2⟩

/-- C7, as stated, fails: on the example board, after card 2 is dragged from position 0
and dropped on position 1, `handleDrop` has returned and the session still holds the card
and its origin. -/
theorem drop_keeps_session_example :
    (handleDrop (handleDragStart exampleBoard 2) 1).draggedDeal = some 2 ∧
    (handleDrop (handleDragStart exampleBoard 2) 1).originalStage = some 0 ∧
    ¬ ((handleDrop (handleDragStart exampleBoard 2) 1).draggedDeal = none ∧
       (handleDrop (handleDragStart exampleBoard 2) 1).originalStage = none) := by
  decide

theorem updateDealStage_session (s : State) (d t : String) :
    (updateDealStage s d t).draggedDeal = s.draggedDeal ∧
    (updateDealStage s d t).originalStage = s.originalStage := by
  unfold updateDealStage
  exact ⟨(showToast_session _ _ _).1, (showToast_session _ _ _).2⟩

/-- C7, amended: `handleDrop` leaves `draggedDeal` and `originalStage` as they were, and
after the `handleDragEnd` that follows the drop both are `null`. -/
theorem drop_then_dragEnd_clears_session (s : State) (b x : Nat) :
    (handleDrop s b).draggedDeal = s.draggedDeal ∧
    (handleDrop s b).originalStage = s.originalStage ∧
    (handleDragEnd (handleDrop s b) x).draggedDeal = none ∧
    (handleDragEnd (handleDrop s b) x).originalStage = none := by
  have key : (handleDrop s b).draggedDeal = s.draggedDeal ∧
      (handleDrop s b).originalStage = s.originalStage := by
    cases hd : s.draggedDeal with
    | none => rw [handleDrop_no_session hd]; exact ⟨hd, rfl⟩
    | some y =>
      by_cases ho : s.originalStage = some b
      · rw [handleDrop_self ho]; exact ⟨hd, rfl⟩
      · cases hb : s.containers[b]? with
        | none => simp [handleDrop, hb, hd]
        | some target =>
          rw [handleDrop_move hb hd ho]
          exact ⟨((updateDealStage_session _ _ _).1).trans hd,
            (updateDealStage_session _ _ _).2⟩
  exact ⟨key.1, key.2, rfl, rfl⟩

/-- C8: after any sequence of events that ends with `handleDragEnd`, also when response
handlers and timers run after it, the session is empty; and in every state
`handleDragStart` on a card `y` of container `p` sets the session to `y` and `p`. -/
theorem no_session_leak (s : State) (gesture after : List Event) (x : Nat)
    (hafter : ∀ e ∈ after, e.isAsync = true)
    (u : State) (y p : Nat) (hy : parentNode u.containers y = some p) :
    (run s (gesture ++ [.dragEnd x] ++ after)).draggedDeal = none ∧
    (run s (gesture ++ [.dragEnd x] ++ after)).originalStage = none ∧
    (handleDragStart u y).draggedDeal = some y ∧
    (handleDragStart u y).originalStage = some p := by
  have hrun : run s (gesture ++ [.dragEnd x] ++ after) =
      run (handleDragEnd (run s gesture) x) after := by
    simp [run, List.foldl_append, step]
  obtain ⟨card, hc, _⟩ := findCard_of_parentNode hy
  rw [hrun, (run_async_session after hafter _).1, (run_async_session after hafter _).2,
    handleDragStart_of_findCard hc]
  exact ⟨rfl, rfl, rfl, hy⟩

/-- A rejected cross-container drop of card 2 of the example board, the response arriving
after `handleDragEnd`, followed by a drag of card 4 in the resulting state. -/
theorem no_session_leak_witness :
    (run exampleBoard ([.dragStart 2, .drop 1] ++ [.dragEnd 2] ++
      [.settle 0 (.response 200 (.json false (some "not allowed")))])).draggedDeal = none ∧
    (run exampleBoard ([.dragStart 2, .drop 1] ++ [.dragEnd 2] ++
      [.settle 0 (.response 200 (.json false (some "not allowed")))])).originalStage = none ∧
    (handleDragStart exampleBoard 4).draggedDeal = some 4 ∧
    (handleDragStart exampleBoard 4).originalStage = some 1 :=
  no_session_leak exampleBoard [.dragStart 2, .drop 1]
    [.settle 0 (.response 200 (.json false (some "not allowed")))] 2 (by decide)
    exampleBoard 4 1 (by decide)

/-- C9: after `handleDragEnd` on card `x` the session is empty, no stage container carries
`drag-over`, card `x` does not carry `dragging`, and every container holds the cards it
held, in the same order. -/
theorem dragEnd_cleanup (s : State) (x : Nat) :
    (handleDragEnd s x).draggedDeal = none ∧
    (handleDragEnd s x).originalStage = none ∧
    (∀ c ∈ (handleDragEnd s x).containers, c.dragOver = false) ∧
    (∀ k ∈ allCards (handleDragEnd s x).containers, k.key = x → k.dragging = false) ∧
    containment (handleDragEnd s x).containers = containment s.containers := by
  refine ⟨rfl, rfl, ?_, ?_, ?_⟩
  · intro c hc
    simp only [handleDragEnd, List.mem_map] at hc
    obtain ⟨c0, _, rfl⟩ := hc
    rfl
  · intro k hk hkx
    rw [mem_allCards] at hk
    obtain ⟨c, hc, hkc⟩ := hk
    simp only [handleDragEnd, List.mem_map] at hc
    obtain ⟨c0, _, rfl⟩ := hc
    simp only [List.mem_map] at hkc
    obtain ⟨k0, _, rfl⟩ := hkc
    by_cases h0 : k0.key = x
    · simp [h0]
    · simp [h0] at hkx
  · simp only [containment, handleDragEnd, List.map_map]
    apply List.map_congr_left
    intro c _
    simp only [Function.comp, List.map_map]
    apply List.map_congr_left
    intro k _
    simp only [Function.comp]
    split <;> rfl

/-! ## Moving a card -/

theorem map_cards_modify_dragOver (cs : List Container) (b : Nat) (d : Bool) :
    (cs.modify (fun k => { k with dragOver := d }) b).map Container.cards =
      cs.map Container.cards := by
  apply List.ext_getElem?
  intro i
  simp only [List.getElem?_map, List.getElem?_modify]
  cases cs[i]? with
  | none => rfl
  | some k => by_cases hi : b = i <;> simp [hi]

theorem findCard_modify_dragOver (cs : List Container) (b x : Nat) (d : Bool) :
    findCard (cs.modify (fun k => { k with dragOver := d }) b) x = findCard cs x := by
  unfold findCard allCards
  rw [map_cards_modify_dragOver]

theorem findCard_key {cs : List Container} {x : Nat} {card : Card}
    (h : findCard cs x = some card) : card.key = x := by
  have := List.find?_some h
  simpa using this

theorem getElem?_appendChild {cs : List Container} {x : Nat} {card : Card}
    (h : findCard cs x = some card) (b i : Nat) :
    (appendChild cs b x)[i]? =
      (cs[i]?).map (fun c =>
        if b = i then { c with cards := c.cards.filter (fun k => k.key != x) ++ [card] }
        else { c with cards := c.cards.filter (fun k => k.key != x) }) := by
  simp only [appendChild, h, removeCard, List.getElem?_modify, List.getElem?_map]
  cases cs[i]? with
  | none => rfl
  | some c => by_cases hi : b = i <;> simp [hi]

theorem showToast_containers (s : State) (m ty : String) :
    (showToast s m ty).1.containers = s.containers := by
  unfold showToast; split <;> rfl

theorem updateDealStage_containers (s : State) (d t : String) :
    (updateDealStage s d t).containers = s.containers := by
  unfold updateDealStage
  exact showToast_containers _ _ _

theorem handleDrop_move_containers {s : State} {b x : Nat} {target : Container}
    (hb : s.containers[b]? = some target) (hd : s.draggedDeal = some x)
    (ho : s.originalStage ≠ some b) :
    (handleDrop s b).containers =
      appendChild (s.containers.modify (fun k => { k with dragOver := false }) b) b x := by
  rw [handleDrop_move hb hd ho, updateDealStage_containers]
  rfl

theorem getElem?_handleDrop_move {s : State} {b x : Nat} {target : Container} {card : Card}
    (hb : s.containers[b]? = some target) (hd : s.draggedDeal = some x)
    (ho : s.originalStage ≠ some b) (hx : findCard s.containers x = some card) (i : Nat) :
    (handleDrop s b).containers[i]? =
      (s.containers[i]?).map (fun c =>
        if b = i then
          { c with dragOver := false, cards := c.cards.filter (fun k => k.key != x) ++ [card] }
        else { c with cards := c.cards.filter (fun k => k.key != x) }) := by
  rw [handleDrop_move_containers hb hd ho,
    getElem?_appendChild ((findCard_modify_dragOver _ _ _ _).trans hx),
    List.getElem?_modify]
  cases s.containers[i]? with
  | none => rfl
  | some c => by_cases hi : b = i <;> simp [hi]

/-- C6: when `handleDrop` on container `b` returns, the session holding card `x` and an
origin `a` other than `b`, the card is the last child of `b`, it is not a child of `a`, and
the other cards of every container are the ones it held, in the same order. -/
theorem optimistic_update (s : State) (x a b : Nat) (card : Card) (target : Container)
    (hd : s.draggedDeal = some x) (ho : s.originalStage = some a) (hab : a ≠ b)
    (hb : s.containers[b]? = some target) (hx : findCard s.containers x = some card) :
    card.key = x ∧
    (∃ c, (handleDrop s b).containers[b]? = some c ∧ c.cards.getLast? = some card) ∧
    (∀ c, (handleDrop s b).containers[a]? = some c → ∀ k ∈ c.cards, k.key ≠ x) ∧
    (handleDrop s b).containers.map (fun c => c.cards.filter (fun k => k.key != x)) =
      s.containers.map (fun c => c.cards.filter (fun k => k.key != x)) := by
  have ho1 : s.originalStage ≠ some b := by
    rw [ho]; simpa using hab
  have hget := getElem?_handleDrop_move hb hd ho1 hx
  have hkey := findCard_key hx
  refine ⟨hkey, ?_, ?_, ?_⟩
  · refine ⟨_, by rw [hget b, hb]; rfl, ?_⟩
    simp
  · intro c hc k hk
    rw [hget a] at hc
    cases hA : s.containers[a]? with
    | none => simp [hA] at hc
    | some A =>
      have hba : ¬ b = a := fun h => hab h.symm
      simp only [hA, Option.map_some', hba, if_false, Option.some.injEq] at hc
      subst hc
      simp only [List.mem_filter] at hk
      simpa using hk.2
  · apply List.ext_getElem?
    intro i
    simp only [List.getElem?_map, hget i]
    cases s.containers[i]? with
    | none => rfl
    | some c =>
      by_cases hi : b = i
      · simp [hi, List.filter_append, List.filter_filter, hkey]
      · simp [hi, List.filter_filter]

/-- Card 2 of the example board, dragged from position 0, is dropped on position 1. -/
theorem optimistic_update_witness :
    (⟨2, "42", false⟩ : Card).key = 2 ∧
    (∃ c, (handleDrop (handleDragStart exampleBoard 2) 1).containers[1]? = some c ∧
      c.cards.getLast? = some ⟨2, "42", false⟩) ∧
    (∀ c, (handleDrop (handleDragStart exampleBoard 2) 1).containers[0]? = some c →
      ∀ k ∈ c.cards, k.key ≠ 2) ∧
    (handleDrop (handleDragStart exampleBoard 2) 1).containers.map
        (fun c => c.cards.filter (fun k => k.key != 2)) =
      (handleDragStart exampleBoard 2).containers.map
        (fun c => c.cards.filter (fun k => k.key != 2)) :=
  optimistic_update (handleDragStart exampleBoard 2) 2 0 1 ⟨2, "42", false⟩
    ⟨"stage-20", false, [⟨4, "44", false⟩], some ⟨some "1"⟩⟩
    (by decide) (by decide) (by decide) (by decide) (by decide)

/-! ## Badges -/

theorem updateStageCountsLoop_of_badges (cs : List Container)
    (h : ∀ c ∈ cs, (c.header.bind Header.badge).isSome = true) :
    updateStageCountsLoop cs = (cs.map writeBadge, false) := by
  induction cs with
  | nil => rfl
  | cons c cs ih =>
    have hc := h c (List.mem_cons_self _ _)
    have ih1 := ih (fun c1 h1 => h c1 (List.mem_cons_of_mem _ h1))
    unfold updateStageCountsLoop
    cases hh : c.header with
    | none => simp [hh] at hc
    | some hd =>
      cases hbd : hd.badge with
      | none => simp [hh, hbd] at hc
      | some txt => simp [hbd, ih1]

theorem settle_success_containers {s : State} {i : Nat} {r : Request}
    (hr : s.requests[i]? = some r) (hs : r.settled = false)
    (hh : ∀ c ∈ s.containers, (c.header.bind Header.badge).isSome = true)
    (status : Nat) (msg : Option String) :
    (settle s i (.response status (.json true msg))).containers =
      s.containers.map writeBadge := by
  have hloop : ∀ u : State, u.containers = s.containers →
      updateStageCounts u = ({ u with containers := s.containers.map writeBadge }, false) := by
    intro u hu
    unfold updateStageCounts
    rw [hu, updateStageCountsLoop_of_badges _ hh]
  simp only [settle, hr, hs, onData, if_true, Bool.false_eq_true, if_false]
  rw [hloop _ (by rw [showToast_containers]; rfl)]
  simp only [Bool.false_eq_true, if_false]

theorem parentNode_congr {cs cs1 : List Container} (h : containment cs = containment cs1)
    (x : Nat) : parentNode cs x = parentNode cs1 x := by
  induction cs generalizing cs1 with
  | nil =>
    cases cs1 with
    | nil => rfl
    | cons c1 t1 => simp [containment] at h
  | cons c t ih =>
    cases cs1 with
    | nil => simp [containment] at h
    | cons c1 t1 =>
      simp only [containment, List.map_cons, List.cons.injEq] at h
      have hany : c.cards.any (fun k => k.key == x) = c1.cards.any (fun k => k.key == x) := by
        have e : ∀ l : List Card, l.any (fun k => k.key == x) =
            (l.map Card.key).any (fun n => n == x) := by
          intro l
          induction l with
          | nil => rfl
          | cons k l ihl => simp [ihl]
        rw [e c.cards, e c1.cards, h.1]
      unfold parentNode
      rw [hany, ih h.2]

theorem parentNode_eq_some {cs : List Container} {b x : Nat} {c : Container}
    (hb : cs[b]? = some c) (hx : ∃ k ∈ c.cards, k.key = x)
    (hlt : ∀ i c1, i < b → cs[i]? = some c1 → ∀ k ∈ c1.cards, k.key ≠ x) :
    parentNode cs x = some b := by
  induction cs generalizing b with
  | nil => simp at hb
  | cons c0 t ih =>
    cases b with
    | zero =>
      simp only [List.getElem?_cons_zero, Option.some.injEq] at hb
      subst hb
      unfold parentNode
      have : c0.cards.any (fun k => k.key == x) = true := by
        simpa using hx
      rw [if_pos this]
    | succ n =>
      simp only [List.getElem?_cons_succ] at hb
      have h0 : ¬ c0.cards.any (fun k => k.key == x) = true := by
        have := hlt 0 c0 (Nat.succ_pos n) (by simp)
        simpa using this
      have ih1 := ih hb (fun i c1 hi hc1 => hlt (i + 1) c1 (Nat.succ_lt_succ hi) (by simpa using hc1))
      unfold parentNode
      rw [if_neg h0, ih1]
      rfl

theorem wellFormed_unique {cs : List Container} (hwf : WellFormed cs) {i j : Nat}
    {ci cj : Container} {k1 k2 : Card} (hi : cs[i]? = some ci) (hj : cs[j]? = some cj)
    (h1 : k1 ∈ ci.cards) (h2 : k2 ∈ cj.cards) (hk : k1.key = k2.key) : i = j := by
  unfold WellFormed allCards at hwf
  rw [List.map_flatten, List.nodup_flatten, List.pairwise_iff_getElem] at hwf
  obtain ⟨hli, rfl⟩ := List.getElem?_eq_some_iff.1 hi
  obtain ⟨hlj, rfl⟩ := List.getElem?_eq_some_iff.1 hj
  have key : ∀ (p q : Nat) (hp : p < cs.length) (hq : q < cs.length) (a1 a2 : Card),
      a1 ∈ cs[p].cards → a2 ∈ cs[q].cards → a1.key = a2.key → ¬ p < q := by
    intro p q hp hq a1 a2 m1 m2 e hpq
    have hd := hwf.2 p q (by simpa using hp) (by simpa using hq) hpq
    simp only [List.getElem_map] at hd
    exact List.disjoint_left.1 hd (List.mem_map_of_mem _ m1) (by rw [e]; exact List.mem_map_of_mem _ m2)
  rcases Nat.lt_trichotomy i j with h | h | h
  · exact absurd h (key i j hli hlj k1 k2 h1 h2 hk)
  · exact h
  · exact absurd h (key j i hlj hli k2 k1 h2 h1 hk.symm)

theorem wellFormed_nodup {cs : List Container} (hwf : WellFormed cs) {i : Nat}
    {c : Container} (hi : cs[i]? = some c) : (c.cards.map Card.key).Nodup := by
  unfold WellFormed allCards at hwf
  rw [List.map_flatten, List.nodup_flatten] at hwf
  apply hwf.1
  simp only [List.map_map, List.mem_map]
  exact ⟨c, List.getElem?_mem hi, rfl⟩

theorem length_filter_key (l : List Card) (x : Nat) (hn : (l.map Card.key).Nodup)
    (hx : ∃ k ∈ l, k.key = x) :
    (l.filter (fun k => k.key != x)).length + 1 = l.length := by
  induction l with
  | nil => simp at hx
  | cons k t ih =>
    simp only [List.map_cons, List.nodup_cons] at hn
    by_cases hk : k.key = x
    · have hself : t.filter (fun k => k.key != x) = t := by
        rw [List.filter_eq_self]
        intro a ha
        have : a.key ≠ x := by
          intro e
          exact hn.1 (by rw [hk, ← e]; exact List.mem_map_of_mem _ ha)
        simpa using this
      simp [hk, hself]
    · obtain ⟨k1, hk1, e1⟩ := hx
      have hk1t : k1 ∈ t := by
        rcases List.mem_cons.1 hk1 with h | h
        · exact absurd (h ▸ e1) hk
        · exact h
      have := ih hn.2 ⟨k1, hk1t, e1⟩
      simp [hk, this]

theorem showToast_requests (s : State) (m ty : String) :
    (showToast s m ty).1.requests = s.requests := by
  unfold showToast; split <;> rfl

theorem showToast_snd (s : State) (m ty : String) :
    (showToast s m ty).2 = s.toasts.length := by
  unfold showToast; split <;> rfl

theorem handleDrop_move_requests {s : State} {b x : Nat} {target : Container}
    (hb : s.containers[b]? = some target) (hd : s.draggedDeal = some x)
    (ho : s.originalStage ≠ some b) :
    (handleDrop s b).requests =
      s.requests ++
        [stageChangeRequest s.dataTransfer.data (stageIdOf target.id) s.toasts.length] := by
  rw [handleDrop_move hb hd ho]
  unfold updateDealStage
  simp only [showToast_requests, showToast_snd]
  rfl

theorem writeBadge_facts {cs : List Container} {x a b n m : Nat}
    (hp : parentNode cs x = some b)
    (hA : (cs[a]?).map (fun c => c.cards.length) = some n)
    (hB : (cs[b]?).map (fun c => c.cards.length) = some m) :
    parentNode (cs.map writeBadge) x = some b ∧
    ((cs.map writeBadge)[a]?).map Container.header = some (some ⟨some (toString n)⟩) ∧
    ((cs.map writeBadge)[b]?).map Container.header = some (some ⟨some (toString m)⟩) := by
  refine ⟨?_, ?_, ?_⟩
  · rw [← hp]
    apply parentNode_congr
    simp only [containment, List.map_map]
    rfl
  · rw [List.getElem?_map]
    cases h : cs[a]? with
    | none => simp [h] at hA
    | some c =>
      simp only [h, Option.map_some', Option.some.injEq] at hA
      simp [writeBadge, hA]
  · rw [List.getElem?_map]
    cases h : cs[b]? with
    | none => simp [h] at hB
    | some c =>
      simp only [h, Option.map_some', Option.some.injEq] at hB
      simp [writeBadge, hB]

/-- The board after a drop that moves card `x` from container `a` to container `b`. -/
theorem moved_facts {s : State} {x a b : Nat} {A B : Container} {card : Card}
    (hwf : WellFormed s.containers)
    (hbadge : ∀ c ∈ s.containers, (c.header.bind Header.badge).isSome = true)
    (hd : s.draggedDeal = some x) (ho : s.originalStage = some a)
    (hx : findCard s.containers x = some card)
    (hxA : ∃ k ∈ A.cards, k.key = x)
    (hA : s.containers[a]? = some A) (hB : s.containers[b]? = some B) (hab : a ≠ b) :
    (∀ c ∈ (handleDrop s b).containers, (c.header.bind Header.badge).isSome = true) ∧
    parentNode (handleDrop s b).containers x = some b ∧
    ((handleDrop s b).containers[a]?).map (fun c => c.cards.length) =
      some (A.cards.length - 1) ∧
    ((handleDrop s b).containers[b]?).map (fun c => c.cards.length) =
      some (B.cards.length + 1) := by
  have ho1 : s.originalStage ≠ some b := by
    rw [ho]; simpa using hab
  have hget := getElem?_handleDrop_move hB hd ho1 hx
  have hkey := findCard_key hx
  have hba : ¬ b = a := fun h => hab h.symm
  refine ⟨?_, ?_, ?_, ?_⟩
  · intro c hc
    obtain ⟨i, hi⟩ := List.mem_iff_getElem?.1 hc
    rw [hget i] at hi
    cases h0 : s.containers[i]? with
    | none => simp [h0] at hi
    | some c0 =>
      have hb0 := hbadge c0 (List.getElem?_mem h0)
      simp only [h0, Option.map_some', Option.some.injEq] at hi
      subst hi
      split <;> exact hb0
  · refine parentNode_eq_some (c := { B with
        dragOver := false
        cards := B.cards.filter (fun k => k.key != x) ++ [card] }) ?_ ?_ ?_
    · rw [hget b, hB]; simp
    · exact ⟨card, by simp, hkey⟩
    · intro i c1 hi hc1 k hk
      rw [hget i] at hc1
      cases h0 : s.containers[i]? with
      | none => simp [h0] at hc1
      | some c0 =>
        have hbi : ¬ b = i := fun h => absurd hi (by rw [h]; exact Nat.lt_irrefl _)
        simp only [h0, Option.map_some', hbi, if_false, Option.some.injEq] at hc1
        subst hc1
        simp only [List.mem_filter] at hk
        simpa using hk.2
  · rw [hget a, hA]
    have := length_filter_key A.cards x (wellFormed_nodup hwf hA) hxA
    simp only [Option.map_some', hba, if_false, Option.some.injEq]
    omega
  · rw [hget b, hB]
    have hself : B.cards.filter (fun k => k.key != x) = B.cards := by
      rw [List.filter_eq_self]
      intro k hk
      obtain ⟨k0, hk0, e0⟩ := hxA
      have : k.key ≠ x := by
        intro e
        exact hab (wellFormed_unique hwf hA hB hk0 hk (e0.trans e.symm))
      simpa using this
    simp [hself]

theorem dragEnd_facts {cs : List Container} {x y b n m a : Nat}
    (hbadge : ∀ c ∈ cs, (c.header.bind Header.badge).isSome = true)
    (hp : parentNode cs x = some b)
    (hA : (cs[a]?).map (fun c => c.cards.length) = some n)
    (hB : (cs[b]?).map (fun c => c.cards.length) = some m) (s : State)
    (hs : s.containers = cs) :
    (∀ c ∈ (handleDragEnd s y).containers, (c.header.bind Header.badge).isSome = true) ∧
    parentNode (handleDragEnd s y).containers x = some b ∧
    ((handleDragEnd s y).containers[a]?).map (fun c => c.cards.length) = some n ∧
    ((handleDragEnd s y).containers[b]?).map (fun c => c.cards.length) = some m := by
  subst hs
  refine ⟨?_, ?_, ?_, ?_⟩
  · intro c hc
    simp only [handleDragEnd, List.mem_map] at hc
    obtain ⟨c0, h0, rfl⟩ := hc
    exact hbadge c0 h0
  · rw [← hp]
    apply parentNode_congr
    simp only [containment, handleDragEnd, List.map_map]
    apply List.map_congr_left
    intro c _
    simp only [Function.comp, List.map_map]
    apply List.map_congr_left
    intro k _
    simp only [Function.comp]
    split <;> rfl
  · rw [← hA]
    simp only [handleDragEnd, List.getElem?_map, Option.map_map]
    congr 1
    funext c
    simp
  · rw [← hB]
    simp only [handleDragEnd, List.getElem?_map, Option.map_map]
    congr 1
    funext c
    simp

/-- C5: on a board with distinct cards in which every container has a header with a
badge, card `x` is dragged from container `a` and dropped on another container `b`, and
the response of that request says `success: true`, `mid` being empty or the `handleDragEnd`
that runs before the response. Then `x` is a child of `b`, the badge of `a` reads the number of cards
`a` held minus one and the badge of `b` reads the number of cards `b` held plus one. -/
theorem badge_consistency (s : State) (x a b : Nat) (A B : Container) (status : Nat)
    (msg : Option String)
    (hwf : WellFormed s.containers)
    (hbadge : ∀ c ∈ s.containers, (c.header.bind Header.badge).isSome = true)
    (ha : parentNode s.containers x = some a) (hA : s.containers[a]? = some A)
    (hB : s.containers[b]? = some B) (hab : a ≠ b)
    (mid : List Event) (hmid : mid = [] ∨ mid = [.dragEnd x]) :
      parentNode (run s ([.dragStart x, .drop b] ++ mid ++
        [.settle s.requests.length (.response status (.json true msg))])).containers x
          = some b ∧
      ((run s ([.dragStart x, .drop b] ++ mid ++
        [.settle s.requests.length (.response status (.json true msg))])).containers[a]?).map
          Container.header = some (some ⟨some (toString (A.cards.length - 1))⟩) ∧
      ((run s ([.dragStart x, .drop b] ++ mid ++
        [.settle s.requests.length (.response status (.json true msg))])).containers[b]?).map
          Container.header = some (some ⟨some (toString (B.cards.length + 1))⟩) := by
  obtain ⟨card, hx, _⟩ := findCard_of_parentNode ha
  obtain ⟨A1, hA1, hxA⟩ := parentNode_some ha
  obtain rfl : A1 = A := by rw [hA] at hA1; exact (Option.some.inj hA1).symm
  have hstart := handleDragStart_of_findCard hx
  have hd : (handleDragStart s x).draggedDeal = some x := by rw [hstart]
  have ho : (handleDragStart s x).originalStage = some a := by rw [hstart]; exact ha
  have hcs : (handleDragStart s x).containers = s.containers := by rw [hstart]
  have hrq : (handleDragStart s x).requests = s.requests := by rw [hstart]
  have hx0 : findCard (handleDragStart s x).containers x = some card := by rw [hcs]; exact hx
  have hA0 : (handleDragStart s x).containers[a]? = some A1 := by rw [hcs]; exact hA
  have hB0 : (handleDragStart s x).containers[b]? = some B := by rw [hcs]; exact hB
  have ho1 : (handleDragStart s x).originalStage ≠ some b := by
    rw [ho]; simpa using hab
  have hfacts := moved_facts (by rw [hcs]; exact hwf) (by rw [hcs]; exact hbadge)
    hd ho hx0 hxA hA0 hB0 hab
  have hreq : (handleDrop (handleDragStart s x) b).requests[s.requests.length]? =
      some (stageChangeRequest (handleDragStart s x).dataTransfer.data (stageIdOf B.id)
        (handleDragStart s x).toasts.length) := by
    rw [handleDrop_move_requests hB0 hd ho1, hrq]
    simp
  rcases hmid with rfl | rfl
  · have hrun : run s ([.dragStart x, .drop b] ++ [] ++
        [.settle s.requests.length (.response status (.json true msg))]) =
        settle (handleDrop (handleDragStart s x) b) s.requests.length
          (.response status (.json true msg)) := rfl
    rw [hrun, settle_success_containers hreq rfl hfacts.1]
    exact writeBadge_facts hfacts.2.1 hfacts.2.2.1 hfacts.2.2.2
  · have hrun : run s ([.dragStart x, .drop b] ++ [.dragEnd x] ++
        [.settle s.requests.length (.response status (.json true msg))]) =
        settle (handleDragEnd (handleDrop (handleDragStart s x) b) x) s.requests.length
          (.response status (.json true msg)) := rfl
    have hend := dragEnd_facts (y := x) hfacts.1 hfacts.2.1 hfacts.2.2.1 hfacts.2.2.2
      (handleDrop (handleDragStart s x) b) rfl
    have hreq1 : (handleDragEnd (handleDrop (handleDragStart s x) b) x).requests[
        s.requests.length]? = some (stageChangeRequest
          (handleDragStart s x).dataTransfer.data (stageIdOf B.id)
          (handleDragStart s x).toasts.length) := hreq
    rw [hrun, settle_success_containers hreq1 rfl hend.1]
    exact writeBadge_facts hend.2.1 hend.2.2.1 hend.2.2.2

/-- The example scenario: `stage-10` holds three cards, among them deal "42", and
`stage-20` holds one; after the move both badges read 2 and the card is a child of
`stage-20`. -/
theorem badge_consistency_witness :
      parentNode (run exampleBoard ([.dragStart 2, .drop 1] ++ [.dragEnd 2] ++
        [.settle exampleBoard.requests.length (.response 200 (.json true none))])).containers 2
          = some 1 ∧
      ((run exampleBoard ([.dragStart 2, .drop 1] ++ [.dragEnd 2] ++
        [.settle exampleBoard.requests.length
          (.response 200 (.json true none))])).containers[0]?).map
          Container.header = some (some ⟨some (toString (3 - 1))⟩) ∧
      ((run exampleBoard ([.dragStart 2, .drop 1] ++ [.dragEnd 2] ++
        [.settle exampleBoard.requests.length
          (.response 200 (.json true none))])).containers[1]?).map
          Container.header = some (some ⟨some (toString (1 + 1))⟩) :=
  badge_consistency exampleBoard 2 0 1
    ⟨"stage-10", false, [⟨1, "41", false⟩, ⟨2, "42", false⟩, ⟨3, "43", false⟩],
      some ⟨some "3"⟩⟩
    ⟨"stage-20", false, [⟨4, "44", false⟩], some ⟨some "1"⟩⟩ 200 none
    (by decide) (by decide) (by decide) (by decide) (by decide) (by decide)
    [.dragEnd 2] (Or.inr rfl)

/-! ## Failure handlers -/

theorem onData_false (s : State) (t : Nat) (m : Option String) :
    onData s t false m = onError s t (messageText m) := by
  simp [onData, onError]

theorem showToast_error (s : State) (m : String) :
    (showToast s m "error").1 =
      { s with toasts := s.toasts ++ [⟨"toast toast-error", m, true, true⟩] } := by
  have h : ¬ ("error" = "success" ∨ "error" = "info") := by decide
  simp only [showToast, if_neg h]
  rfl

theorem revert_toasts (s : State) : (revert s).toasts = s.toasts := by
  unfold revert; split <;> rfl

theorem revert_timers (s : State) : (revert s).timers = s.timers := by
  unfold revert; split <;> rfl

theorem revert_requests (s : State) : (revert s).requests = s.requests := by
  unfold revert; split <;> rfl

theorem onError_toasts (s : State) (t : Nat) (m : String) :
    (onError s t m).toasts =
      s.toasts.modify (fun k => { k with shown := false }) t ++ [errorToast m] := by
  unfold onError
  simp only [revert_toasts, showToast_error]
  rfl

theorem settle_pending {s : State} {i : Nat} {r : Request}
    (hr : s.requests[i]? = some r) (hs : r.settled = false) (o : Settlement) :
    settle s i o =
      match o with
      | .rejected m =>
        onError { s with requests := s.requests.modify (fun q => { q with settled := true }) i }
          r.loadingToast m
      | .response _ (.invalid m) =>
        onError { s with requests := s.requests.modify (fun q => { q with settled := true }) i }
          r.loadingToast m
      | .response _ (.json success message) =>
        onData { s with requests := s.requests.modify (fun q => { q with settled := true }) i }
          r.loadingToast success message := by
  simp only [settle, hr, hs, Bool.false_eq_true, if_false]

/-- C11: for a pending request and a message `m`, handling a rejection with message `m` (of
`fetch` or of `response.json()`) and handling a response `success: false, message: m` give the
same state: the same cards in the same containers, the same session, the same badges, and
the same toasts, namely the loading toast hidden and one error toast `Error: m` added. -/
theorem failure_same_as_rejection (s : State) (i : Nat) (r : Request) (m : String)
    (status : Nat) (hr : s.requests[i]? = some r) (hs : r.settled = false) :
    settle s i (.rejected m) = settle s i (.response status (.json false (some m))) ∧
    settle s i (.response status (.invalid m)) =
      settle s i (.response status (.json false (some m))) ∧
    (settle s i (.rejected m)).toasts =
      s.toasts.modify (fun k => { k with shown := false }) r.loadingToast ++ [errorToast m] := by
  refine ⟨?_, ?_, ?_⟩
  · rw [settle_pending hr hs, settle_pending hr hs]
    simp only [onData_false, messageText]
  · rw [settle_pending hr hs, settle_pending hr hs]
    simp only [onData_false, messageText]
  · rw [settle_pending hr hs]
    simp only [onError_toasts]

/-- On the example board card 2 has been dropped on `stage-20`; the request fails with "x". -/
theorem failure_same_as_rejection_witness :
    settle (handleDrop (handleDragStart exampleBoard 2) 1) 0 (.rejected "x") =
      settle (handleDrop (handleDragStart exampleBoard 2) 1) 0
        (.response 200 (.json false (some "x"))) ∧
    settle (handleDrop (handleDragStart exampleBoard 2) 1) 0 (.response 200 (.invalid "x")) =
      settle (handleDrop (handleDragStart exampleBoard 2) 1) 0
        (.response 200 (.json false (some "x"))) ∧
    (settle (handleDrop (handleDragStart exampleBoard 2) 1) 0 (.rejected "x")).toasts =
      (handleDrop (handleDragStart exampleBoard 2) 1).toasts.modify
        (fun k => { k with shown := false }) 0 ++ [errorToast "x"] :=
  failure_same_as_rejection (handleDrop (handleDragStart exampleBoard 2) 1) 0
    (stageChangeRequest "42" "20" 0) "x" 200 (by decide) (by decide)

/-! ## Badges are written by the success handler only -/

theorem headers_modify_dragOver (cs : List Container) (b : Nat) (d : Bool) :
    headers (cs.modify (fun k => { k with dragOver := d }) b) = headers cs := by
  unfold headers
  apply List.ext_getElem?
  intro i
  simp only [List.getElem?_map, List.getElem?_modify]
  cases cs[i]? with
  | none => rfl
  | some k => by_cases hi : b = i <;> simp [hi]

theorem headers_appendChild (cs : List Container) (b x : Nat) :
    headers (appendChild cs b x) = headers cs := by
  cases h : findCard cs x with
  | none => simp [appendChild, h]
  | some card =>
    unfold headers
    apply List.ext_getElem?
    intro i
    simp only [List.getElem?_map, getElem?_appendChild h]
    cases cs[i]? with
    | none => rfl
    | some k => by_cases hi : b = i <;> simp [hi]

theorem headers_revert (s : State) : headers (revert s).containers = headers s.containers := by
  unfold revert
  split
  · exact headers_appendChild _ _ _
  · rfl

theorem headers_onError (s : State) (t : Nat) (m : String) :
    headers (onError s t m).containers = headers s.containers := by
  unfold onError
  rw [headers_revert, showToast_containers]
  rfl

theorem headers_handleDrop (s : State) (b : Nat) :
    headers (handleDrop s b).containers = headers s.containers := by
  cases hd : s.draggedDeal with
  | none => rw [handleDrop_no_session hd]; exact headers_modify_dragOver _ _ _
  | some y =>
    by_cases ho : s.originalStage = some b
    · rw [handleDrop_self ho]; exact headers_modify_dragOver _ _ _
    · cases hb : s.containers[b]? with
      | none => simp [handleDrop, hb]
      | some target =>
        rw [handleDrop_move_containers hb hd ho, headers_appendChild,
          headers_modify_dragOver]

theorem headers_handleDragEnd (s : State) (x : Nat) :
    headers (handleDragEnd s x).containers = headers s.containers := by
  simp only [headers, handleDragEnd, List.map_map]
  rfl

theorem headers_fireTimer (s : State) (i : Nat) :
    headers (fireTimer s i).containers = headers s.containers := by
  unfold fireTimer
  split
  · rfl
  · split
    · rfl
    · unfold runCallback
      split
      · simp only [headers, List.map_map]; rfl
      · rfl
      · rfl

theorem headers_settle_failure (s : State) (i : Nat) (o : Settlement)
    (h : (Event.settle i o).isSuccess = false) :
    headers (settle s i o).containers = headers s.containers := by
  cases hr : s.requests[i]? with
  | none => simp [settle, hr]
  | some r =>
    cases hs : r.settled with
    | true => simp [settle, hr, hs]
    | false =>
      rw [settle_pending hr hs]
      cases o with
      | rejected m => exact headers_onError _ _ _
      | response st body =>
        cases body with
        | invalid m => exact headers_onError _ _ _
        | json ok msg =>
          cases ok with
          | true => simp [Event.isSuccess] at h
          | false => simp only [onData_false]; exact headers_onError _ _ _

/-- C12, as stated, fails: on the example board card 2 is dropped on `stage-20` and the
response has status 500 with the body `success: true`. The success toast is shown, the
badges are rewritten to 2 and 2 and the card stays in `stage-20`. -/
theorem status_500_handled_as_success :
    (run exampleBoard [.dragStart 2, .drop 1,
      .settle 0 (.response 500 (.json true none))]).toasts[1]?
      = some ⟨"toast toast-success", "Deal moved successfully!", true, true⟩ ∧
    headers (run exampleBoard [.dragStart 2, .drop 1,
      .settle 0 (.response 500 (.json true none))]).containers
      = [some ⟨some "2"⟩, some ⟨some "2"⟩] ∧
    parentNode (run exampleBoard [.dragStart 2, .drop 1,
      .settle 0 (.response 500 (.json true none))]).containers 2 = some 1 := by
  decide

/-- C12, amended: the status of a response is not examined, a response is handled by its
body alone. A pending request whose response body is not JSON, or is JSON with
`success: false`, is handled as a failure whatever the status: the badges keep their
texts and the toasts are the former ones, the loading toast hidden, with one error toast
added, so no success toast. -/
theorem response_handled_by_body (s : State) (i : Nat) (r : Request) (st st1 : Nat)
    (body : Body) (hr : s.requests[i]? = some r) (hs : r.settled = false) :
    settle s i (.response st body) = settle s i (.response st1 body) ∧
    (∀ m : String,
      headers (settle s i (.response st (.invalid m))).containers = headers s.containers ∧
      (settle s i (.response st (.invalid m))).toasts =
        s.toasts.modify (fun k => { k with shown := false }) r.loadingToast ++
          [errorToast m]) ∧
    (∀ msg : Option String,
      headers (settle s i (.response st (.json false msg))).containers =
        headers s.containers ∧
      (settle s i (.response st (.json false msg))).toasts =
        s.toasts.modify (fun k => { k with shown := false }) r.loadingToast ++
          [errorToast (messageText msg)]) := by
  refine ⟨?_, ?_, ?_⟩
  · rw [settle_pending hr hs, settle_pending hr hs]
    cases body <;> rfl
  · intro m
    refine ⟨headers_settle_failure s i _ rfl, ?_⟩
    rw [settle_pending hr hs]
    simp only [onError_toasts]
  · intro msg
    refine ⟨headers_settle_failure s i _ rfl, ?_⟩
    rw [settle_pending hr hs]
    simp only [onData_false, onError_toasts]

/-- The request of card 2 of the example board, dropped on `stage-20`, answered with
status 500. -/
theorem response_handled_by_body_witness :
    settle (handleDrop (handleDragStart exampleBoard 2) 1) 0
        (.response 500 (.json false (some "no"))) =
      settle (handleDrop (handleDragStart exampleBoard 2) 1) 0
        (.response 200 (.json false (some "no"))) ∧
    (∀ m : String,
      headers (settle (handleDrop (handleDragStart exampleBoard 2) 1) 0
        (.response 500 (.invalid m))).containers =
          headers (handleDrop (handleDragStart exampleBoard 2) 1).containers ∧
      (settle (handleDrop (handleDragStart exampleBoard 2) 1) 0
        (.response 500 (.invalid m))).toasts =
        (handleDrop (handleDragStart exampleBoard 2) 1).toasts.modify
          (fun k => { k with shown := false }) 0 ++ [errorToast m]) ∧
    (∀ msg : Option String,
      headers (settle (handleDrop (handleDragStart exampleBoard 2) 1) 0
        (.response 500 (.json false msg))).containers =
          headers (handleDrop (handleDragStart exampleBoard 2) 1).containers ∧
      (settle (handleDrop (handleDragStart exampleBoard 2) 1) 0
        (.response 500 (.json false msg))).toasts =
        (handleDrop (handleDragStart exampleBoard 2) 1).toasts.modify
          (fun k => { k with shown := false }) 0 ++ [errorToast (messageText msg)]) :=
  response_handled_by_body (handleDrop (handleDragStart exampleBoard 2) 1) 0
    (stageChangeRequest "42" "20" 0) 500 200 (.json false (some "no"))
    (by decide) (by decide)

/-- C13: for every string `t`, the stage id derived by `replace('stage-', '')` from the
element id `stage-` followed by `t` is `t`; so from `stage-stage-7` it is `stage-7`. -/
theorem stage_id_strips_first_occurrence (t : String) :
    stageIdOf ("stage-" ++ t) = t ∧ stageIdOf "stage-stage-7" = "stage-7" :=
  ⟨stageIdOf_stage t, by decide⟩

/-- C16: every event other than the handling of a `success: true` response (drag start,
enter, leave, over, drop, drag end, a `success: false` response, a rejection, a timer)
leaves the header and badge text of every container as it was; on the example board the
`success: true` response of a move does write the badges. -/
theorem badges_only_on_success (s : State) (e : Event) (h : e.isSuccess = false) :
    headers (step s e).containers = headers s.containers ∧
    headers (run exampleBoard [.dragStart 2, .drop 1,
      .settle 0 (.response 200 (.json true none))]).containers ≠
      headers (run exampleBoard [.dragStart 2, .drop 1]).containers := by
  refine ⟨?_, by decide⟩
  cases e with
  | dragStart x =>
    show headers (handleDragStart s x).containers = _
    unfold handleDragStart
    split <;> rfl
  | dragEnd x => exact headers_handleDragEnd s x
  | dragOver c => rfl
  | dragEnter c => exact headers_modify_dragOver _ _ _
  | dragLeave c => exact headers_modify_dragOver _ _ _
  | drop c => exact headers_handleDrop s c
  | settle i o => exact headers_settle_failure s i o h
  | timer i => exact headers_fireTimer s i

/-- The rejected move of card 2 of the example board writes no badge. -/
theorem badges_only_on_success_witness :
    headers (step (run exampleBoard [.dragStart 2, .drop 1])
      (.settle 0 (.response 200 (.json false (some "no"))))).containers =
      headers (run exampleBoard [.dragStart 2, .drop 1]).containers ∧
    headers (run exampleBoard [.dragStart 2, .drop 1,
      .settle 0 (.response 200 (.json true none))]).containers ≠
      headers (run exampleBoard [.dragStart 2, .drop 1]).containers :=
  badges_only_on_success (run exampleBoard [.dragStart 2, .drop 1])
    (.settle 0 (.response 200 (.json false (some "no")))) rfl

/-- C17: `handleDragEnter` and `handleDragLeave` on container `c` leave the session, the
drag data, the requests, the toasts and the timers as they were; container `c` gets
(enter) or loses (leave) `drag-over` and is otherwise as before, cards and badge included,
and every other container is as before. -/
theorem enter_leave_visual (s : State) (c : Nat) :
    ((handleDragEnter s c).draggedDeal = s.draggedDeal ∧
     (handleDragEnter s c).originalStage = s.originalStage ∧
     (handleDragEnter s c).dataTransfer = s.dataTransfer ∧
     (handleDragEnter s c).requests = s.requests ∧
     (handleDragEnter s c).toasts = s.toasts ∧
     (handleDragEnter s c).timers = s.timers ∧
     ∀ i, (handleDragEnter s c).containers[i]? =
       (s.containers[i]?).map (fun k => if c = i then { k with dragOver := true } else k)) ∧
    ((handleDragLeave s c).draggedDeal = s.draggedDeal ∧
     (handleDragLeave s c).originalStage = s.originalStage ∧
     (handleDragLeave s c).dataTransfer = s.dataTransfer ∧
     (handleDragLeave s c).requests = s.requests ∧
     (handleDragLeave s c).toasts = s.toasts ∧
     (handleDragLeave s c).timers = s.timers ∧
     ∀ i, (handleDragLeave s c).containers[i]? =
       (s.containers[i]?).map (fun k => if c = i then { k with dragOver := false } else k)) := by
  refine ⟨⟨rfl, rfl, rfl, rfl, rfl, rfl, ?_⟩, ⟨rfl, rfl, rfl, rfl, rfl, rfl, ?_⟩⟩
  · intro i
    simp only [handleDragEnter, List.getElem?_modify]
    rfl
  · intro i
    simp only [handleDragLeave, removeDragOver, List.getElem?_modify]
    rfl

/-! ## Lifetime of toasts -/

/-- C18, as stated, fails: on the example board the move of card 2 is rejected; the timers
scheduled are the `dragging` class, the hiding of the loading toast and its removal, none
for the error toast, and after all of them have fired the error toast is still shown and
attached. -/
theorem error_toast_not_scheduled :
    (run exampleBoard [.dragStart 2, .drop 1, .settle 0 (.rejected "x")]).timers =
      [⟨0, .addDragging 2, false⟩, ⟨3000, .hideToast 0, false⟩,
       ⟨300, .removeToast 0, false⟩] ∧
    (run exampleBoard [.dragStart 2, .drop 1, .settle 0 (.rejected "x"),
      .timer 0, .timer 1, .timer 2, .timer 3]).toasts =
      [⟨"toast toast-info", "Moving deal...", false, false⟩,
       ⟨"toast toast-error", "Error: x", true, true⟩] := by
  decide

/-- C18, amended: `showToast` schedules the hiding of a toast of type `success` or `info`
after 3000 ms and schedules nothing for a toast of type `error`; the failure handler
schedules only the removal of the loading toast. -/
theorem only_success_info_auto_hide (s : State) (m : String) (t : Nat) :
    (showToast s m "success").1.timers =
      s.timers ++ [⟨3000, .hideToast s.toasts.length, false⟩] ∧
    (showToast s m "info").1.timers =
      s.timers ++ [⟨3000, .hideToast s.toasts.length, false⟩] ∧
    (showToast s m "error").1.timers = s.timers ∧
    (onError s t m).timers = s.timers ++ [⟨300, .removeToast t, false⟩] := by
  refine ⟨?_, ?_, ?_, ?_⟩
  · have h : ("success" = "success" ∨ "success" = "info") := by decide
    unfold showToast
    rw [if_pos h]
  · have h : ("info" = "success" ∨ "info" = "info") := by decide
    unfold showToast
    rw [if_pos h]
  · rw [showToast_error]
  · unfold onError
    rw [revert_timers, showToast_error]
    rfl

/-! ## Pending requests -/

theorem onError_requests (s : State) (t : Nat) (m : String) :
    (onError s t m).requests = s.requests := by
  unfold onError
  rw [revert_requests, showToast_requests]
  rfl

theorem onData_requests (s : State) (t : Nat) (ok : Bool) (m : Option String) :
    (onData s t ok m).requests = s.requests := by
  cases ok with
  | false => rw [onData_false, onError_requests]
  | true =>
    unfold onData
    simp only [if_true]
    split
    · rw [onError_requests]
      simp only [updateStageCounts, showToast_requests]
      rfl
    · simp only [updateStageCounts, showToast_requests]
      rfl

theorem fireTimer_requests (s : State) (i : Nat) : (fireTimer s i).requests = s.requests := by
  unfold fireTimer
  split
  · rfl
  · split
    · rfl
    · unfold runCallback
      split <;> rfl

theorem countP_modify_le {α : Type} (p : α → Bool) (f : α → α)
    (hf : ∀ a, p (f a) = true → p a = true) (l : List α) (i : Nat) :
    (l.modify f i).countP p ≤ l.countP p := by
  induction l generalizing i with
  | nil => simp
  | cons a t ih =>
    cases i with
    | zero =>
      simp only [List.modify_zero_cons, List.countP_cons]
      by_cases h : p (f a) = true
      · simp [h, hf a h]
      · have h0 : p (f a) = false := by simpa using h
        simp only [h0, Bool.false_eq_true, if_false]
        omega
    | succ n =>
      simp only [List.modify_succ_cons, List.countP_cons]
      have := ih n
      omega

theorem pendingFor_settle (s : State) (i : Nat) (o : Settlement) (d : String) :
    pendingFor (settle s i o).requests d ≤ pendingFor s.requests d := by
  cases hr : s.requests[i]? with
  | none => simp [settle, hr]
  | some r =>
    cases hs : r.settled with
    | true => simp [settle, hr, hs]
    | false =>
      have hreq : (settle s i o).requests =
          s.requests.modify (fun q => { q with settled := true }) i := by
        rw [settle_pending hr hs]
        cases o with
        | rejected m => exact onError_requests _ _ _
        | response st body =>
          cases body with
          | invalid m => exact onError_requests _ _ _
          | json ok msg => exact onData_requests _ _ _ _
      rw [hreq]
      unfold pendingFor
      apply countP_modify_le
      intro a ha
      simp at ha

theorem pendingFor_handleDrop (s : State) (b : Nat) (d : String) :
    pendingFor (handleDrop s b).requests d ≤ pendingFor s.requests d + 1 := by
  cases hd : s.draggedDeal with
  | none => rw [handleDrop_no_session hd]; exact Nat.le_succ _
  | some y =>
    by_cases ho : s.originalStage = some b
    · rw [handleDrop_self ho]; exact Nat.le_succ _
    · cases hb : s.containers[b]? with
      | none => simp [handleDrop, hb]
      | some target =>
        rw [handleDrop_move_requests hb hd ho]
        unfold pendingFor
        rw [List.countP_append]
        have : List.countP (fun r => !r.settled && r.deal_id == d)
            [stageChangeRequest s.dataTransfer.data (stageIdOf target.id) s.toasts.length]
            ≤ 1 := by
          simpa using List.countP_le_length (fun r : Request => !r.settled && r.deal_id == d)
            (l := [stageChangeRequest s.dataTransfer.data (stageIdOf target.id)
              s.toasts.length])
        omega

theorem pendingFor_step (s : State) (e : Event) (d : String) :
    pendingFor (step s e).requests d ≤
      pendingFor s.requests d + (if e.isDrop = true then 1 else 0) := by
  cases e with
  | dragStart x =>
    show pendingFor (handleDragStart s x).requests d ≤ _
    rw [handleDragStart_requests]; simp [Event.isDrop]
  | dragEnd x => exact Nat.le_add_right _ _
  | dragOver c => exact Nat.le_add_right _ _
  | dragEnter c => exact Nat.le_add_right _ _
  | dragLeave c => exact Nat.le_add_right _ _
  | drop c => simpa [Event.isDrop] using pendingFor_handleDrop s c d
  | settle i o => simpa [Event.isDrop] using pendingFor_settle s i o d
  | timer i =>
    show pendingFor (fireTimer s i).requests d ≤ _
    rw [fireTimer_requests]; simp [Event.isDrop]

/-- C15, as stated, fails: on the example board card 2 (deal "42") is dropped on `stage-20`
and, before that request settles, dragged again and dropped on `stage-10`; two requests for
deal "42" are then issued and not settled. -/
theorem two_pending_requests_same_deal :
    pendingFor (run exampleBoard
      [.dragStart 2, .drop 1, .dragEnd 2, .dragStart 2, .drop 0]).requests "42" = 2 := by
  decide

/-- C15, amended: every `handleDrop` issues at most one request and no other event issues
any, so after any sequence of events the requests for one deal that are issued and not
settled are at most those of the start plus the number of drops of the sequence. -/
theorem pending_bounded_by_drops (s : State) (es : List Event) (d : String) :
    pendingFor (run s es).requests d ≤ pendingFor s.requests d + es.countP Event.isDrop := by
  induction es generalizing s with
  | nil => exact Nat.le_refl _
  | cons e t ih =>
    have h1 := pendingFor_step s e d
    have h2 := ih (step s e)
    simp only [run, List.foldl_cons] at h2 ⊢
    rw [List.countP_cons]
    omega

/-! ## Cards are neither created nor destroyed -/

theorem allCards_cons (c : Container) (cs : List Container) :
    allCards (c :: cs) = c.cards ++ allCards cs := by
  simp [allCards]

theorem sameCards_refl (cs : List Container) : SameCards cs cs :=
  ⟨rfl, List.Perm.refl _⟩

theorem sameCards_trans {a b c : List Container} (h1 : SameCards a b) (h2 : SameCards b c) :
    SameCards a c :=
  ⟨h1.1.trans h2.1, h1.2.trans h2.2⟩

theorem sameCards_of_cards {cs1 cs : List Container}
    (h : cs1.map Container.cards = cs.map Container.cards) : SameCards cs1 cs := by
  refine ⟨?_, ?_⟩
  · have := congrArg List.length h
    simpa using this
  · unfold identities allCards
    rw [h]

theorem sameCards_of_identity (f : Container → Container) (g : Card → Card)
    (hf : ∀ c, (f c).cards = c.cards.map g)
    (hg : ∀ k, ((g k).key, (g k).dealId) = (k.key, k.dealId)) (cs : List Container) :
    SameCards (cs.map f) cs := by
  refine ⟨by simp, ?_⟩
  have : identities (cs.map f) = identities cs := by
    induction cs with
    | nil => rfl
    | cons c t ih =>
      unfold identities at ih ⊢
      rw [List.map_cons, allCards_cons, allCards_cons, List.map_append, List.map_append, ih,
        hf c, List.map_map]
      congr 1
      apply List.map_congr_left
      intro k _
      exact hg k
  rw [this]

theorem allCards_removeCard (cs : List Container) (x : Nat) :
    allCards (removeCard cs x) = (allCards cs).filter (fun k => k.key != x) := by
  induction cs with
  | nil => rfl
  | cons c t ih =>
    unfold removeCard at ih ⊢
    rw [List.map_cons, allCards_cons, allCards_cons, List.filter_append, ih]

theorem perm_allCards_modify (card : Card) (cs : List Container) (b : Nat)
    (hb : b < cs.length) :
    (allCards (cs.modify (fun c => { c with cards := c.cards ++ [card] }) b)).Perm
      (allCards cs ++ [card]) := by
  induction cs generalizing b with
  | nil => simp at hb
  | cons c t ih =>
    cases b with
    | zero =>
      rw [List.modify_zero_cons, allCards_cons, allCards_cons]
      simp only [List.append_assoc]
      exact List.Perm.append_left _ List.perm_append_comm
    | succ n =>
      rw [List.modify_succ_cons, allCards_cons, allCards_cons, List.append_assoc]
      exact List.Perm.append_left _ (ih n (by simpa using hb))

theorem perm_filter_key (l : List Card) (card : Card) (hn : (l.map Card.key).Nodup)
    (hc : card ∈ l) :
    (l.filter (fun k => k.key != card.key) ++ [card]).Perm l := by
  induction l with
  | nil => simp at hc
  | cons k t ih =>
    simp only [List.map_cons, List.nodup_cons] at hn
    by_cases hk : k.key = card.key
    · have hck : card = k := by
        rcases List.mem_cons.1 hc with h | h
        · exact h
        · exact absurd (by rw [hk]; exact List.mem_map_of_mem _ h) hn.1
      subst hck
      have hself : t.filter (fun k => k.key != card.key) = t := by
        rw [List.filter_eq_self]
        intro a ha
        have : a.key ≠ card.key := by
          intro e
          exact hn.1 (by rw [← e]; exact List.mem_map_of_mem _ ha)
        simpa using this
      simp only [List.filter_cons, bne_self_eq_false, Bool.false_eq_true, if_false, hself]
      exact List.perm_append_singleton _ _
    · have hct : card ∈ t := by
        rcases List.mem_cons.1 hc with h | h
        · exact absurd (by rw [h]) hk
        · exact h
      have hk1 : (k.key != card.key) = true := by simpa using hk
      simp only [List.filter_cons, hk1, if_true, List.cons_append]
      exact List.Perm.cons _ (ih hn.2 hct)

theorem length_appendChild (cs : List Container) (b x : Nat) :
    (appendChild cs b x).length = cs.length := by
  unfold appendChild
  split
  · rfl
  · simp [removeCard]

theorem sameCards_appendChild {cs : List Container} (hwf : WellFormed cs) {b : Nat}
    (hb : b < cs.length) (x : Nat) : SameCards (appendChild cs b x) cs := by
  refine ⟨length_appendChild cs b x, ?_⟩
  cases h : findCard cs x with
  | none => simp [appendChild, h]
  | some card =>
    have hkey := findCard_key h
    have hmem : card ∈ allCards cs := List.mem_of_find?_eq_some h
    have hperm : (allCards (appendChild cs b x)).Perm (allCards cs) := by
      simp only [appendChild, h]
      refine (perm_allCards_modify card (removeCard cs x) b (by simpa [removeCard] using hb)).trans ?_
      rw [allCards_removeCard, ← hkey]
      exact perm_filter_key _ card hwf hmem
    exact hperm.map _

theorem wellFormed_of_sameCards {cs1 cs : List Container} (h : SameCards cs1 cs)
    (hwf : WellFormed cs) : WellFormed cs1 := by
  have e : ∀ l : List Container, (allCards l).map Card.key = (identities l).map Prod.fst := by
    intro l
    simp [identities, List.map_map, Function.comp]
  unfold WellFormed at hwf ⊢
  rw [e] at hwf ⊢
  exact ((h.2.map Prod.fst).nodup_iff).2 hwf

theorem sessionValid_of_sameCards {s1 s : State} (hv : SessionValid s)
    (h : SameCards s1.containers s.containers) (ho : s1.originalStage = s.originalStage) :
    SessionValid s1 := by
  refine ⟨wellFormed_of_sameCards h hv.1, ?_⟩
  intro a ha
  rw [h.1]
  exact hv.2 a (ho ▸ ha)

theorem sameCards_revert {s : State} (hv : SessionValid s) :
    SameCards (revert s).containers s.containers := by
  unfold revert
  split
  · rename_i a x ho hd
    exact sameCards_appendChild hv.1 (hv.2 a ho) x
  · exact sameCards_refl _

theorem sameCards_onError {s : State} (hv : SessionValid s) (t : Nat) (m : String) :
    SameCards (onError s t m).containers s.containers := by
  unfold onError
  have hc : (showToast (hideToast s t) ("Error: " ++ m) "error").1.containers =
      s.containers := by
    rw [showToast_containers]; rfl
  have ho : (showToast (hideToast s t) ("Error: " ++ m) "error").1.originalStage =
      s.originalStage := by
    rw [(showToast_session _ _ _).2]; rfl
  have hv1 : SessionValid (showToast (hideToast s t) ("Error: " ++ m) "error").1 :=
    sessionValid_of_sameCards hv (by rw [hc]; exact sameCards_refl _) ho
  have := sameCards_revert hv1
  rw [hc] at this
  exact this

theorem updateStageCountsLoop_cards (cs : List Container) :
    (updateStageCountsLoop cs).1.map Container.cards = cs.map Container.cards := by
  induction cs with
  | nil => rfl
  | cons c t ih =>
    unfold updateStageCountsLoop
    cases hh : c.header with
    | none => rfl
    | some hd =>
      cases hb : hd.badge with
      | none => simp [hb, ih]
      | some txt => simp [hb, ih, writeBadge]

theorem sameCards_onData {s : State} (hv : SessionValid s) (t : Nat) (ok : Bool)
    (m : Option String) : SameCards (onData s t ok m).containers s.containers := by
  cases ok with
  | false => rw [onData_false]; exact sameCards_onError hv _ _
  | true =>
    have hc : (showToast (hideToast s t) "Deal moved successfully!" "success").1.containers =
        s.containers := by
      rw [showToast_containers]; rfl
    have ho : (showToast (hideToast s t) "Deal moved successfully!" "success").1.originalStage =
        s.originalStage := by
      rw [(showToast_session _ _ _).2]; rfl
    have hsame : SameCards (updateStageCounts
        (showToast (hideToast s t) "Deal moved successfully!" "success").1).1.containers
        s.containers := by
      apply sameCards_of_cards
      simp only [updateStageCounts]
      rw [updateStageCountsLoop_cards, hc]
    have hv1 : SessionValid (updateStageCounts
        (showToast (hideToast s t) "Deal moved successfully!" "success").1).1 :=
      sessionValid_of_sameCards hv hsame ho
    unfold onData
    simp only [if_true]
    split
    · exact sameCards_trans (sameCards_onError hv1 _ _) hsame
    · exact hsame

theorem sameCards_settle {s : State} (hv : SessionValid s) (i : Nat) (o : Settlement) :
    SameCards (settle s i o).containers s.containers := by
  cases hr : s.requests[i]? with
  | none => simp only [settle, hr]; exact sameCards_refl _
  | some r =>
    cases hs : r.settled with
    | true => simp only [settle, hr, hs, if_true]; exact sameCards_refl _
    | false =>
      rw [settle_pending hr hs]
      have hv1 : SessionValid
          { s with requests := s.requests.modify (fun q => { q with settled := true }) i } := hv
      cases o with
      | rejected m => exact sameCards_onError hv1 _ _
      | response st body =>
        cases body with
        | invalid m => exact sameCards_onError hv1 _ _
        | json ok msg => exact sameCards_onData hv1 _ _ _

theorem sameCards_handleDrop {s : State} (hv : SessionValid s) (b : Nat) :
    SameCards (handleDrop s b).containers s.containers := by
  have hclear : SameCards (removeDragOver s b).containers s.containers :=
    sameCards_of_cards (map_cards_modify_dragOver _ _ _)
  cases hd : s.draggedDeal with
  | none => rw [handleDrop_no_session hd]; exact hclear
  | some y =>
    by_cases ho : s.originalStage = some b
    · rw [handleDrop_self ho]; exact hclear
    · cases hb : s.containers[b]? with
      | none => simp only [handleDrop, hb]; exact sameCards_refl _
      | some target =>
        rw [handleDrop_move_containers hb hd ho]
        have hlt : b < s.containers.length := (List.getElem?_eq_some_iff.1 hb).1
        refine sameCards_trans (sameCards_appendChild (wellFormed_of_sameCards hclear hv.1)
          (by simpa [removeDragOver] using hlt) y) hclear

theorem sameCards_fireTimer (s : State) (i : Nat) :
    SameCards (fireTimer s i).containers s.containers := by
  unfold fireTimer
  split
  · exact sameCards_refl _
  · split
    · exact sameCards_refl _
    · unfold runCallback
      split
      · rename_i x _
        exact sameCards_of_identity _
          (fun k => if k.key = x then { k with dragging := true } else k)
          (fun c => rfl) (fun k => by by_cases hk : k.key = x <;> simp [hk]) _
      · exact sameCards_refl _
      · exact sameCards_refl _

theorem handleDrop_originalStage (s : State) (b : Nat) :
    (handleDrop s b).originalStage = s.originalStage := by
  cases hd : s.draggedDeal with
  | none => rw [handleDrop_no_session hd]; rfl
  | some y =>
    by_cases ho : s.originalStage = some b
    · rw [handleDrop_self ho]; rfl
    · cases hb : s.containers[b]? with
      | none => simp [handleDrop, hb]
      | some target =>
        rw [handleDrop_move hb hd ho]
        exact (updateDealStage_session _ _ _).2

theorem step_valid {s : State} (hv : SessionValid s) (e : Event) :
    SessionValid (step s e) ∧ SameCards (step s e).containers s.containers := by
  cases e with
  | dragStart x =>
    show SessionValid (handleDragStart s x) ∧ SameCards (handleDragStart s x).containers _
    cases h : findCard s.containers x with
    | none =>
      have : handleDragStart s x = s := by simp [handleDragStart, h]
      rw [this]; exact ⟨hv, sameCards_refl _⟩
    | some card =>
      rw [handleDragStart_of_findCard h]
      refine ⟨⟨hv.1, ?_⟩, sameCards_refl _⟩
      intro a ha
      obtain ⟨c, hc, _⟩ := parentNode_some ha
      exact (List.getElem?_eq_some_iff.1 hc).1
  | dragEnd x =>
    have hsame : SameCards (handleDragEnd s x).containers s.containers :=
      sameCards_of_identity _
        (fun k => if k.key = x then { k with dragging := false } else k)
        (fun c => rfl) (fun k => by by_cases hk : k.key = x <;> simp [hk]) _
    refine ⟨⟨wellFormed_of_sameCards hsame hv.1, ?_⟩, hsame⟩
    intro a ha
    simp [step, handleDragEnd] at ha
  | dragOver c => exact ⟨hv, sameCards_refl _⟩
  | dragEnter c =>
    have hsame : SameCards (handleDragEnter s c).containers s.containers :=
      sameCards_of_cards (map_cards_modify_dragOver _ _ _)
    exact ⟨sessionValid_of_sameCards hv hsame rfl, hsame⟩
  | dragLeave c =>
    have hsame : SameCards (handleDragLeave s c).containers s.containers :=
      sameCards_of_cards (map_cards_modify_dragOver _ _ _)
    exact ⟨sessionValid_of_sameCards hv hsame rfl, hsame⟩
  | drop c =>
    have hsame := sameCards_handleDrop hv c
    exact ⟨sessionValid_of_sameCards hv hsame (handleDrop_originalStage s c), hsame⟩
  | settle i o =>
    have hsame := sameCards_settle hv i o
    exact ⟨sessionValid_of_sameCards hv hsame (settle_session s i o).2, hsame⟩
  | timer i =>
    have hsame := sameCards_fireTimer s i
    exact ⟨sessionValid_of_sameCards hv hsame (fireTimer_session s i).2, hsame⟩

theorem run_valid {s : State} (hv : SessionValid s) (es : List Event) :
    SessionValid (run s es) ∧ SameCards (run s es).containers s.containers := by
  induction es generalizing s with
  | nil => exact ⟨hv, sameCards_refl _⟩
  | cons e t ih =>
    have h1 := step_valid hv e
    have h2 := ih h1.1
    simp only [run, List.foldl_cons] at h2 ⊢
    exact ⟨h2.1, sameCards_trans h2.2 h1.2⟩

theorem parentNode_of_mem {cs : List Container} {x : Nat}
    (h : ∃ c ∈ cs, ∃ k ∈ c.cards, k.key = x) : ∃ a, parentNode cs x = some a := by
  induction cs with
  | nil => simp at h
  | cons c t ih =>
    unfold parentNode
    by_cases hc : c.cards.any (fun k => k.key == x) = true
    · exact ⟨0, by rw [if_pos hc]⟩
    · rw [if_neg hc]
      obtain ⟨c1, hc1, k, hk, hkx⟩ := h
      rcases List.mem_cons.1 hc1 with e | e
      · subst e
        exact absurd (by simpa using ⟨k, hk, hkx⟩) hc
      · obtain ⟨a, ha⟩ := ih ⟨c1, e, k, hk, hkx⟩
        exact ⟨a + 1, by rw [ha]; rfl⟩

/-- C14: from a board of distinct cards with `originalStage` `null`, as at page load, after
any sequence of drag, drop, response and timer events the cards are still distinct, the
containers are as many, the card elements of the board are the same ones (none created,
none destroyed), and every card is a child of exactly one stage container. -/
theorem containment_invariant (s : State) (es : List Event) (hwf : WellFormed s.containers)
    (h0 : s.originalStage = none) :
    WellFormed (run s es).containers ∧
    (run s es).containers.length = s.containers.length ∧
    (identities (run s es).containers).Perm (identities s.containers) ∧
    ∀ k ∈ allCards s.containers, ∃ a, parentNode (run s es).containers k.key = some a ∧
      ∀ i c, (run s es).containers[i]? = some c → (∃ k1 ∈ c.cards, k1.key = k.key) →
        i = a := by
  have hv : SessionValid s := ⟨hwf, fun a ha => by rw [h0] at ha; exact absurd ha (by simp)⟩
  obtain ⟨hv1, hsame⟩ := run_valid hv es
  refine ⟨hv1.1, hsame.1, hsame.2, ?_⟩
  intro k hk
  have hmem : (k.key, k.dealId) ∈ identities (run s es).containers :=
    hsame.2.symm.subset (List.mem_map_of_mem _ hk)
  obtain ⟨k1, hk1, e1⟩ := List.mem_map.1 hmem
  obtain ⟨c1, hc1, hkc1⟩ := mem_allCards.1 hk1
  have hkey : k1.key = k.key := congrArg Prod.fst e1
  obtain ⟨a, ha⟩ := parentNode_of_mem ⟨c1, hc1, k1, hkc1, hkey⟩
  refine ⟨a, ha, ?_⟩
  intro i c hi hex
  obtain ⟨ca, hca, k2, hk2, e2⟩ := parentNode_some ha
  obtain ⟨k3, hk3, e3⟩ := hex
  exact wellFormed_unique hv1.1 hi hca hk3 hk2 (e3.trans e2.symm)

/-- The example board after a rejected move of card 2 and a second drag of card 4. -/
theorem containment_invariant_witness :
    WellFormed (run exampleBoard [.dragStart 2, .drop 1, .dragEnd 2,
      .settle 0 (.rejected "x"), .dragStart 4, .drop 0]).containers ∧
    (run exampleBoard [.dragStart 2, .drop 1, .dragEnd 2,
      .settle 0 (.rejected "x"), .dragStart 4, .drop 0]).containers.length =
      exampleBoard.containers.length ∧
    (identities (run exampleBoard [.dragStart 2, .drop 1, .dragEnd 2,
      .settle 0 (.rejected "x"), .dragStart 4, .drop 0]).containers).Perm
      (identities exampleBoard.containers) ∧
    ∀ k ∈ allCards exampleBoard.containers, ∃ a,
      parentNode (run exampleBoard [.dragStart 2, .drop 1, .dragEnd 2,
        .settle 0 (.rejected "x"), .dragStart 4, .drop 0]).containers k.key = some a ∧
      ∀ i c, (run exampleBoard [.dragStart 2, .drop 1, .dragEnd 2,
        .settle 0 (.rejected "x"), .dragStart 4, .drop 0]).containers[i]? = some c →
        (∃ k1 ∈ c.cards, k1.key = k.key) → i = a :=
  containment_invariant exampleBoard
    [.dragStart 2, .drop 1, .dragEnd 2, .settle 0 (.rejected "x"), .dragStart 4, .drop 0]
    (by decide) rfl

/-! ## The revert reads the session at response time -/

theorem revert_containers_congr {s1 s : State} (hc : s1.containers = s.containers)
    (ho : s1.originalStage = s.originalStage) (hd : s1.draggedDeal = s.draggedDeal) :
    (revert s1).containers = (revert s).containers := by
  unfold revert
  rw [ho, hd]
  cases s.originalStage <;> cases s.draggedDeal <;> simp [hc]

theorem onError_containers (s : State) (t : Nat) (m : String) :
    (onError s t m).containers = (revert s).containers := by
  show (revert (showToast (hideToast s t) ("Error: " ++ m) "error").1).containers = _
  apply revert_containers_congr
  · rw [showToast_containers]; rfl
  · rw [(showToast_session _ _ _).2]; rfl
  · rw [(showToast_session _ _ _).1]; rfl

theorem settle_failure_containers {s : State} {i : Nat} {r : Request} {o : Settlement}
    (hr : s.requests[i]? = some r) (hs : r.settled = false)
    (ho : (Event.settle i o).isSuccess = false) :
    (settle s i o).containers = (revert s).containers := by
  rw [settle_pending hr hs]
  cases o with
  | rejected m =>
    exact (onError_containers _ _ _).trans (revert_containers_congr rfl rfl rfl)
  | response st body =>
    cases body with
    | invalid m =>
      exact (onError_containers _ _ _).trans (revert_containers_congr rfl rfl rfl)
    | json ok msg =>
      cases ok with
      | true => simp [Event.isSuccess] at ho
      | false =>
        simp only [onData_false]
        exact (onError_containers _ _ _).trans (revert_containers_congr rfl rfl rfl)

/-- C22: when a failure (a `success: false` response, a rejection or an unreadable body) of
a pending request is handled while `draggedDeal` is the card `x` and `originalStage` the
container `a`, the card becomes the last child of `a` and no other container holds it; when
`draggedDeal` or `originalStage` is `null`, the containers are left as they were. -/
theorem revert_while_session_set (s : State) (i : Nat) (r : Request) (o : Settlement)
    (hr : s.requests[i]? = some r) (hs : r.settled = false)
    (ho : (Event.settle i o).isSuccess = false) :
    (∀ x a card, s.draggedDeal = some x → s.originalStage = some a →
      findCard s.containers x = some card → a < s.containers.length →
      (∃ c, (settle s i o).containers[a]? = some c ∧ c.cards.getLast? = some card) ∧
      ∀ j c, j ≠ a → (settle s i o).containers[j]? = some c → ∀ k ∈ c.cards, k.key ≠ x) ∧
    ((s.draggedDeal = none ∨ s.originalStage = none) →
      (settle s i o).containers = s.containers) := by
  rw [settle_failure_containers hr hs ho]
  refine ⟨?_, ?_⟩
  · intro x a card hd hst hx ha
    have hrev : (revert s).containers = appendChild s.containers a x := by
      simp [revert, hd, hst]
    rw [hrev]
    obtain ⟨A, hA⟩ : ∃ A, s.containers[a]? = some A :=
      ⟨s.containers[a], List.getElem?_eq_getElem ha⟩
    refine ⟨⟨_, by rw [getElem?_appendChild hx, hA]; rfl, by simp⟩, ?_⟩
    intro j c hj hc k hk
    rw [getElem?_appendChild hx] at hc
    cases hJ : s.containers[j]? with
    | none => simp [hJ] at hc
    | some J =>
      have haj : ¬ a = j := fun e => hj e.symm
      simp only [hJ, Option.map_some', haj, if_false, Option.some.injEq] at hc
      subst hc
      simp only [List.mem_filter] at hk
      simpa using hk.2
  · intro h
    rcases h with h | h
    · simp [revert, h]
    · simp [revert, h]

/-- On the example board card 2 has been dropped on `stage-20` and the request is rejected
while the session still holds the card and `stage-10`. -/
theorem revert_while_session_set_witness :
    (∀ x a card, (run exampleBoard [.dragStart 2, .drop 1]).draggedDeal = some x →
      (run exampleBoard [.dragStart 2, .drop 1]).originalStage = some a →
      findCard (run exampleBoard [.dragStart 2, .drop 1]).containers x = some card →
      a < (run exampleBoard [.dragStart 2, .drop 1]).containers.length →
      (∃ c, (settle (run exampleBoard [.dragStart 2, .drop 1]) 0
          (.rejected "x")).containers[a]? = some c ∧ c.cards.getLast? = some card) ∧
      ∀ j c, j ≠ a → (settle (run exampleBoard [.dragStart 2, .drop 1]) 0
          (.rejected "x")).containers[j]? = some c → ∀ k ∈ c.cards, k.key ≠ x) ∧
    (((run exampleBoard [.dragStart 2, .drop 1]).draggedDeal = none ∨
      (run exampleBoard [.dragStart 2, .drop 1]).originalStage = none) →
      (settle (run exampleBoard [.dragStart 2, .drop 1]) 0 (.rejected "x")).containers =
        (run exampleBoard [.dragStart 2, .drop 1]).containers) :=
  revert_while_session_set (run exampleBoard [.dragStart 2, .drop 1]) 0
    (stageChangeRequest "42" "20" 0) (.rejected "x") (by decide) (by decide) rfl

/-- C28: on the example board card 2 is dropped on `stage-20` and `handleDragEnd` runs;
card 1, the first card of `stage-10`, is then being dragged when the request of card 2 is
rejected. Card 2 stays in `stage-20` and card 1, whose drop did not fail, is moved behind
card 3. -/
theorem failure_moves_other_card :
    containment (run exampleBoard
      [.dragStart 2, .drop 1, .dragEnd 2, .dragStart 1]).containers = [[1, 3], [4, 2]] ∧
    containment (run exampleBoard
      [.dragStart 2, .drop 1, .dragEnd 2, .dragStart 1,
       .settle 0 (.rejected "Failed to fetch")]).containers = [[3, 1], [4, 2]] := by
  decide

end Pipeline

namespace Scripts

/-! ## Replacing the placeholders of a template -/

theorem getSubstitution_plain (m b a : List Char) (rep : List Char) (h : dollar ∉ rep) :
    getSubstitution m b a rep = rep := by
  induction rep with
  | nil => rfl
  | cons c t ih =>
    have hc : ¬ c = dollar := fun e => h (by rw [e]; exact List.mem_cons_self _ _)
    have ht : dollar ∉ t := fun e => h (List.mem_cons_of_mem _ e)
    cases t with
    | nil => rfl
    | cons d r =>
      rw [getSubstitution, if_neg hc, ih ht]

theorem replaceAllFrom_skip (pat rep : List Char) (m r b : List Char) :
    replaceAllFrom pat rep b m.length (m ++ r) = replaceAllFrom pat rep (b ++ m) 0 r := by
  induction m generalizing b with
  | nil => simp
  | cons c t ih =>
    rw [List.length_cons, List.cons_append, replaceAllFrom, ih]
    simp

theorem replaceAllFrom_text (ptail rep : List Char) (l r b : List Char) (hl : lbrace ∉ l) :
    replaceAllFrom (lbrace :: ptail) rep b 0 (l ++ r) =
      l ++ replaceAllFrom (lbrace :: ptail) rep (b ++ l) 0 r := by
  induction l generalizing b with
  | nil => simp
  | cons c t ih =>
    have hc : ¬ lbrace = c := fun e => hl (by rw [e]; exact List.mem_cons_self _ _)
    have ht : lbrace ∉ t := fun e => hl (List.mem_cons_of_mem _ e)
    have hp : (lbrace :: ptail).isPrefixOf (c :: (t ++ r)) = false := by
      simp [List.isPrefixOf, hc]
    rw [List.cons_append, replaceAllFrom, hp, ih _ ht]
    simp

theorem replaceAllFrom_match (ptail rep : List Char) (r b : List Char) (hrep : dollar ∉ rep) :
    replaceAllFrom (lbrace :: ptail) rep b 0 ((lbrace :: ptail) ++ r) =
      rep ++ replaceAllFrom (lbrace :: ptail) rep (b ++ (lbrace :: ptail)) 0 r := by
  have hp : (lbrace :: ptail).isPrefixOf (lbrace :: (ptail ++ r)) = true := by
    rw [← List.cons_append]; simp
  rw [List.cons_append, replaceAllFrom, if_pos hp, getSubstitution_plain _ _ _ _ hrep]
  have hlen : (lbrace :: ptail).length - 1 = ptail.length := by simp
  rw [hlen, replaceAllFrom_skip]
  simp

theorem names_eq_of_isPrefixOf (n1 n2 r : List Char) (h1 : rbrace ∉ n1) (h2 : rbrace ∉ n2)
    (h : (n1 ++ [rbrace]).isPrefixOf (n2 ++ rbrace :: r) = true) : n1 = n2 := by
  induction n1 generalizing n2 with
  | nil =>
    cases n2 with
    | nil => rfl
    | cons c t =>
      simp only [List.nil_append, List.cons_append, List.isPrefixOf, Bool.and_eq_true,
        beq_iff_eq] at h
      exact absurd (by rw [h.1]; exact List.mem_cons_self _ _) h2
  | cons a t1 ih =>
    cases n2 with
    | nil =>
      simp only [List.nil_append, List.cons_append, List.isPrefixOf, Bool.and_eq_true,
        beq_iff_eq] at h
      exact absurd (by rw [← h.1]; exact List.mem_cons_self _ _) h1
    | cons c t2 =>
      simp only [List.cons_append, List.isPrefixOf, Bool.and_eq_true, beq_iff_eq] at h
      rw [h.1, ih t2 (fun e => h1 (List.mem_cons_of_mem _ e))
        (fun e => h2 (List.mem_cons_of_mem _ e)) h.2]

theorem replaceAllFrom_other (n1 n2 rep r b : List Char) (h1 : rbrace ∉ n1) (h2 : rbrace ∉ n2)
    (hl : lbrace ∉ n2) (hne : n1 ≠ n2) :
    replaceAllFrom (lbrace :: (n1 ++ [rbrace])) rep b 0 ((lbrace :: (n2 ++ [rbrace])) ++ r) =
      (lbrace :: (n2 ++ [rbrace])) ++
        replaceAllFrom (lbrace :: (n1 ++ [rbrace])) rep (b ++ (lbrace :: (n2 ++ [rbrace]))) 0
          r := by
  have hp : (lbrace :: (n1 ++ [rbrace])).isPrefixOf (lbrace :: ((n2 ++ [rbrace]) ++ r))
      = false := by
    cases hq : (lbrace :: (n1 ++ [rbrace])).isPrefixOf (lbrace :: ((n2 ++ [rbrace]) ++ r)) with
    | false => rfl
    | true =>
      simp only [List.isPrefixOf, Bool.and_eq_true, beq_iff_eq, List.append_assoc,
        List.singleton_append] at hq
      exact absurd (names_eq_of_isPrefixOf n1 n2 r h1 h2 hq.2) hne
  have hl2 : lbrace ∉ n2 ++ [rbrace] := by
    intro e
    rcases List.mem_append.1 e with e1 | e1
    · exact hl e1
    · have : lbrace = rbrace := by simpa using e1
      exact absurd this (by decide)
  rw [List.cons_append, replaceAllFrom, hp, replaceAllFrom_text _ _ _ _ _ hl2]
  simp

theorem name_chars (p : Placeholder) : lbrace ∉ p.name.data ∧ rbrace ∉ p.name.data := by
  cases p <;> decide

theorem name_injective (p q : Placeholder) (h : p.name.data = q.name.data) : p = q := by
  cases p <;> cases q <;> first | rfl | exact absurd h (by decide)

theorem templateOf_text (s : String) (rest : List Segment) :
    (templateOf (.text s :: rest)).data = s.data ++ (templateOf rest).data := by
  rw [templateOf, String.data_append]

theorem templateOf_placeholder (p : Placeholder) (rest : List Segment) :
    (templateOf (.placeholder p :: rest)).data =
      (lbrace :: (p.name.data ++ [rbrace])) ++ (templateOf rest).data := by
  rw [templateOf, String.data_append]
  rfl

theorem replaceAllFrom_template (p : Placeholder) (v : String) (hv : dollar ∉ v.data)
    (segs : List Segment) (hsegs : ∀ s, Segment.text s ∈ segs → lbrace ∉ s.data)
    (b : List Char) :
    replaceAllFrom p.token.data v.data b 0 (templateOf segs).data =
      (templateOf (segs.map (substSegment p v))).data := by
  induction segs generalizing b with
  | nil => rfl
  | cons seg rest ih =>
    have hrest : ∀ s, Segment.text s ∈ rest → lbrace ∉ s.data :=
      fun s hs => hsegs s (List.mem_cons_of_mem _ hs)
    cases seg with
    | text s =>
      have hs : lbrace ∉ s.data := hsegs s (List.mem_cons_self _ _)
      rw [List.map_cons, substSegment, templateOf_text, templateOf_text]
      show replaceAllFrom (lbrace :: (p.name.data ++ [rbrace])) v.data b 0 _ = _
      rw [replaceAllFrom_text _ _ _ _ _ hs]
      exact congrArg _ (ih hrest _)
    | placeholder q =>
      rw [List.map_cons, templateOf_placeholder]
      show replaceAllFrom (lbrace :: (p.name.data ++ [rbrace])) v.data b 0 _ = _
      by_cases hq : q = p
      · subst hq
        rw [substSegment, if_pos rfl, templateOf_text, replaceAllFrom_match _ _ _ _ hv]
        exact congrArg _ (ih hrest _)
      · have hne : p.name.data ≠ q.name.data := fun e => hq (name_injective p q e).symm
        rw [substSegment, if_neg hq, templateOf_placeholder,
          replaceAllFrom_other _ _ _ _ _ (name_chars p).2 (name_chars q).2 (name_chars q).1 hne]
        exact congrArg _ (ih hrest _)

theorem jsReplaceAll_template (p : Placeholder) (v : String) (hv : dollar ∉ v.data)
    (segs : List Segment) (hsegs : ∀ s, Segment.text s ∈ segs → lbrace ∉ s.data) :
    jsReplaceAll (templateOf segs) p.token v = templateOf (segs.map (substSegment p v)) := by
  unfold jsReplaceAll
  rw [replaceAllFrom_template p v hv segs hsegs]

theorem texts_substSegment (p : Placeholder) (v : String) (hv : lbrace ∉ v.data)
    (segs : List Segment) (hsegs : ∀ s, Segment.text s ∈ segs → lbrace ∉ s.data) :
    ∀ s, Segment.text s ∈ segs.map (substSegment p v) → lbrace ∉ s.data := by
  intro s hs
  obtain ⟨seg, hseg, e⟩ := List.mem_map.1 hs
  cases seg with
  | text s0 =>
    simp only [substSegment, Segment.text.injEq] at e
    subst e
    exact hsegs _ hseg
  | placeholder q =>
    by_cases hq : q = p
    · simp only [substSegment, hq, if_true, Segment.text.injEq] at e
      subst e
      exact hv
    · simp [substSegment, hq] at e

theorem orEmpty_chars (data : LeadData)
    (hdata : ∀ p v, data.field p = some v → lbrace ∉ v.data ∧ dollar ∉ v.data)
    (p : Placeholder) :
    lbrace ∉ (orEmpty (data.field p)).data ∧ dollar ∉ (orEmpty (data.field p)).data := by
  cases h : data.field p with
  | none => simp [orEmpty]
  | some v => exact hdata p v h

theorem orEmpty_eq_getD (value : Option String) : orEmpty value = value.getD "" := by
  cases value <;> rfl

theorem templateOf_map_filled (data : LeadData) (F : Segment → Segment)
    (htext : ∀ s, F (.text s) = .text s)
    (hph : ∀ q, F (.placeholder q) = .text (orEmpty (data.field q)))
    (segs : List Segment) : templateOf (segs.map F) = filled data segs := by
  induction segs with
  | nil => rfl
  | cons seg rest ih =>
    rw [List.map_cons]
    cases seg with
    | text s => rw [htext, templateOf, filled, ih]
    | placeholder q => rw [hph, templateOf, filled, ih, orEmpty_eq_getD]

/-- C19: for a template made of literal texts without an opening brace and of placeholder
tokens, and data whose values contain neither an opening brace nor a dollar sign,
`processTemplate` returns the template with every token replaced by the field of the
data, by the empty string for a missing or empty field, and the literal texts as they
were. -/
theorem processTemplate_fills (segs : List Segment) (data : LeadData)
    (htext : ∀ s, Segment.text s ∈ segs → lbrace ∉ s.data)
    (hdata : ∀ p v, data.field p = some v → lbrace ∉ v.data ∧ dollar ∉ v.data) :
    processTemplate (templateOf segs) data = filled data segs := by
  have hv := orEmpty_chars data hdata
  have e1 : "\x7bfirst_name\x7d" = Placeholder.token .first_name := by decide
  have e2 : "\x7blast_name\x7d" = Placeholder.token .last_name := by decide
  have e3 : "\x7bemail\x7d" = Placeholder.token .email := by decide
  have e4 : "\x7bphone\x7d" = Placeholder.token .phone := by decide
  have e5 : "\x7bagent_name\x7d" = Placeholder.token .agent_name := by decide
  have e6 : "\x7bdealership_name\x7d" = Placeholder.token .dealership_name := by decide
  have e7 : "\x7bdealership_phone\x7d" = Placeholder.token .dealership_phone := by decide
  have e8 : "\x7bdealership_address\x7d" = Placeholder.token .dealership_address := by decide
  have e9 : "\x7bappointment_date\x7d" = Placeholder.token .appointment_date := by decide
  have e10 : "\x7bappointment_time\x7d" = Placeholder.token .appointment_time := by decide
  have e11 : "\x7bvehicle\x7d" = Placeholder.token .vehicle := by decide
  have h1 := texts_substSegment .first_name _ (hv .first_name).1 _ htext
  have h2 := texts_substSegment .last_name _ (hv .last_name).1 _ h1
  have h3 := texts_substSegment .email _ (hv .email).1 _ h2
  have h4 := texts_substSegment .phone _ (hv .phone).1 _ h3
  have h5 := texts_substSegment .agent_name _ (hv .agent_name).1 _ h4
  have h6 := texts_substSegment .dealership_name _ (hv .dealership_name).1 _ h5
  have h7 := texts_substSegment .dealership_phone _ (hv .dealership_phone).1 _ h6
  have h8 := texts_substSegment .dealership_address _ (hv .dealership_address).1 _ h7
  have h9 := texts_substSegment .appointment_date _ (hv .appointment_date).1 _ h8
  have h10 := texts_substSegment .appointment_time _ (hv .appointment_time).1 _ h9
  unfold processTemplate
  rw [e1, e2, e3, e4, e5, e6, e7, e8, e9, e10, e11]
  rw [show jsReplaceAll (templateOf _) Placeholder.first_name.token (orEmpty data.firstName) = _ from
    jsReplaceAll_template .first_name _ (hv .first_name).2 _ htext]
  rw [show jsReplaceAll (templateOf _) Placeholder.last_name.token (orEmpty data.lastName) = _ from
    jsReplaceAll_template .last_name _ (hv .last_name).2 _ h1]
  rw [show jsReplaceAll (templateOf _) Placeholder.email.token (orEmpty data.email) = _ from
    jsReplaceAll_template .email _ (hv .email).2 _ h2]
  rw [show jsReplaceAll (templateOf _) Placeholder.phone.token (orEmpty data.phone) = _ from
    jsReplaceAll_template .phone _ (hv .phone).2 _ h3]
  rw [show jsReplaceAll (templateOf _) Placeholder.agent_name.token (orEmpty data.agentName) = _ from
    jsReplaceAll_template .agent_name _ (hv .agent_name).2 _ h4]
  rw [show jsReplaceAll (templateOf _) Placeholder.dealership_name.token (orEmpty data.dealershipName) = _ from
    jsReplaceAll_template .dealership_name _ (hv .dealership_name).2 _ h5]
  rw [show jsReplaceAll (templateOf _) Placeholder.dealership_phone.token (orEmpty data.dealershipPhone) = _ from
    jsReplaceAll_template .dealership_phone _ (hv .dealership_phone).2 _ h6]
  rw [show jsReplaceAll (templateOf _) Placeholder.dealership_address.token (orEmpty data.dealershipAddress) = _ from
    jsReplaceAll_template .dealership_address _ (hv .dealership_address).2 _ h7]
  rw [show jsReplaceAll (templateOf _) Placeholder.appointment_date.token (orEmpty data.appointmentDate) = _ from
    jsReplaceAll_template .appointment_date _ (hv .appointment_date).2 _ h8]
  rw [show jsReplaceAll (templateOf _) Placeholder.appointment_time.token (orEmpty data.appointmentTime) = _ from
    jsReplaceAll_template .appointment_time _ (hv .appointment_time).2 _ h9]
  rw [show jsReplaceAll (templateOf _) Placeholder.vehicle.token (orEmpty data.vehicle) = _ from
    jsReplaceAll_template .vehicle _ (hv .vehicle).2 _ h10]
  simp only [List.map_map]
  apply templateOf_map_filled data
  · intro s; rfl
  · intro q; cases q <;> rfl

/-- A template with three tokens, one of them twice, filled with the example lead, whose
phone is missing: the name and the vehicle are put in, the phone token disappears, and the
closing brace, the dollar sign and the ampersand of the literal text stay. -/
theorem processTemplate_fills_witness :
    processTemplate
      "Hi \x7bfirst_name\x7d, your \x7bvehicle\x7d \x7d $& \x7bphone\x7d\x7bfirst_name\x7d"
      exampleLead =
    "Hi Ann, your Civic \x7d $& Ann" :=
  processTemplate_fills
    [.text "Hi ", .placeholder .first_name, .text ", your ",
      .placeholder .vehicle, .text " \x7d $& ", .placeholder .phone,
      .placeholder .first_name] exampleLead
    (by
      intro s hs
      simp only [List.mem_cons, Segment.text.injEq, reduceCtorEq, List.mem_singleton,
        List.not_mem_nil, or_false, false_or] at hs
      rcases hs with rfl | rfl | rfl <;> decide)
    (by
      intro p v h
      cases p <;> simp only [exampleLead, LeadData.field, Option.some.injEq,
        reduceCtorEq] at h <;> subst h <;> decide)

end Scripts

namespace CreateEditPipeline

/-! ## Validation of the pipeline form -/

theorem checkInput_eq (i : TextInput) :
    checkInput i = ⟨i.value, decide (trim i.value = "")⟩ := by
  unfold checkInput
  by_cases h : trim i.value = "" <;> simp [h]

theorem validateStages_eq (l : List StageCard) (v : Bool) :
    validateStages l v =
      (l.map (fun st =>
        { st with stageName := ⟨st.stageName.value, decide (trim st.stageName.value = "")⟩ }),
       v && l.all (fun st => !decide (trim st.stageName.value = ""))) := by
  induction l generalizing v with
  | nil => simp [validateStages]
  | cons st rest ih =>
    rw [validateStages, ih, checkInput_eq]
    by_cases h : trim st.stageName.value = "" <;> simp [h]

theorem any_wonChecked (l : List StageCard) :
    l.any wonChecked = true ↔ ∃ st ∈ l, st.wonRadio = some true := by
  rw [List.any_eq_true]
  constructor
  · rintro ⟨st, hst, hw⟩
    refine ⟨st, hst, ?_⟩
    unfold wonChecked at hw
    cases hr : st.wonRadio with
    | none => simp [hr] at hw
    | some c => simp only [hr] at hw; rw [hw]
  · rintro ⟨st, hst, hw⟩
    exact ⟨st, hst, by simp [wonChecked, hw]⟩

/-- C20: `validatePipelineForm` returns `true` exactly when the trimmed pipeline name is not
empty, there is a visible stage, the trimmed name of every visible stage is not empty and
the `won` radio of some visible stage is checked; after the call a name input, of the
pipeline or of a stage, carries `is-invalid` exactly when its trimmed value is empty, and
its value is as before. -/
theorem validatePipelineForm_spec (f : PipelineForm) :
    ((validatePipelineForm f).2 = true ↔
      trim f.pipelineName.value ≠ "" ∧ f.stages ≠ [] ∧
      (∀ st ∈ f.stages, trim st.stageName.value ≠ "") ∧
      ∃ st ∈ f.stages, st.wonRadio = some true) ∧
    (validatePipelineForm f).1.pipelineName =
      ⟨f.pipelineName.value, decide (trim f.pipelineName.value = "")⟩ ∧
    (validatePipelineForm f).1.stages =
      f.stages.map (fun st =>
        { st with stageName := ⟨st.stageName.value, decide (trim st.stageName.value = "")⟩ }) := by
  have hlen : f.stages.length = 0 ↔ f.stages = [] := List.length_eq_zero
  refine ⟨?_, ?_, ?_⟩
  · rw [← any_wonChecked]
    unfold validatePipelineForm
    simp only [validateStages_eq]
    by_cases hw : f.stages.any wonChecked = true
    · by_cases hs : f.stages = []
      · simp [hw, hs]
      · have hl : ¬ f.stages.length = 0 := fun e => hs (hlen.1 e)
        by_cases hn : trim f.pipelineName.value = ""
        · simp [hw, hs, hl, hn]
        · simp [hw, hs, hl, hn]
    · simp [hw]
  · unfold validatePipelineForm
    simp only [validateStages_eq, checkInput_eq]
    by_cases hw : f.stages.any wonChecked = true <;>
      by_cases hl : f.stages.length = 0 <;> simp [hw, hl]
  · unfold validatePipelineForm
    simp only [validateStages_eq, checkInput_eq]
    by_cases hw : f.stages.any wonChecked = true <;>
      by_cases hl : f.stages.length = 0 <;> simp [hw, hl]

/-- The example form is valid: its name inputs lose `is-invalid` and no alert is shown; without
stages both alerts are shown. -/
theorem validatePipelineForm_example :
    validatePipelineForm exampleForm =
      ({ pipelineName := ⟨" Sales ", false⟩,
         stages := [⟨⟨"Lead", false⟩, some false⟩, ⟨⟨"Closed", false⟩, some true⟩],
         alerts := [] }, true) ∧
    (validatePipelineForm { exampleForm with stages := [] }).2 = false ∧
    (validatePipelineForm { exampleForm with stages := [] }).1.alerts =
      ["You must add at least one stage to the pipeline.",
       "You must designate at least one stage as a \"Won\" stage."] := by
  decide

/-! ## Renumbering the fields of a stage -/

theorem matchesTail_of_no_backslash (l : List Char) (h : backslash ∉ l) :
    matchesTail l = false := by
  match l with
  | [] => rfl
  | [_] => rfl
  | [_, _] => rfl
  | u :: bs :: d :: ds =>
    have hbs : ¬ bs = backslash := fun e => h (by rw [← e]; simp)
    simp [matchesTail, hbs]

theorem renumberChars_of_no_backslash (index l : List Char) (h : backslash ∉ l) :
    renumberChars index l = l := by
  induction l with
  | nil => rfl
  | cons c cs ih =>
    rw [renumberChars, matchesTail_of_no_backslash _ h]
    simp only [Bool.false_eq_true, if_false]
    rw [ih (fun e => h (List.mem_cons_of_mem _ e))]

/-- C23: `updateStageIds` with index 2 on a stage whose fields are named `stage_name_0`,
`stage_type_0` and `stage_index_0` sets the value of the `stage_index_` input to 2 and leaves
every name, id and label target as it was; more generally a text without a backslash, such as
one ending in an underscore and decimal digits, is never changed by the replacement. -/
theorem updateStageIds_keeps_names :
    updateStageIds (exampleStage "0") 2 =
      { exampleStage "0" with
        controls := [⟨"input", "stage_name_0", "stage_name_0", "Lead"⟩,
          ⟨"select", "stage_type_0", "stage_type_0", "normal"⟩,
          ⟨"input", "stage_index_0", "stage_index_0", "2"⟩] } ∧
    renumber "stage_name_0" 2 = "stage_name_0" ∧
    ∀ (text : String) (index : Nat), backslash ∉ text.data → renumber text index = text := by
  refine ⟨by decide, by decide, ?_⟩
  intro text index h
  unfold renumber
  rw [renumberChars_of_no_backslash _ _ h]

/-! ## Removing a stage -/

theorem countP_le_eraseIdx {α : Type} (p : α → Bool) (l : List α) (i : Nat) :
    l.countP p ≤ (l.eraseIdx i).countP p + 1 := by
  induction l generalizing i with
  | nil => simp
  | cons a t ih =>
    cases i with
    | zero =>
      rw [List.eraseIdx_cons_zero, List.countP_cons]
      split <;> omega
    | succ n =>
      rw [List.eraseIdx_cons_succ, List.countP_cons, List.countP_cons]
      have := ih n
      omega

theorem cardShape_forEachStage (f : StageElement → Nat → StageElement)
    (hf : ∀ stage index, (f stage index).id = stage.id ∧ (f stage index).dNone = stage.dNone)
    (cards : List StageElement) (index : Nat) :
    cardShape (forEachStage f cards index) = cardShape cards := by
  induction cards generalizing index with
  | nil => rfl
  | cons stage rest ih =>
    unfold forEachStage
    split
    · simp only [cardShape, List.map_cons, (hf stage index).1, (hf stage index).2]
      exact congrArg _ (ih (index + 1))
    · simp only [cardShape, List.map_cons]
      exact congrArg _ (ih index)

theorem cardShape_updates (cards : List StageElement) :
    cardShape (updateAllStageIds (updateStageNumbers cards)) = cardShape cards := by
  unfold updateAllStageIds updateStageNumbers
  refine (cardShape_forEachStage updateStageIds (fun stage index => ⟨rfl, rfl⟩) _ _).trans ?_
  exact cardShape_forEachStage _
    (fun stage index => by cases h : stage.stageNumber <;> simp) _ _

theorem stageCount_of_cardShape {l1 l2 : List StageElement} (h : cardShape l1 = cardShape l2) :
    (l1.filter isStage).length = (l2.filter isStage).length := by
  have e : ∀ l : List StageElement, (l.filter isStage).length =
      (cardShape l).countP (fun q => !q.2 && q.1 != "stageTemplate") := by
    intro l
    rw [← List.countP_eq_length_filter, cardShape, List.countP_map]
    rfl
  rw [e, e, h]

theorem removeStage_facts (doc : Document) (i : Nat) (confirmed : Bool)
    (h : 1 ≤ (doc.stageCards.filter isStage).length) :
    1 ≤ ((removeStage doc i confirmed).stageCards.filter isStage).length ∧
    ((doc.stageCards.filter isStage).length = 1 →
      (removeStage doc i confirmed).stageCards = doc.stageCards) ∧
    (confirmed = false → (removeStage doc i confirmed).stageCards = doc.stageCards) ∧
    (cardShape (removeStage doc i confirmed).stageCards = cardShape doc.stageCards ∨
      cardShape (removeStage doc i confirmed).stageCards =
        cardShape (doc.stageCards.eraseIdx i)) := by
  by_cases hc : (doc.stageCards.filter isStage).length ≤ 1
  · have e : (removeStage doc i confirmed).stageCards = doc.stageCards := by
      simp [removeStage, hc]
    rw [e]
    exact ⟨h, fun _ => rfl, fun _ => rfl, Or.inl rfl⟩
  · cases confirmed with
    | false =>
      have e : (removeStage doc i false).stageCards = doc.stageCards := by
        simp [removeStage, hc]
      rw [e]
      exact ⟨h, fun _ => rfl, fun _ => rfl, Or.inl rfl⟩
    | true =>
      have e : (removeStage doc i true).stageCards =
          updateAllStageIds (updateStageNumbers (doc.stageCards.eraseIdx i)) := by
        simp [removeStage, hc]
      rw [e]
      have hshape := cardShape_updates (doc.stageCards.eraseIdx i)
      refine ⟨?_, fun e => absurd (by omega) hc, fun e => absurd e (by simp), Or.inr hshape⟩
      rw [stageCount_of_cardShape hshape, ← List.countP_eq_length_filter]
      have := countP_le_eraseIdx isStage doc.stageCards i
      rw [← List.countP_eq_length_filter] at hc
      omega

end CreateEditPipeline

namespace PipelineFormScript

/-! ## Removing a stage -/

theorem cardShape_updateStageIndicesFrom (cards : List StageCard) (index : Nat) :
    cardShape (updateStageIndicesFrom cards index) = cardShape cards := by
  induction cards generalizing index with
  | nil => rfl
  | cons stage rest ih =>
    unfold updateStageIndicesFrom
    split
    · simp only [cardShape, List.map_cons]
      exact congrArg _ (ih (index + 1))
    · simp only [cardShape, List.map_cons]
      exact congrArg _ (ih index)

theorem stageCount_of_form_cardShape {l1 l2 : List StageCard} (h : cardShape l1 = cardShape l2) :
    (l1.filter isStage).length = (l2.filter isStage).length := by
  have e : ∀ l : List StageCard, (l.filter isStage).length =
      (cardShape l).countP (fun q => !q) := by
    intro l
    rw [← List.countP_eq_length_filter, cardShape, List.countP_map]
    rfl
  rw [e, e, h]

theorem removeStage_form_facts (doc : Document) (i : Nat) (confirmed : Bool)
    (h : 1 ≤ (doc.stageCards.filter isStage).length) :
    1 ≤ ((removeStage doc i confirmed).stageCards.filter isStage).length ∧
    ((doc.stageCards.filter isStage).length = 1 →
      (removeStage doc i confirmed).stageCards = doc.stageCards) ∧
    (confirmed = false → (removeStage doc i confirmed).stageCards = doc.stageCards) ∧
    (cardShape (removeStage doc i confirmed).stageCards = cardShape doc.stageCards ∨
      cardShape (removeStage doc i confirmed).stageCards =
        cardShape (doc.stageCards.eraseIdx i)) := by
  by_cases hc : (doc.stageCards.filter isStage).length ≤ 1
  · have e : (removeStage doc i confirmed).stageCards = doc.stageCards := by
      simp [removeStage, hc]
    rw [e]
    exact ⟨h, fun _ => rfl, fun _ => rfl, Or.inl rfl⟩
  · cases confirmed with
    | false =>
      have e : (removeStage doc i false).stageCards = doc.stageCards := by
        simp [removeStage, hc]
      rw [e]
      exact ⟨h, fun _ => rfl, fun _ => rfl, Or.inl rfl⟩
    | true =>
      have e : (removeStage doc i true).stageCards =
          updateStageIndicesFrom (doc.stageCards.eraseIdx i) 0 := by
        simp [removeStage, hc, updateStageIndices]
      rw [e]
      have hshape := cardShape_updateStageIndicesFrom (doc.stageCards.eraseIdx i) 0
      refine ⟨?_, fun e => absurd (by omega) hc, fun e => absurd e (by simp),
        Or.inr hshape⟩
      rw [stageCount_of_form_cardShape hshape, ← List.countP_eq_length_filter]
      have := CreateEditPipeline.countP_le_eraseIdx isStage doc.stageCards i
      rw [← List.countP_eq_length_filter] at hc
      omega

/-- C21: in both scripts, on a document with at least one visible stage, `removeStage` leaves
at least one visible stage; with exactly one visible stage, or when the user does not
confirm, the stage cards stay as they are; otherwise the cards of the document are the
former ones or the former ones without the given card. -/
theorem removeStage_keeps_a_stage (doc1 : CreateEditPipeline.Document) (doc2 : Document)
    (i : Nat) (confirmed : Bool)
    (h1 : 1 ≤ (doc1.stageCards.filter CreateEditPipeline.isStage).length)
    (h2 : 1 ≤ (doc2.stageCards.filter isStage).length) :
    (1 ≤ ((CreateEditPipeline.removeStage doc1 i confirmed).stageCards.filter
        CreateEditPipeline.isStage).length ∧
      ((doc1.stageCards.filter CreateEditPipeline.isStage).length = 1 →
        (CreateEditPipeline.removeStage doc1 i confirmed).stageCards = doc1.stageCards) ∧
      (confirmed = false →
        (CreateEditPipeline.removeStage doc1 i confirmed).stageCards = doc1.stageCards) ∧
      (CreateEditPipeline.cardShape (CreateEditPipeline.removeStage doc1 i confirmed).stageCards
          = CreateEditPipeline.cardShape doc1.stageCards ∨
        CreateEditPipeline.cardShape (CreateEditPipeline.removeStage doc1 i confirmed).stageCards
          = CreateEditPipeline.cardShape (doc1.stageCards.eraseIdx i))) ∧
    (1 ≤ ((removeStage doc2 i confirmed).stageCards.filter isStage).length ∧
      ((doc2.stageCards.filter isStage).length = 1 →
        (removeStage doc2 i confirmed).stageCards = doc2.stageCards) ∧
      (confirmed = false → (removeStage doc2 i confirmed).stageCards = doc2.stageCards) ∧
      (cardShape (removeStage doc2 i confirmed).stageCards = cardShape doc2.stageCards ∨
        cardShape (removeStage doc2 i confirmed).stageCards =
          cardShape (doc2.stageCards.eraseIdx i))) :=
  ⟨CreateEditPipeline.removeStage_facts doc1 i confirmed h1,
    removeStage_form_facts doc2 i confirmed h2⟩

/-- The second stage card of each example document is removed, the user confirming. -/
theorem removeStage_keeps_a_stage_witness :
    (1 ≤ ((CreateEditPipeline.removeStage CreateEditPipeline.exampleDocument 1
        true).stageCards.filter CreateEditPipeline.isStage).length ∧
      ((CreateEditPipeline.exampleDocument.stageCards.filter
          CreateEditPipeline.isStage).length = 1 →
        (CreateEditPipeline.removeStage CreateEditPipeline.exampleDocument 1 true).stageCards
          = CreateEditPipeline.exampleDocument.stageCards) ∧
      (true = false →
        (CreateEditPipeline.removeStage CreateEditPipeline.exampleDocument 1 true).stageCards
          = CreateEditPipeline.exampleDocument.stageCards) ∧
      (CreateEditPipeline.cardShape
          (CreateEditPipeline.removeStage CreateEditPipeline.exampleDocument 1 true).stageCards
          = CreateEditPipeline.cardShape CreateEditPipeline.exampleDocument.stageCards ∨
        CreateEditPipeline.cardShape
          (CreateEditPipeline.removeStage CreateEditPipeline.exampleDocument 1 true).stageCards
          = CreateEditPipeline.cardShape
              (CreateEditPipeline.exampleDocument.stageCards.eraseIdx 1))) ∧
    (1 ≤ ((removeStage exampleDocument 1 true).stageCards.filter isStage).length ∧
      ((exampleDocument.stageCards.filter isStage).length = 1 →
        (removeStage exampleDocument 1 true).stageCards = exampleDocument.stageCards) ∧
      (true = false →
        (removeStage exampleDocument 1 true).stageCards = exampleDocument.stageCards) ∧
      (cardShape (removeStage exampleDocument 1 true).stageCards =
          cardShape exampleDocument.stageCards ∨
        cardShape (removeStage exampleDocument 1 true).stageCards =
          cardShape (exampleDocument.stageCards.eraseIdx 1))) :=
  removeStage_keeps_a_stage CreateEditPipeline.exampleDocument exampleDocument 1 true
    (by decide) (by decide)

/-! ## Won and lost checkboxes -/

theorem countP_le_of_pointwise {α : Type} (p : α → Bool) (l R : List α) (F : Nat → α → α)
    (hR : ∀ j, R[j]? = (l[j]?).map (F j))
    (hF : ∀ j c, l[j]? = some c → p (F j c) = true → p c = true) :
    R.countP p ≤ l.countP p := by
  induction l generalizing R F with
  | nil =>
    cases R with
    | nil => simp
    | cons b t => have := hR 0; simp at this
  | cons a t ih =>
    cases R with
    | nil => simp
    | cons b R1 =>
      have h0 := hR 0
      simp only [List.getElem?_cons_zero, Option.map_some', Option.some.injEq] at h0
      have ht := ih R1 (fun j => F (j + 1))
        (fun j => by simpa using hR (j + 1))
        (fun j c hc hp => hF (j + 1) c (by simpa using hc) hp)
      rw [List.countP_cons, List.countP_cons]
      by_cases hb : p b = true
      · have ha : p a = true := hF 0 a (by simp) (by rw [← h0]; exact hb)
        simp only [hb, ha, if_true]
        omega
      · have hb0 : p b = false := by simpa using hb
        simp only [hb0, Bool.false_eq_true, if_false]
        split <;> omega

theorem countP_le_one_of_unique {α : Type} (p : α → Bool) (R : List α) (i : Nat)
    (h : ∀ j c, R[j]? = some c → p c = true → j = i) : R.countP p ≤ 1 := by
  induction R generalizing i with
  | nil => simp
  | cons a t ih =>
    rw [List.countP_cons]
    by_cases ha : p a = true
    · have hi : 0 = i := h 0 a (by simp) ha
      have ht : t.countP p = 0 := by
        rw [List.countP_eq_zero]
        intro c hc
        obtain ⟨j, hj⟩ := List.mem_iff_getElem?.1 hc
        intro hpc
        have := h (j + 1) c (by simpa using hj) hpc
        omega
      simp [ha, ht]
    · have := ih (i - 1) (fun j c hc hp => by
        have := h (j + 1) c (by simpa using hc) hp
        omega)
      have ha0 : p a = false := by simpa using ha
      simp only [ha0, Bool.false_eq_true, if_false]
      omega

theorem excl_of_monotone {α : Type} (p q : α → Bool) (l R : List α) (F : Nat → α → α)
    (hR : ∀ j, R[j]? = (l[j]?).map (F j))
    (hp : ∀ j c, l[j]? = some c → p (F j c) = true → p c = true)
    (hq : ∀ j c, l[j]? = some c → q (F j c) = true → q c = true)
    (h : l.countP p ≤ 1 ∧ l.countP q ≤ 1 ∧ ∀ s ∈ l, ¬ (p s = true ∧ q s = true)) :
    R.countP p ≤ 1 ∧ R.countP q ≤ 1 ∧ ∀ s ∈ R, ¬ (p s = true ∧ q s = true) := by
  refine ⟨(countP_le_of_pointwise p l R F hR hp).trans h.1,
    (countP_le_of_pointwise q l R F hR hq).trans h.2.1, ?_⟩
  intro s hs hboth
  obtain ⟨j, hj⟩ := List.mem_iff_getElem?.1 hs
  rw [hR j] at hj
  cases hl : l[j]? with
  | none => simp [hl] at hj
  | some c =>
    simp only [hl, Option.map_some', Option.some.injEq] at hj
    subst hj
    exact h.2.2 c (List.getElem?_mem hl) ⟨hp j c hl hboth.1, hq j c hl hboth.2⟩

theorem excl_of_unique {α : Type} (p q : α → Bool) (l R : List α) (F : Nat → α → α) (i : Nat)
    (hR : ∀ j, R[j]? = (l[j]?).map (F j))
    (hp : ∀ j c, l[j]? = some c → p (F j c) = true → j = i)
    (hq : ∀ j c, l[j]? = some c → q (F j c) = true → q c = true ∧ j ≠ i)
    (h : l.countP q ≤ 1) :
    R.countP p ≤ 1 ∧ R.countP q ≤ 1 ∧ ∀ s ∈ R, ¬ (p s = true ∧ q s = true) := by
  refine ⟨?_, (countP_le_of_pointwise q l R F hR (fun j c hc hx => (hq j c hc hx).1)).trans h,
    ?_⟩
  · apply countP_le_one_of_unique p R i
    intro j s hj hs
    rw [hR j] at hj
    cases hl : l[j]? with
    | none => simp [hl] at hj
    | some c =>
      simp only [hl, Option.map_some', Option.some.injEq] at hj
      subst hj
      exact hp j c hl hs
  · intro s hs hboth
    obtain ⟨j, hj⟩ := List.mem_iff_getElem?.1 hs
    rw [hR j] at hj
    cases hl : l[j]? with
    | none => simp [hl] at hj
    | some c =>
      simp only [hl, Option.map_some', Option.some.injEq] at hj
      subst hj
      exact (hq j c hl hboth.2).2 (hp j c hl hboth.1)

theorem getElem?_uncheckOtherWon (i : Nat) (l : List StageCard) (k j : Nat) :
    (uncheckOtherWon i l k)[j]? =
      (l[j]?).map (fun s =>
        if k + j = i then s else { s with wonCheckbox := uncheck s.wonCheckbox }) := by
  induction l generalizing k j with
  | nil => simp [uncheckOtherWon]
  | cons a t ih =>
    cases j with
    | zero => simp [uncheckOtherWon]
    | succ n =>
      simp only [uncheckOtherWon, List.getElem?_cons_succ, ih]
      have e : k + 1 + n = k + (n + 1) := by omega
      rw [e]

theorem getElem?_uncheckOtherLost (i : Nat) (l : List StageCard) (k j : Nat) :
    (uncheckOtherLost i l k)[j]? =
      (l[j]?).map (fun s =>
        if k + j = i then s else { s with lostCheckbox := uncheck s.lostCheckbox }) := by
  induction l generalizing k j with
  | nil => simp [uncheckOtherLost]
  | cons a t ih =>
    cases j with
    | zero => simp [uncheckOtherLost]
    | succ n =>
      simp only [uncheckOtherLost, List.getElem?_cons_succ, ih]
      have e : k + 1 + n = k + (n + 1) := by omega
      rw [e]

theorem handleWonStageChange_checked (d : Document) (i : Nat) (cb : Checkbox)
    (h : (d.stageCards[i]?).bind StageCard.wonCheckbox = some cb) (hch : cb.checked = true) :
    handleWonStageChange d i =
      { d with
        stageCards := (uncheckOtherWon i d.stageCards 0).modify
          (fun stage => { stage with lostCheckbox := uncheck stage.lostCheckbox }) i } := by
  unfold handleWonStageChange
  rw [h]
  simp [hch]

theorem handleLostStageChange_checked (d : Document) (i : Nat) (cb : Checkbox)
    (h : (d.stageCards[i]?).bind StageCard.lostCheckbox = some cb) (hch : cb.checked = true) :
    handleLostStageChange d i =
      { d with
        stageCards := (uncheckOtherLost i d.stageCards 0).modify
          (fun stage => { stage with wonCheckbox := uncheck stage.wonCheckbox }) i } := by
  unfold handleLostStageChange
  rw [h]
  simp [hch]

theorem toggleWon_checked (doc : Document) (i : Nat) (c : StageCard) (cb : Checkbox)
    (hc : doc.stageCards[i]? = some c) (hw : c.wonCheckbox = some cb)
    (hch : cb.checked = false) (j : Nat) :
    (toggleWon doc i).stageCards[j]? =
      (doc.stageCards[j]?).map (fun s =>
        if j = i then
          { s with
            wonCheckbox := s.wonCheckbox.map (fun k => { k with checked := !k.checked })
            lostCheckbox := uncheck s.lostCheckbox }
        else { s with wonCheckbox := uncheck s.wonCheckbox }) := by
  have hm : ((doc.stageCards.modify (fun stage =>
      { stage with wonCheckbox :=
          stage.wonCheckbox.map (fun k => { k with checked := !k.checked }) }) i)[i]?).bind
      StageCard.wonCheckbox = some ⟨true, cb.value⟩ := by
    simp [hc, hw, hch]
  unfold toggleWon
  rw [handleWonStageChange_checked _ i _ hm rfl]
  simp only [List.getElem?_modify, getElem?_uncheckOtherWon, Nat.zero_add]
  cases doc.stageCards[j]? with
  | none => rfl
  | some s =>
    by_cases hji : j = i
    · subst hji; simp
    · have hij : ¬ i = j := fun e => hji e.symm
      simp [hji, hij]

theorem toggleWon_unchecked (doc : Document) (i : Nat)
    (h : ∀ c cb, doc.stageCards[i]? = some c → c.wonCheckbox = some cb → cb.checked = true) :
    (toggleWon doc i).stageCards =
      doc.stageCards.modify (fun stage =>
        { stage with wonCheckbox :=
            stage.wonCheckbox.map (fun k => { k with checked := !k.checked }) }) i := by
  unfold toggleWon handleWonStageChange
  simp only [List.getElem?_modify_eq]
  cases hc : doc.stageCards[i]? with
  | none => simp
  | some c =>
    cases hw : c.wonCheckbox with
    | none => simp [hw]
    | some cb =>
      have := h c cb hc hw
      simp [hw, this]

theorem toggleLost_checked (doc : Document) (i : Nat) (c : StageCard) (cb : Checkbox)
    (hc : doc.stageCards[i]? = some c) (hw : c.lostCheckbox = some cb)
    (hch : cb.checked = false) (j : Nat) :
    (toggleLost doc i).stageCards[j]? =
      (doc.stageCards[j]?).map (fun s =>
        if j = i then
          { s with
            lostCheckbox := s.lostCheckbox.map (fun k => { k with checked := !k.checked })
            wonCheckbox := uncheck s.wonCheckbox }
        else { s with lostCheckbox := uncheck s.lostCheckbox }) := by
  have hm : ((doc.stageCards.modify (fun stage =>
      { stage with lostCheckbox :=
          stage.lostCheckbox.map (fun k => { k with checked := !k.checked }) }) i)[i]?).bind
      StageCard.lostCheckbox = some ⟨true, cb.value⟩ := by
    simp [hc, hw, hch]
  unfold toggleLost
  rw [handleLostStageChange_checked _ i _ hm rfl]
  simp only [List.getElem?_modify, getElem?_uncheckOtherLost, Nat.zero_add]
  cases doc.stageCards[j]? with
  | none => rfl
  | some s =>
    by_cases hji : j = i
    · subst hji; simp
    · have hij : ¬ i = j := fun e => hji e.symm
      simp [hji, hij]

theorem toggleLost_unchecked (doc : Document) (i : Nat)
    (h : ∀ c cb, doc.stageCards[i]? = some c → c.lostCheckbox = some cb → cb.checked = true) :
    (toggleLost doc i).stageCards =
      doc.stageCards.modify (fun stage =>
        { stage with lostCheckbox :=
            stage.lostCheckbox.map (fun k => { k with checked := !k.checked }) }) i := by
  unfold toggleLost handleLostStageChange
  simp only [List.getElem?_modify_eq]
  cases hc : doc.stageCards[i]? with
  | none => simp
  | some c =>
    cases hw : c.lostCheckbox with
    | none => simp [hw]
    | some cb =>
      have := h c cb hc hw
      simp [hw, this]

theorem isWon_uncheck (s : StageCard) :
    isWon { s with wonCheckbox := uncheck s.wonCheckbox } = false := by
  cases h : s.wonCheckbox <;> simp [isWon, uncheck, h]

theorem isLost_uncheck (s : StageCard) :
    isLost { s with lostCheckbox := uncheck s.lostCheckbox } = false := by
  cases h : s.lostCheckbox <;> simp [isLost, uncheck, h]

theorem exclusive_toggleWon (doc : Document) (i : Nat) (h : Exclusive doc.stageCards) :
    Exclusive (toggleWon doc i).stageCards := by
  by_cases hex : ∃ c cb, doc.stageCards[i]? = some c ∧ c.wonCheckbox = some cb ∧
      cb.checked = false
  · obtain ⟨c, cb, hc, hw, hch⟩ := hex
    refine excl_of_unique isWon isLost doc.stageCards _ _ i
      (toggleWon_checked doc i c cb hc hw hch) ?_ ?_ h.2.1
    · intro j s _ hs
      by_contra hji
      simp only [hji, if_false, isWon_uncheck] at hs
      exact absurd hs (by simp)
    · intro j s _ hs
      by_cases hji : j = i
      · simp only [hji, if_true] at hs
        have := isLost_uncheck { s with
          wonCheckbox := s.wonCheckbox.map (fun k => { k with checked := !k.checked }) }
        rw [this] at hs
        exact absurd hs (by simp)
      · simp only [hji, if_false] at hs
        exact ⟨hs, hji⟩
  · have hall : ∀ c cb, doc.stageCards[i]? = some c → c.wonCheckbox = some cb →
        cb.checked = true := by
      intro c cb hc hw
      cases hch : cb.checked with
      | true => rfl
      | false => exact absurd ⟨c, cb, hc, hw, hch⟩ hex
    rw [toggleWon_unchecked doc i hall]
    refine excl_of_monotone isWon isLost doc.stageCards _
      (fun j s => if i = j then
        { s with wonCheckbox := s.wonCheckbox.map (fun k => { k with checked := !k.checked }) }
        else s) (fun j => List.getElem?_modify _ _ _ _) ?_ ?_ h
    · intro j s hs hw
      by_cases hij : i = j
      · subst hij
        simp only [if_true] at hw
        cases hcb : s.wonCheckbox with
        | none => simp [isWon, hcb] at hw
        | some cb =>
          have := hall s cb hs hcb
          simp [isWon, hcb, this] at hw
      · simpa [hij] using hw
    · intro j s _ hl
      by_cases hij : i = j
      · simpa [hij, isLost] using hl
      · simpa [hij] using hl

theorem exclusive_toggleLost (doc : Document) (i : Nat) (h : Exclusive doc.stageCards) :
    Exclusive (toggleLost doc i).stageCards := by
  have hswap : ∀ l : List StageCard,
      (l.countP isLost ≤ 1 ∧ l.countP isWon ≤ 1 ∧
        ∀ s ∈ l, ¬ (isLost s = true ∧ isWon s = true)) → Exclusive l :=
    fun l hl => ⟨hl.2.1, hl.1, fun s hs hb => hl.2.2 s hs ⟨hb.2, hb.1⟩⟩
  have h1 : doc.stageCards.countP isLost ≤ 1 ∧ doc.stageCards.countP isWon ≤ 1 ∧
      ∀ s ∈ doc.stageCards, ¬ (isLost s = true ∧ isWon s = true) :=
    ⟨h.2.1, h.1, fun s hs hb => h.2.2 s hs ⟨hb.2, hb.1⟩⟩
  apply hswap
  by_cases hex : ∃ c cb, doc.stageCards[i]? = some c ∧ c.lostCheckbox = some cb ∧
      cb.checked = false
  · obtain ⟨c, cb, hc, hw, hch⟩ := hex
    refine excl_of_unique isLost isWon doc.stageCards _ _ i
      (toggleLost_checked doc i c cb hc hw hch) ?_ ?_ h.1
    · intro j s _ hs
      by_contra hji
      simp only [hji, if_false, isLost_uncheck] at hs
      exact absurd hs (by simp)
    · intro j s _ hs
      by_cases hji : j = i
      · simp only [hji, if_true] at hs
        have := isWon_uncheck { s with
          lostCheckbox := s.lostCheckbox.map (fun k => { k with checked := !k.checked }) }
        rw [this] at hs
        exact absurd hs (by simp)
      · simp only [hji, if_false] at hs
        exact ⟨hs, hji⟩
  · have hall : ∀ c cb, doc.stageCards[i]? = some c → c.lostCheckbox = some cb →
        cb.checked = true := by
      intro c cb hc hw
      cases hch : cb.checked with
      | true => rfl
      | false => exact absurd ⟨c, cb, hc, hw, hch⟩ hex
    rw [toggleLost_unchecked doc i hall]
    refine excl_of_monotone isLost isWon doc.stageCards _
      (fun j s => if i = j then
        { s with lostCheckbox := s.lostCheckbox.map (fun k => { k with checked := !k.checked }) }
        else s) (fun j => List.getElem?_modify _ _ _ _) ?_ ?_ h1
    · intro j s hs hw
      by_cases hij : i = j
      · subst hij
        simp only [if_true] at hw
        cases hcb : s.lostCheckbox with
        | none => simp [isLost, hcb] at hw
        | some cb =>
          have := hall s cb hs hcb
          simp [isLost, hcb, this] at hw
      · simpa [hij] using hw
    · intro j s _ hl
      by_cases hij : i = j
      · simpa [hij, isWon] using hl
      · simpa [hij] using hl

/-- C24: when at most one won checkbox and at most one lost checkbox are checked and no
stage card has both checked, the same holds after the user toggles the won or the lost
checkbox of any card and the handler has run; and a won (lost) checkbox that the user has
just checked is then the only checked won (lost) checkbox. -/
theorem won_lost_exclusive (doc : Document) (i : Nat) (h : Exclusive doc.stageCards) :
    Exclusive (toggleWon doc i).stageCards ∧
    Exclusive (toggleLost doc i).stageCards ∧
    (∀ c cb, doc.stageCards[i]? = some c → c.wonCheckbox = some cb → cb.checked = false →
      ∀ j s, (toggleWon doc i).stageCards[j]? = some s → (isWon s = true ↔ j = i)) ∧
    (∀ c cb, doc.stageCards[i]? = some c → c.lostCheckbox = some cb → cb.checked = false →
      ∀ j s, (toggleLost doc i).stageCards[j]? = some s → (isLost s = true ↔ j = i)) := by
  refine ⟨exclusive_toggleWon doc i h, exclusive_toggleLost doc i h, ?_, ?_⟩
  · intro c cb hc hw hch j s hs
    rw [toggleWon_checked doc i c cb hc hw hch j] at hs
    cases hl : doc.stageCards[j]? with
    | none => simp [hl] at hs
    | some s0 =>
      simp only [hl, Option.map_some', Option.some.injEq] at hs
      subst hs
      by_cases hji : j = i
      · subst hji
        have e : s0 = c := by rw [hl] at hc; exact Option.some.inj hc
        subst e
        simp [isWon, hw, hch]
      · simp only [hji, if_false, isWon_uncheck]
        simp
  · intro c cb hc hw hch j s hs
    rw [toggleLost_checked doc i c cb hc hw hch j] at hs
    cases hl : doc.stageCards[j]? with
    | none => simp [hl] at hs
    | some s0 =>
      simp only [hl, Option.map_some', Option.some.injEq] at hs
      subst hs
      by_cases hji : j = i
      · subst hji
        have e : s0 = c := by rw [hl] at hc; exact Option.some.inj hc
        subst e
        simp [isLost, hw, hch]
      · simp only [hji, if_false, isLost_uncheck]
        simp

/-- On the example document, whose second card is won and third lost, the user checks the
won checkbox of the third card. -/
theorem won_lost_exclusive_witness :
    Exclusive (toggleWon exampleDocument 2).stageCards ∧
    Exclusive (toggleLost exampleDocument 2).stageCards ∧
    (∀ c cb, exampleDocument.stageCards[2]? = some c → c.wonCheckbox = some cb →
      cb.checked = false →
      ∀ j s, (toggleWon exampleDocument 2).stageCards[j]? = some s →
        (isWon s = true ↔ j = 2)) ∧
    (∀ c cb, exampleDocument.stageCards[2]? = some c → c.lostCheckbox = some cb →
      cb.checked = false →
      ∀ j s, (toggleLost exampleDocument 2).stageCards[j]? = some s →
        (isLost s = true ↔ j = 2)) :=
  won_lost_exclusive exampleDocument 2 (by decide)

end PipelineFormScript

namespace StageTransitions

/-! ## The hash colour of a stage name -/

theorem toInt32_range (x : Int) : -2147483648 ≤ toInt32 x ∧ toInt32 x < 2147483648 := by
  unfold toInt32
  omega

theorem codeUnits_lt (s : String) : ∀ c ∈ codeUnits s, c < 65536 := by
  intro c hc
  unfold codeUnits at hc
  rw [List.mem_flatMap] at hc
  obtain ⟨ch, _, hch⟩ := hc
  have hv : ch.toNat < 1114112 := by
    have := ch.valid
    simp only [UInt32.isValidChar, Nat.isValidChar] at this
    have e : ch.toNat = ch.val.toNat := rfl
    omega
  by_cases hlt : ch.toNat < 65536
  · simp only [hlt, if_true, List.mem_singleton] at hch
    omega
  · simp only [hlt, if_false, List.mem_cons, List.mem_singleton, List.not_mem_nil,
      or_false] at hch
    omega

theorem roundNumber_small (x : Int)
    (h : -9007199254740992 < x ∧ x < 9007199254740992) : roundNumber x = x := by
  unfold roundNumber
  rw [if_pos]
  omega

theorem hashLoop_step_exact (c : Nat) (h : Int) (b : Nat) (hc : c < 65536)
    (hb : -(b : Int) ≤ h ∧ h ≤ b) (hfit : b + 4294967296 < 9007199254740992) :
    roundNumber ((c : Int) + roundNumber (shiftLeft h 5 - h)) =
      (c : Int) + (shiftLeft h 5 - h) := by
  have hr := toInt32_range (toInt32 h * 2 ^ 5)
  have e1 : roundNumber (shiftLeft h 5 - h) = shiftLeft h 5 - h :=
    roundNumber_small _ (by unfold shiftLeft; omega)
  rw [e1]
  exact roundNumber_small _ (by unfold shiftLeft; omega)

theorem hashLoop_bound (units : List Nat) (h : Int) (b : Nat)
    (hu : ∀ c ∈ units, c < 65536) (hb : -(b : Int) ≤ h ∧ h ≤ b)
    (hfit : b + units.length * 4294967296 < 9007199254740992) :
    -((b + units.length * 4294967296 : Nat) : Int) ≤ hashLoop units h ∧
    hashLoop units h ≤ ((b + units.length * 4294967296 : Nat) : Int) := by
  induction units generalizing h b with
  | nil => simpa [hashLoop] using hb
  | cons c rest ih =>
    have hc : c < 65536 := hu c (List.mem_cons_self _ _)
    rw [List.length_cons] at hfit
    have hr := toInt32_range (toInt32 h * 32)
    have hr5 := toInt32_range (toInt32 h * 2 ^ 5)
    have := ih ((c : Int) + (shiftLeft h 5 - h)) (b + 4294967296)
      (fun d hd => hu d (List.mem_cons_of_mem _ hd))
      (by unfold shiftLeft; push_cast; omega) (by omega)
    rw [hashLoop, List.length_cons, hashLoop_step_exact c h b hc hb (by omega)]
    push_cast at this ⊢
    omega

theorem hashLoop_congr (units : List Nat) (h : Int) (H b : Nat)
    (hu : ∀ c ∈ units, c < 65536) (hb : -(b : Int) ≤ h ∧ h ≤ b)
    (hfit : b + units.length * 4294967296 < 9007199254740992)
    (hh : h % 4294967296 = (H : Int) % 4294967296) :
    hashLoop units h % 4294967296 =
      ((units.foldl (fun H c => 31 * H + c) H : Nat) : Int) % 4294967296 := by
  induction units generalizing h H b with
  | nil => simpa [hashLoop] using hh
  | cons c rest ih =>
    have hc : c < 65536 := hu c (List.mem_cons_self _ _)
    rw [List.length_cons] at hfit
    have hr := toInt32_range (toInt32 h * 32)
    have hr5 := toInt32_range (toInt32 h * 2 ^ 5)
    rw [hashLoop, List.foldl_cons, hashLoop_step_exact c h b hc hb (by omega)]
    apply ih _ _ (b + 4294967296) (fun d hd => hu d (List.mem_cons_of_mem _ hd))
    · unfold shiftLeft; push_cast; omega
    · omega
    · unfold shiftLeft toInt32
      push_cast
      omega

theorem component_eq (h : Int) (P : Nat) (hh : h % 4294967296 = (P : Int) % 4294967296) :
    and255 (shiftRight h (0 * 8)) = ((P % 4294967296 % 256 : Nat) : Int) ∧
    and255 (shiftRight h (1 * 8)) = ((P % 4294967296 / 256 % 256 : Nat) : Int) ∧
    and255 (shiftRight h (2 * 8)) = ((P % 4294967296 / 65536 % 256 : Nat) : Int) := by
  unfold and255 shiftRight toInt32
  push_cast
  norm_num
  refine ⟨?_, ?_, ?_⟩ <;> omega

set_option maxRecDepth 100000 in
theorem substrLast2_hex : ∀ v < 256,
    substrLast2 ("00".data ++ Nat.toDigits 16 v) = hex2 v := by
  decide

set_option maxRecDepth 100000 in
theorem hex2_lowercase : ∀ v < 256, ∀ c ∈ hex2 v, c ∈ "0123456789abcdef".data := by
  decide

theorem colorComponent_eq (h : Int) (v : Nat) (i : Nat) (hv : v < 256)
    (e : and255 (shiftRight h (i * 8)) = (v : Int)) : colorComponent h i = hex2 v := by
  unfold colorComponent toString16
  rw [e, Int.toNat_ofNat]
  exact substrLast2_hex v hv

theorem and255_range (x : Int) : 0 ≤ and255 x ∧ and255 x < 256 := by
  unfold and255
  omega

theorem colorComponent_hex (h : Int) (i : Nat) : ∃ v < 256, colorComponent h i = hex2 v := by
  have hr := and255_range (shiftRight h (i * 8))
  exact ⟨(and255 (shiftRight h (i * 8))).toNat, by omega,
    colorComponent_eq _ _ _ (by omega) (Int.toNat_of_nonneg hr.1).symm⟩

/-- C26: for every string, `stringToColor` returns `#` followed by six lowercase
hexadecimal digits, and `#000000` for the empty string; for a string of fewer than
`2 ^ 21` UTF-16 code units the digits are the two-digit forms of bytes 0, 1 and 2 of
`H mod 2 ^ 32`, where `H` is the polynomial hash `H := 31 * H + charCode` of the code
units, and every value `hash` takes in the loop is an integer of magnitude below `2 ^ 53`,
so that no addition or subtraction of the loop is rounded. -/
theorem stringToColor_spec (str : String) :
    ((stringToColor str).data.length = 7 ∧ (stringToColor str).data.head? = some '#' ∧
      ∀ c ∈ (stringToColor str).data.drop 1, c ∈ "0123456789abcdef".data) ∧
    stringToColor "" = "#000000" ∧
    ((codeUnits str).length < 2 ^ 21 →
      stringToColor str =
        ⟨'#' :: (hex2 (polyHash (codeUnits str) % 4294967296 % 256) ++
          (hex2 (polyHash (codeUnits str) % 4294967296 / 256 % 256) ++
            hex2 (polyHash (codeUnits str) % 4294967296 / 65536 % 256)))⟩ ∧
      ∀ k, -9007199254740992 < hashLoop ((codeUnits str).take k) 0 ∧
        hashLoop ((codeUnits str).take k) 0 < 9007199254740992) := by
  refine ⟨?_, by decide, ?_⟩
  · obtain ⟨v0, b0, e0⟩ := colorComponent_hex (hashLoop (codeUnits str) 0) 0
    obtain ⟨v1, b1, e1⟩ := colorComponent_hex (hashLoop (codeUnits str) 0) 1
    obtain ⟨v2, b2, e2⟩ := colorComponent_hex (hashLoop (codeUnits str) 0) 2
    have hmain : stringToColor str = ⟨'#' :: (hex2 v0 ++ (hex2 v1 ++ hex2 v2))⟩ := by
      unfold stringToColor
      rw [e0, e1, e2]
    rw [hmain]
    refine ⟨rfl, rfl, ?_⟩
    intro c hc
    simp only [List.drop_succ_cons, List.drop_zero, List.mem_append] at hc
    rcases hc with hc | hc | hc
    · exact hex2_lowercase _ b0 c hc
    · exact hex2_lowercase _ b1 c hc
    · exact hex2_lowercase _ b2 c hc
  · intro hlen
    have h21 : (2 : Nat) ^ 21 = 2097152 := by norm_num
    have hcong := hashLoop_congr (codeUnits str) 0 0 0 (codeUnits_lt str) (by simp)
      (by omega) rfl
    obtain ⟨e0, e1, e2⟩ := component_eq (hashLoop (codeUnits str) 0)
      (polyHash (codeUnits str)) hcong
    have b0 : polyHash (codeUnits str) % 4294967296 % 256 < 256 := Nat.mod_lt _ (by decide)
    have b1 : polyHash (codeUnits str) % 4294967296 / 256 % 256 < 256 :=
      Nat.mod_lt _ (by decide)
    have b2 : polyHash (codeUnits str) % 4294967296 / 65536 % 256 < 256 :=
      Nat.mod_lt _ (by decide)
    refine ⟨?_, ?_⟩
    · unfold stringToColor
      rw [colorComponent_eq _ _ 0 b0 e0, colorComponent_eq _ _ 1 b1 e1,
        colorComponent_eq _ _ 2 b2 e2]
    · intro k
      have hk : ((codeUnits str).take k).length < 2097152 := by
        have := List.length_take k (codeUnits str)
        omega
      have hb := hashLoop_bound ((codeUnits str).take k) 0 0
        (fun c hc => codeUnits_lt str c (List.mem_of_mem_take hc)) (by simp) (by omega)
      push_cast at hb
      omega

/-- The colour of the stage name "Closed Won", ten code units long: `#e20711`, the bytes
`e2`, `07`, `11` of its polynomial hash, which is 4228974562 modulo `2 ^ 32`. -/
theorem stringToColor_spec_witness :
    (codeUnits "Closed Won").length < 2 ^ 21 ∧
    polyHash (codeUnits "Closed Won") % 4294967296 = 4228974562 ∧
    stringToColor "Closed Won" = "#e20711" ∧
    (⟨'#' :: (hex2 (polyHash (codeUnits "Closed Won") % 4294967296 % 256) ++
      (hex2 (polyHash (codeUnits "Closed Won") % 4294967296 / 256 % 256) ++
        hex2 (polyHash (codeUnits "Closed Won") % 4294967296 / 65536 % 256)))⟩ : String) =
      "#e20711" ∧
    ∀ k, -9007199254740992 < hashLoop ((codeUnits "Closed Won").take k) 0 ∧
      hashLoop ((codeUnits "Closed Won").take k) 0 < 9007199254740992 :=
  ⟨by decide, by decide,
    (((stringToColor_spec "Closed Won").2.2 (by decide)).1).trans (by decide), by decide,
    ((stringToColor_spec "Closed Won").2.2 (by decide)).2⟩

set_option maxRecDepth 100000 in
/-- The colours of the empty name and of "Closed Won", whose hash is 4228974562. -/
theorem stringToColor_examples :
    stringToColor "" = "#000000" ∧ stringToColor "Closed Won" = "#e20711" ∧
    hashLoop (codeUnits "Closed Won") 0 = 4228974562 := by
  decide

/-! ## A name too long for exact arithmetic -/

theorem hashLoop_append (a b : List Nat) (h : Int) :
    hashLoop (a ++ b) h = hashLoop b (hashLoop a h) := by
  induction a generalizing h with
  | nil => rfl
  | cons c rest ih => rw [List.cons_append, hashLoop, hashLoop, ih]

theorem codeUnits_paddedName (n : Nat) :
    codeUnits (paddedName n) = [78, 113, 97, 101, 103] ++ (List.replicate n 0 ++ [97]) := by
  have hnul : ∀ (m : Nat) (rest : List Char),
      codeUnits ⟨List.replicate m (Char.ofNat 0) ++ rest⟩ =
        List.replicate m 0 ++ codeUnits ⟨rest⟩ := by
    intro m rest
    induction m with
    | zero => rfl
    | succ m ih =>
      rw [List.replicate_succ, List.replicate_succ, List.cons_append, List.cons_append, ← ih]
      rfl
  have happ : ∀ a b : List Char, codeUnits ⟨a ++ b⟩ = codeUnits ⟨a⟩ ++ codeUnits ⟨b⟩ := by
    intro a b
    unfold codeUnits
    exact List.flatMap_append _ _ _
  unfold paddedName
  rw [happ, hnul]
  rfl

theorem hashLoop_nul_pair (j : Nat) (rest : List Nat) (hj : j < 2396745) :
    hashLoop (0 :: 0 :: rest) (75497472 + 3758096384 * (j : Int)) =
      hashLoop rest (75497472 + 3758096384 * ((j + 1 : Nat) : Int)) := by
  have s1 : shiftLeft (75497472 + 3758096384 * (j : Int)) 5 = -1879048192 := by
    unfold shiftLeft toInt32
    omega
  have s2 : shiftLeft (-1954545664 - 3758096384 * (j : Int)) 5 = 1879048192 := by
    unfold shiftLeft toInt32
    omega
  have r1 : roundNumber (shiftLeft (75497472 + 3758096384 * (j : Int)) 5 -
      (75497472 + 3758096384 * (j : Int))) = -1954545664 - 3758096384 * (j : Int) := by
    rw [s1, roundNumber_small _ (by omega)]
    omega
  have r2 : roundNumber (shiftLeft (-1954545664 - 3758096384 * (j : Int)) 5 -
      (-1954545664 - 3758096384 * (j : Int))) =
        75497472 + 3758096384 * ((j + 1 : Nat) : Int) := by
    rw [s2, roundNumber_small _ (by omega)]
    push_cast
    omega
  rw [hashLoop, r1, Nat.cast_zero, zero_add, roundNumber_small _ (by omega),
    hashLoop, r2, Nat.cast_zero, zero_add, roundNumber_small _ (by push_cast; omega)]

theorem hashLoop_nuls (j : Nat) (rest : List Nat) :
    ∀ i : Nat, i + j ≤ 2396745 →
      hashLoop (List.replicate (2 * j) 0 ++ rest) (75497472 + 3758096384 * (i : Int)) =
        hashLoop rest (75497472 + 3758096384 * ((i + j : Nat) : Int)) := by
  induction j with
  | zero => intro i _; rfl
  | succ j ih =>
    intro i hi
    rw [Nat.mul_succ, List.replicate_succ, List.replicate_succ, List.cons_append,
      List.cons_append, hashLoop_nul_pair i _ (by omega), ih (i + 1) (by omega)]
    congr 3
    omega

theorem polyHash_nuls (n : Nat) (H : Nat) (hH : H % 16777216 = 8388608) :
    (List.replicate n 0).foldl (fun H c => 31 * H + c) H % 16777216 = 8388608 := by
  induction n generalizing H with
  | zero => exact hH
  | succ n ih =>
    rw [List.replicate_succ, List.foldl_cons]
    apply ih
    omega

theorem hashLoop_paddedName :
    hashLoop (codeUnits (paddedName 4793490)) 0 = -9007200672415648 := by
  have h := hashLoop_nuls 2396745 [97] 0 (by omega)
  rw [codeUnits_paddedName, hashLoop_append,
    show hashLoop [78, 113, 97, 101, 103] 0 = 75497472 + 3758096384 * ((0 : Nat) : Int) by
      decide]
  refine Eq.trans h ?_
  decide

theorem polyHash_paddedName (n : Nat) :
    polyHash (codeUnits (paddedName n)) % 16777216 = 8388705 := by
  rw [codeUnits_paddedName]
  unfold polyHash
  rw [List.foldl_append, List.foldl_append]
  have h := polyHash_nuls n
    (List.foldl (fun H c => 31 * H + c) 0 [78, 113, 97, 101, 103]) (by decide)
  show (31 * _ + 97) % 16777216 = 8388705
  omega

theorem length_codeUnits_paddedName (n : Nat) :
    (codeUnits (paddedName n)).length = n + 6 := by
  rw [codeUnits_paddedName, List.length_append, List.length_append, List.length_replicate]
  show 5 + (n + 1) = n + 6
  omega

theorem color_of_bytes (P : Nat) (hP : P % 16777216 = 8388705) :
    (⟨'#' :: (hex2 (P % 4294967296 % 256) ++ (hex2 (P % 4294967296 / 256 % 256) ++
      hex2 (P % 4294967296 / 65536 % 256)))⟩ : String) = "#610080" := by
  have p0 : P % 4294967296 % 256 = 97 := by omega
  have p1 : P % 4294967296 / 256 % 256 = 0 := by omega
  have p2 : P % 4294967296 / 65536 % 256 = 128 := by omega
  rw [p0, p1, p2]
  decide

theorem color_of_hash (str : String) (h : hashLoop (codeUnits str) 0 = -9007200672415648) :
    stringToColor str = "#600080" := by
  unfold stringToColor
  rw [h]
  decide

/-- C26, a name that is too long: for "Nqaeg" followed by 4 793 490 NUL characters and the
letter a, 4 793 496 code units in all, `hash` stays below `2 ^ 53` up to the last NUL
character; for the letter a the difference `(hash << 5) - hash` has a magnitude above
`2 ^ 53`, the sum of the code 97 and this difference is odd and is rounded to an even
number, and `stringToColor` returns `#600080` where bytes 0, 1 and 2 of the polynomial
hash give `#610080`. -/
theorem stringToColor_long_name :
    (codeUnits (paddedName 4793490)).length = 4793496 ∧
    hashLoop (codeUnits (paddedName 4793490)) 0 = -9007200672415648 ∧
    stringToColor (paddedName 4793490) = "#600080" ∧
    (⟨'#' :: (hex2 (polyHash (codeUnits (paddedName 4793490)) % 4294967296 % 256) ++
      (hex2 (polyHash (codeUnits (paddedName 4793490)) % 4294967296 / 256 % 256) ++
        hex2 (polyHash (codeUnits (paddedName 4793490)) % 4294967296 / 65536 % 256)))⟩ :
          String) = "#610080" ∧
    stringToColor (paddedName 4793490) ≠
      ⟨'#' :: (hex2 (polyHash (codeUnits (paddedName 4793490)) % 4294967296 % 256) ++
        (hex2 (polyHash (codeUnits (paddedName 4793490)) % 4294967296 / 256 % 256) ++
          hex2 (polyHash (codeUnits (paddedName 4793490)) % 4294967296 / 65536 % 256)))⟩ :=
  ⟨length_codeUnits_paddedName 4793490, hashLoop_paddedName,
    color_of_hash _ hashLoop_paddedName,
    color_of_bytes _ (polyHash_paddedName 4793490),
    fun e => absurd
      (((color_of_hash _ hashLoop_paddedName).symm.trans e).trans
        (color_of_bytes _ (polyHash_paddedName 4793490)))
      (by decide)⟩

/-! ## Darkening a colour -/

theorem hexDigitValue_range {c : Char} {v : Nat} (h : hexDigitValue c = some v) :
    (48 ≤ c.toNat ∧ c.toNat ≤ 57 ∧ v = c.toNat - 48) ∨
    (97 ≤ c.toNat ∧ c.toNat ≤ 102 ∧ v = c.toNat - 87) ∨
    (65 ≤ c.toNat ∧ c.toNat ≤ 70 ∧ v = c.toNat - 55) := by
  unfold hexDigitValue at h
  split at h
  · rename_i h1
    exact Or.inl ⟨h1.1, h1.2, (Option.some.inj h).symm⟩
  · split at h
    · rename_i h2
      exact Or.inr (Or.inl ⟨h2.1, h2.2, (Option.some.inj h).symm⟩)
    · split at h
      · rename_i h3
        exact Or.inr (Or.inr ⟨h3.1, h3.2, (Option.some.inj h).symm⟩)
      · exact absurd h (by simp)

theorem hexDigitValue_lt {c : Char} {v : Nat} (h : hexDigitValue c = some v) : v < 16 := by
  rcases hexDigitValue_range h with h1 | h1 | h1 <;> omega

theorem toNat_ne_of_hex {c : Char} {v : Nat} (h : hexDigitValue c = some v) (x : Char)
    (hx : x.toNat < 48 ∨ (57 < x.toNat ∧ x.toNat < 65) ∨ (70 < x.toNat ∧ x.toNat < 97) ∨
      102 < x.toNat) : c ≠ x := by
  intro e
  subst e
  rcases hexDigitValue_range h with h1 | h1 | h1 <;> omega

theorem isWhiteSpace_of_hex {c : Char} {v : Nat} (h : hexDigitValue c = some v) :
    CreateEditPipeline.isWhiteSpace c = false := by
  have hr := hexDigitValue_range h
  unfold CreateEditPipeline.isWhiteSpace
  simp only [Bool.or_eq_false_iff, decide_eq_false_iff_not, Bool.and_eq_false_imp,
    decide_eq_true_eq]
  omega

theorem parseInt16_pair {a b : Char} {va vb : Nat} (ha : hexDigitValue a = some va)
    (hb : hexDigitValue b = some vb) :
    parseInt16 [a, b] = some ((16 * va + vb : Nat) : Int) := by
  have hws := isWhiteSpace_of_hex ha
  have hminus : a ≠ '-' := toNat_ne_of_hex ha _ (by decide)
  have hplus : a ≠ '+' := toNat_ne_of_hex ha _ (by decide)
  have hx : b ≠ 'x' := toNat_ne_of_hex hb _ (by decide)
  have hX : b ≠ 'X' := toNat_ne_of_hex hb _ (by decide)
  simp [parseInt16, List.dropWhile, hws, hminus, hplus, stripPrefix0x, hx, hX, parseDigits,
    List.takeWhile, ha, hb]

theorem toDigitsCore_more (f n : Nat) (ds : List Char) (h : n / 16 ≠ 0) :
    Nat.toDigitsCore 16 (f + 1) n ds =
      Nat.toDigitsCore 16 f (n / 16) (Nat.digitChar (n % 16) :: ds) := by
  simp [Nat.toDigitsCore, h]

theorem toDigitsCore_last (f n : Nat) (ds : List Char) (h : n / 16 = 0) :
    Nat.toDigitsCore 16 (f + 1) n ds = Nat.digitChar (n % 16) :: ds := by
  simp [Nat.toDigitsCore, h]

theorem toDigits_colour (r g b : Nat) (hr : r < 256) (hg : g < 256) (hb : b < 256) :
    (Nat.toDigits 16 (16777216 + r * 65536 + g * 256 + b)).drop 1 =
      hex2 r ++ (hex2 g ++ hex2 b) := by
  obtain ⟨n, hn⟩ : ∃ n, n = 16777216 + r * 65536 + g * 256 + b := ⟨_, rfl⟩
  rw [← hn]
  obtain ⟨f, hf⟩ : ∃ f, n + 1 = f + 1 + 1 + 1 + 1 + 1 + 1 + 1 := ⟨n - 6, by omega⟩
  unfold Nat.toDigits
  rw [hf, toDigitsCore_more _ _ _ (by omega), toDigitsCore_more _ _ _ (by omega),
    toDigitsCore_more _ _ _ (by omega), toDigitsCore_more _ _ _ (by omega),
    toDigitsCore_more _ _ _ (by omega), toDigitsCore_more _ _ _ (by omega),
    toDigitsCore_last _ _ _ (by omega)]
  have e1 : n / 16 / 16 / 16 / 16 / 16 % 16 = r / 16 := by omega
  have e2 : n / 16 / 16 / 16 / 16 % 16 = r % 16 := by omega
  have e3 : n / 16 / 16 / 16 % 16 = g / 16 := by omega
  have e4 : n / 16 / 16 % 16 = g % 16 := by omega
  have e5 : n / 16 % 16 = b / 16 := by omega
  have e6 : n % 16 = b % 16 := by omega
  simp only [List.drop_succ_cons, List.drop_zero, hex2, e1, e2, e3, e4, e5, e6,
    List.cons_append, List.nil_append]

theorem shiftLeft_small (x : Int) (k : Nat) (p : Int) (hp : (2 : Int) ^ k = p)
    (h0 : 0 ≤ x) (h1 : x * p < 2147483648) (h2 : 0 < p) : shiftLeft x k = x * p := by
  unfold shiftLeft
  rw [hp]
  have hx : toInt32 x = x := by
    unfold toInt32
    have : x < 2147483648 := by nlinarith
    omega
  rw [hx]
  unfold toInt32
  have : 0 ≤ x * p := Int.mul_nonneg h0 (le_of_lt h2)
  omega

theorem digitChar_of_hex {c : Char} {v : Nat} (h : hexDigitValue c = some v) :
    Nat.digitChar v = c.toLower := by
  obtain ⟨n, hn⟩ : ∃ n, c.toNat = n := ⟨_, rfl⟩
  have hc : c = Char.ofNat n := by rw [← hn, Char.ofNat_toNat]
  have hr := hexDigitValue_range h
  rw [hn] at hr
  subst hc
  rcases hr with ⟨h1, h2, rfl⟩ | ⟨h1, h2, rfl⟩ | ⟨h1, h2, rfl⟩ <;>
    interval_cases n <;> decide

theorem channel_eq (a b : Char) (va vb : Nat) (d : Int) (ha : hexDigitValue a = some va)
    (hb : hexDigitValue b = some vb) :
    clampChannel (parseInt16 [a, b]) d = some ((clamped (16 * va + vb) d : Nat) : Int) ∧
    clamped (16 * va + vb) d < 256 := by
  rw [parseInt16_pair ha hb]
  unfold clampChannel clamped
  simp only [Option.map_some', Option.some.injEq]
  omega

theorem adjust_eq (c1 c2 c3 c4 c5 c6 : Char) (v1 v2 v3 v4 v5 v6 : Nat) (d : Int)
    (h1 : hexDigitValue c1 = some v1) (h2 : hexDigitValue c2 = some v2)
    (h3 : hexDigitValue c3 = some v3) (h4 : hexDigitValue c4 = some v4)
    (h5 : hexDigitValue c5 = some v5) (h6 : hexDigitValue c6 = some v6) :
    adjustColorBrightness ⟨['#', c1, c2, c3, c4, c5, c6]⟩ d =
      ⟨'#' :: (hex2 (clamped (16 * v1 + v2) d) ++
        (hex2 (clamped (16 * v3 + v4) d) ++ hex2 (clamped (16 * v5 + v6) d)))⟩ := by
  obtain ⟨er, hr⟩ := channel_eq c1 c2 v1 v2 d h1 h2
  obtain ⟨eg, hg⟩ := channel_eq c3 c4 v3 v4 d h3 h4
  obtain ⟨eb, hb⟩ := channel_eq c5 c6 v5 v6 d h5 h6
  have s1 : substring ['#', c1, c2, c3, c4, c5, c6] 1 3 = [c1, c2] := rfl
  have s2 : substring ['#', c1, c2, c3, c4, c5, c6] 3 5 = [c3, c4] := rfl
  have s3 : substring ['#', c1, c2, c3, c4, c5, c6] 5 7 = [c5, c6] := rfl
  have e24 : shiftLeft 1 24 = 16777216 := by
    rw [shiftLeft_small 1 24 16777216 (by norm_num) (by norm_num) (by norm_num) (by norm_num)]
    norm_num
  have e16 : shiftLeft ((clamped (16 * v1 + v2) d : Nat) : Int) 16 =
      ((clamped (16 * v1 + v2) d : Nat) : Int) * 65536 :=
    shiftLeft_small _ 16 65536 (by norm_num) (by omega) (by omega) (by norm_num)
  have e8 : shiftLeft ((clamped (16 * v3 + v4) d : Nat) : Int) 8 =
      ((clamped (16 * v3 + v4) d : Nat) : Int) * 256 :=
    shiftLeft_small _ 8 256 (by norm_num) (by omega) (by omega) (by norm_num)
  have esum : (16777216 : Int) + ((clamped (16 * v1 + v2) d : Nat) : Int) * 65536 +
      ((clamped (16 * v3 + v4) d : Nat) : Int) * 256 + ((clamped (16 * v5 + v6) d : Nat) : Int)
      = ((16777216 + clamped (16 * v1 + v2) d * 65536 + clamped (16 * v3 + v4) d * 256 +
          clamped (16 * v5 + v6) d : Nat) : Int) := by
    push_cast; rfl
  unfold adjustColorBrightness
  simp only [s1, s2, s3, er, eg, eb, Option.getD_some, e24, e16, e8, esum, toString16,
    Int.toNat_ofNat]
  rw [toDigits_colour _ _ _ hr hg hb]

/-- C27: for a colour `#` followed by six hexadecimal digits and an integer `d`,
`adjustColorBrightness` returns `#` followed by the two-digit lowercase forms of the three
channels clamped as `min(255, max(0, c + d))`; with `d = -20` no channel increases, and with
`d = 0` the result is the input in lowercase. -/
theorem adjustColorBrightness_spec (c1 c2 c3 c4 c5 c6 : Char) (v1 v2 v3 v4 v5 v6 : Nat)
    (d : Int)
    (h1 : hexDigitValue c1 = some v1) (h2 : hexDigitValue c2 = some v2)
    (h3 : hexDigitValue c3 = some v3) (h4 : hexDigitValue c4 = some v4)
    (h5 : hexDigitValue c5 = some v5) (h6 : hexDigitValue c6 = some v6) :
    adjustColorBrightness ⟨['#', c1, c2, c3, c4, c5, c6]⟩ d =
      ⟨'#' :: (hex2 (clamped (16 * v1 + v2) d) ++
        (hex2 (clamped (16 * v3 + v4) d) ++ hex2 (clamped (16 * v5 + v6) d)))⟩ ∧
    (∀ c ∈ (adjustColorBrightness ⟨['#', c1, c2, c3, c4, c5, c6]⟩ d).data.drop 1,
      c ∈ "0123456789abcdef".data) ∧
    (clamped (16 * v1 + v2) (-20) ≤ 16 * v1 + v2 ∧
      clamped (16 * v3 + v4) (-20) ≤ 16 * v3 + v4 ∧
      clamped (16 * v5 + v6) (-20) ≤ 16 * v5 + v6) ∧
    adjustColorBrightness ⟨['#', c1, c2, c3, c4, c5, c6]⟩ 0 =
      ⟨['#', c1.toLower, c2.toLower, c3.toLower, c4.toLower, c5.toLower, c6.toLower]⟩ := by
  have l1 := hexDigitValue_lt h1
  have l2 := hexDigitValue_lt h2
  have l3 := hexDigitValue_lt h3
  have l4 := hexDigitValue_lt h4
  have l5 := hexDigitValue_lt h5
  have l6 := hexDigitValue_lt h6
  have hmain := adjust_eq c1 c2 c3 c4 c5 c6 v1 v2 v3 v4 v5 v6 d h1 h2 h3 h4 h5 h6
  refine ⟨hmain, ?_, ?_, ?_⟩
  · rw [hmain]
    intro c hc
    simp only [List.drop_succ_cons, List.drop_zero, List.mem_append] at hc
    rcases hc with hc | hc | hc
    · exact hex2_lowercase _ (channel_eq c1 c2 v1 v2 d h1 h2).2 c hc
    · exact hex2_lowercase _ (channel_eq c3 c4 v3 v4 d h3 h4).2 c hc
    · exact hex2_lowercase _ (channel_eq c5 c6 v5 v6 d h5 h6).2 c hc
  · unfold clamped
    omega
  · rw [adjust_eq c1 c2 c3 c4 c5 c6 v1 v2 v3 v4 v5 v6 0 h1 h2 h3 h4 h5 h6]
    have z : ∀ a b : Nat, a < 16 → b < 16 →
        hex2 (clamped (16 * a + b) 0) = [Nat.digitChar a, Nat.digitChar b] := by
      intro a b ha hb
      have e : clamped (16 * a + b) 0 = 16 * a + b := by unfold clamped; omega
      have e1 : (16 * a + b) / 16 = a := by omega
      have e2 : (16 * a + b) % 16 = b := by omega
      rw [e, hex2, e1, e2]
    rw [z v1 v2 l1 l2, z v3 v4 l3 l4, z v5 v6 l5 l6, digitChar_of_hex h1, digitChar_of_hex h2,
      digitChar_of_hex h3, digitChar_of_hex h4, digitChar_of_hex h5, digitChar_of_hex h6]
    rfl

/-- The border colour of the chart for the stage colour `#3498DB`. -/
theorem adjustColorBrightness_spec_witness :
    adjustColorBrightness ⟨['#', '3', '4', '9', '8', 'D', 'B']⟩ (-20) =
      ⟨'#' :: (hex2 (clamped (16 * 3 + 4) (-20)) ++
        (hex2 (clamped (16 * 9 + 8) (-20)) ++ hex2 (clamped (16 * 13 + 11) (-20))))⟩ ∧
    (∀ c ∈ (adjustColorBrightness ⟨['#', '3', '4', '9', '8', 'D', 'B']⟩ (-20)).data.drop 1,
      c ∈ "0123456789abcdef".data) ∧
    (clamped (16 * 3 + 4) (-20) ≤ 16 * 3 + 4 ∧
      clamped (16 * 9 + 8) (-20) ≤ 16 * 9 + 8 ∧
      clamped (16 * 13 + 11) (-20) ≤ 16 * 13 + 11) ∧
    adjustColorBrightness ⟨['#', '3', '4', '9', '8', 'D', 'B']⟩ 0 =
      ⟨['#', '3'.toLower, '4'.toLower, '9'.toLower, '8'.toLower, 'D'.toLower,
        'B'.toLower]⟩ :=
  adjustColorBrightness_spec '3' '4' '9' '8' 'D' 'B' 3 4 9 8 13 11 (-20)
    (by decide) (by decide) (by decide) (by decide) (by decide) (by decide)

set_option maxRecDepth 100000 in
/-- The border colour for `#3498DB` is `#2084c7`; channels stop at 0 and at 255; a colour
that is too short gives `#aN`. -/
theorem adjustColorBrightness_examples :
    adjustColorBrightness "#3498DB" (-20) = "#2084c7" ∧
    adjustColorBrightness "#3498DB" 0 = "#3498db" ∧
    adjustColorBrightness "#0a0000" (-20) = "#000000" ∧
    adjustColorBrightness "#fffffe" 1000 = "#ffffff" ∧
    adjustColorBrightness "#12" 5 = "#aN" := by
  decide

end StageTransitions
